import Mathlib

/-!
Verification of the release-log model of
`utils/git_log_review_commits_advanced.py`.

Strings are modelled as `List Char` (one element per Unicode code point,
matching Python `str` indexing).  The three module-level regexes
(`re_bugify`, `re_commitify`, `re_prettify`) are modelled as executable
substitution functions that follow Python `re.sub` semantics (leftmost,
non-overlapping matches, greedy/lazy quantifiers as in the source
patterns).  ASCII case folding stands in for `re.IGNORECASE` and
`Char.isWhitespace` for `\s`, which agree on all inputs considered here.
-/

/-- A decoded string: list of code points. -/
abbrev Str := List Char

/-- Does `p` occur at the start of `s`? (Python `str.startswith`.) -/
def strBegins : Str → Str → Bool
  | [], _ => true
  | _ :: _, [] => false
  | p :: ps, c :: cs => p = c && strBegins ps cs

/-- Does `p` occur anywhere inside `s`? (Python `p in s`.) -/
def isSubstr (p : Str) : Str → Bool
  | [] => strBegins p []
  | s@(_ :: rest) => strBegins p s || isSubstr p rest

/-- Python `str.strip(chars)`: remove characters of `cs` from both ends. -/
def pyStrip (cs : Str) (s : Str) : Str :=
  ((s.dropWhile (cs.contains ·)).reverse.dropWhile (cs.contains ·)).reverse

/-- Python `str.strip()` with no argument: strip whitespace from both ends. -/
def pyStripWS (s : Str) : Str :=
  ((s.dropWhile (·.isWhitespace)).reverse.dropWhile (·.isWhitespace)).reverse

/-- Index of the first occurrence of character `c` (Python `str.find` on a
single-character needle, `none` for -1). -/
def firstIdx (c : Char) : Str → Option Nat
  | [] => none
  | d :: rest => if d = c then some 0 else (firstIdx c rest).map (· + 1)

/-- Start index of the last occurrence of `p` in `s` (Python `str.rfind`,
`none` for -1). -/
def rfindSub (p s : Str) : Option Nat :=
  ((List.range (s.length + 1)).filter (fun i => strBegins p (s.drop i))).getLast?

/-- Split a text on newline characters (the lines of a file). -/
def splitNL : Str → List Str
  | [] => [[]]
  | '\n' :: rest => [] :: splitNL rest
  | c :: rest =>
    match splitNL rest with
    | l :: ls => (c :: l) :: ls
    | [] => [[c]]

/-- Join lines with newline characters (inverse of `splitNL`). -/
def joinNL : List Str → Str
  | [] => []
  | [l] => l
  | l :: ls => l ++ '\n' :: joinNL ls

/-- Decimal digits of a natural number, fuel-driven so that it reduces by
`decide` (models the `%d` format). -/
def natDigitsAux : Nat → Nat → Str
  | 0, _ => []
  | fu + 1, n => if n < 10 then [Nat.digitChar n] else natDigitsAux fu (n / 10) ++ [Nat.digitChar (n % 10)]

/-- Decimal representation of a natural number. -/
def natDigits (n : Nat) : Str := natDigitsAux (n + 1) n

/-- ASCII case-insensitive comparison of a subject character with a
lowercase pattern character (models `re.IGNORECASE`). -/
def icaseIs (c : Char) (t : Char) : Bool := c.toLower = t

/-- Hexadecimal digit test (the `[0-9a-fA-F]` class of `re_commitify`). -/
def isHexC (c : Char) : Bool := c.isDigit || ('a' ≤ c && c ≤ 'f') || ('A' ≤ c && c ≤ 'F')

/-- Word-character test (`\w`); ASCII approximation of Python semantics. -/
def isWordC (c : Char) : Bool := c.isAlphanum || c = '_'

/-- The `-`, `:`, `,` separator class of `re_prettify`. -/
def isSepC (c : Char) : Bool := c = '-' || c = ':' || c = ','

/-- Model of `re_bugify.sub(r"{{BugReport|\1}}", s)` with
`re_bugify = T([0-9]{1,})`: every literal `T` directly followed by a
maximal nonempty digit run is replaced by the wrapped bug link.  Matches
are position-determined and non-overlapping, so a single right-to-left
structural pass agrees with Python's left-to-right scan. -/
def bugifySub : Str → Str
  | [] => []
  | c :: rest =>
    let out := bugifySub rest
    if c = 'T' then
      let ds := rest.takeWhile (·.isDigit)
      if ds.isEmpty then c :: out
      else "\x7b\x7bBugReport|".data ++ ds ++ "\x7d\x7d".data ++ out.drop ds.length
    else c :: out

/-- Length of a commit token `r(B|BA|BAC|BTS)[0-9a-fA-F]{6,}` starting at
the head of `s`, trying the alternatives in the pattern's order (`none`
when the pattern does not match here). -/
def tokenLen (s : Str) : Option Nat :=
  match s with
  | 'r' :: 'B' :: rest =>
    let h1 := rest.takeWhile isHexC
    if 6 ≤ h1.length then some (2 + h1.length)
    else
      match rest with
      | 'A' :: 'C' :: rest2 =>
        let h3 := rest2.takeWhile isHexC
        if 6 ≤ h3.length then some (4 + h3.length) else none
      | 'A' :: rest2 =>
        let h2 := rest2.takeWhile isHexC
        if 6 ≤ h2.length then some (3 + h2.length) else none
      | 'T' :: 'S' :: rest2 =>
        let h4 := rest2.takeWhile isHexC
        if 6 ≤ h4.length then some (4 + h4.length) else none
      | _ => none
  | _ => none

/-- Model of `re_commitify.sub(r"{{GitCommit|\1}}", s)` with
`re_commitify = \W(r(?:B|BA|BAC|BTS)[0-9a-fA-F]{6,})`.  The non-word
character that anchors the match is consumed by the match and therefore
dropped from the output, exactly as in the source.  Tokens consist of word
characters only, so matches never overlap and the structural pass below
agrees with Python's scan. -/
def commitifySub : Str → Str
  | [] => []
  | c :: rest =>
    let out := commitifySub rest
    if isWordC c then c :: out
    else
      match tokenLen rest with
      | some n => "\x7b\x7bGitCommit|".data ++ rest.take n ++ "\x7d\x7d".data ++ out.drop n
      | none => c :: out

/-- Attempt to match the core-plus-trailer of `re_prettify`
(`Fix(?:ing|es)?\s*(?:for)?\s*T([0-9]{1,})` followed by
`\s*[-:,]*\s*`) at the head of `s`, case-insensitively.  Returns the
total span length and the digit group.  The pattern's optional groups
and stars are resolved greedily; for this pattern greedy resolution
coincides with full backtracking semantics. -/
def prettifyAt (s : Str) : Option (Nat × Str) :=
  match s with
  | f :: i :: x :: rest =>
    if icaseIs f 'f' && icaseIs i 'i' && icaseIs x 'x' then
      let (optLen, rest1) :=
        match rest with
        | a :: b :: c :: r =>
          if icaseIs a 'i' && icaseIs b 'n' && icaseIs c 'g' then (3, r)
          else if icaseIs a 'e' && icaseIs b 's' then (2, c :: r)
          else (0, rest)
        | a :: b :: r => if icaseIs a 'e' && icaseIs b 's' then (2, r) else (0, rest)
        | _ => (0, rest)
      let sp1 := (rest1.takeWhile (·.isWhitespace)).length
      let rest2 := rest1.drop sp1
      let (forLen, rest3) :=
        match rest2 with
        | a :: b :: c :: r =>
          if icaseIs a 'f' && icaseIs b 'o' && icaseIs c 'r' then (3, r) else (0, rest2)
        | _ => (0, rest2)
      let sp2 := (rest3.takeWhile (·.isWhitespace)).length
      let rest4 := rest3.drop sp2
      match rest4 with
      | t :: rest5 =>
        if icaseIs t 't' then
          let ds := rest5.takeWhile (·.isDigit)
          if ds.isEmpty then none
          else
            let rest6 := rest5.drop ds.length
            let sp3 := (rest6.takeWhile (·.isWhitespace)).length
            let rest7 := rest6.drop sp3
            let pu := (rest7.takeWhile isSepC).length
            let rest8 := rest7.drop pu
            let sp4 := (rest8.takeWhile (·.isWhitespace)).length
            some (3 + optLen + sp1 + forLen + sp2 + 1 + ds.length + sp3 + pu + sp4, ds)
        else none
      | [] => none
    else none
  | _ => none

/-- Position of the first core match of `re_prettify` in `s`. -/
def findCore : Str → Option Nat
  | [] => none
  | s@(_ :: rest) =>
    if (prettifyAt s).isSome then some 0 else (findCore rest).map (· + 1)

/-- One scan of `re_prettify.sub(r"Fix {{BugReport|\3}}: \1", s)`.
For each leftmost core match at `q`, the lazy prefix group
`(.{,20}?)` captures as many as possible (being part of the leftmost
match start) of the up-to-20 non-newline characters before `q`; the whole
match is replaced by the bug link followed by the captured prefix, and
scanning resumes after the match.  Fuel bounds the number of matches
(each consumes at least five characters). -/
def prettifyGo : Nat → Str → Str
  | 0, s => s
  | fu + 1, s =>
    match findCore s with
    | none => s
    | some q =>
      match prettifyAt (s.drop q) with
      | none => s
      | some (span, ds) =>
        let pre := s.take q
        let g1 := min 20 ((pre.reverse.takeWhile (fun c => c ≠ '\n')).length)
        let p := q - g1
        s.take p ++ "Fix \x7b\x7bBugReport|".data ++ ds ++ "\x7d\x7d: ".data ++ pre.drop p
          ++ prettifyGo fu (s.drop (q + span))

/-- Model of `re_prettify.sub(r"Fix {{BugReport|\3}}: \1", s)`. -/
def prettifySubF (s : Str) : Str := prettifyGo s.length s

/-- A commit record as the script consumes it: decoded sha1 and message
body (the other fields play no role in the release log). -/
structure Commit where
  sha1 : Str
  body : Str

/-- Prefix of the body before the first blank line (Python
`body.split("\n\n")[0]`). -/
def beforeNN : Str → Str
  | '\n' :: '\n' :: _ => []
  | c :: rest => c :: beforeNN rest
  | [] => []

/-- The characters stripped from a commit summary. -/
def summaryStripSet : Str := " :.;-\n".data

/-- `gen_commit_summary`: first paragraph, stripped of surrounding
punctuation, inner newlines replaced by spaces. -/
def gen_commit_summary (c : Commit) : Str :=
  (pyStrip summaryStripSet (beforeNN c.body)).map (fun ch => if ch = '\n' then ' ' else ch)

/-- `gen_commit_message_pretty`: returns the wiki prose and the
`unreported` flag (the source communicates the flag through a mutable
one-element list; here it is a result component). -/
def gen_commit_message_pretty (c : Commit) : Str × Bool :=
  let body := gen_commit_summary c
  let tbody := prettifySubF body
  let (tbody2, unrep) :=
    if tbody = body then ("Fix unreported: ".data ++ body, true) else (tbody, false)
  (commitifySub (bugifySub tbody2), unrep)

/-- Errors a Python run can die with in the modelled fragment. -/
inductive PyErr where
  | typeErr
  | indexErr
deriving DecidableEq, Repr

/-- `gen_commit_pretty`: the bracketed wiki bullet when a release state is
given.  With `rstate = None` the source evaluates
`"* %s ({{GitCommit|rB%s}})." % (rstate, body, sha)` — a two-placeholder
format applied to three arguments — which raises `TypeError`; that branch
is therefore an error value. -/
def gen_commit_pretty (c : Commit) (rstate : Option Str) : Except PyErr (Str × Bool) :=
  let (body, unrep) := gen_commit_message_pretty c
  match rstate with
  | some st =>
    .ok ("* [".data ++ st ++ "] ".data ++ body ++ " (\x7b\x7bGitCommit|rB".data
          ++ c.sha1.take 10 ++ "\x7d\x7d).".data, unrep)
  | none => .error .typeErr

/-- `gen_commit_unprettify`: strip a leading `* [state] ` prefix and a
trailing ` ({{GitCommit|rB...}}).` suffix. -/
def gen_commit_unprettify (body : Str) : Str :=
  let body1 :=
    if strBegins "* [".data body then
      match firstIdx ']' body with
      | some e => if 0 < e then body.drop (e + 2) else body
      | none => body
    else body
  match rfindSub "(\x7b\x7bGitCommit|rB".data body1 with
  | some st => if 0 < st then body1.take (st - 1) else body1
  | none => body1

/-! ### The static category tree and the release-log model -/

/-- `BUGFIX_CATEGORIES`: the static two-level taxonomy. -/
def BUGFIX_CATEGORIES : List (Str × List Str) :=
  [ ("Objects / Animation / GP".data,
      ["Animation".data, "Constraints".data, "Grease Pencil".data, "Objects".data,
       "Dependency Graph".data]),
    ("Data / Geometry".data,
      ["Armatures".data, "Curve/Text Editing".data, "Mesh Editing".data, "Meta Editing".data,
       "Modifiers".data, "Material / Texture".data]),
    ("Physics / Simulations / Sculpt / Paint".data,
      ["Particles".data, "Physics / Hair / Simulations".data, "Sculpting / Painting".data]),
    ("Image / Video / Render".data,
      ["Image / UV Editing".data, "Masking".data, "Motion Tracking".data,
       "Movie Clip Editor".data, "Nodes / Compositor".data, "Render".data,
       "Render: Cycles".data, "Render: Freestyle".data, "Sequencer".data]),
    ("UI / Spaces / Transform".data,
      ["3D View".data, "Input (NDOF / 3D Mouse)".data, "Outliner".data, "Text Editor".data,
       "Transform".data, "User Interface".data]),
    ("Game Engine".data, []),
    ("System / Misc".data,
      ["Audio".data, "Collada".data, "File I/O".data, "Other".data, "Python".data,
       "System".data]) ]

/-- The set `main_cats` of main-category names. -/
def mainCats : List Str := BUGFIX_CATEGORIES.map (·.1)

/-- The reverse lookup `sub_cats_to_main_cats`. -/
def subToMain : List (Str × Str) :=
  BUGFIX_CATEGORIES.flatMap (fun p => p.2.map (fun s => (s, p.1)))

/-- First value bound to key `k` in an association list (Python `dict`
lookup; the parse and mutation code keeps keys unique). -/
def alGet {κ α : Type} [DecidableEq κ] (k : κ) : List (κ × α) → Option α
  | [] => none
  | (k', v) :: rest => if k' = k then some v else alGet k rest

/-- One reported-or-unreported half of a main-category bucket:
sub-category name (or `none`) to entry list. -/
abbrev SubMap := List (Option Str × List Str)

/-- A main-category value: reported map and unreported map. -/
abbrev CatPair := SubMap × SubMap

/-- Python `d.setdefault(k, []).append(e)` on a sub-category map. -/
def subApp (k : Option Str) (e : Str) : SubMap → SubMap
  | [] => [(k, [e])]
  | (k', v) :: rest => if k' = k then (k', v ++ [e]) :: rest else (k', v) :: subApp k e rest

/-- The in-memory release log: header text, the `__COUNT__` pair, the
`__RSTATES__` map and the per-main-category buckets (key `none` is the
uncategorized bucket). -/
structure RLog where
  header : Str
  count0 : Nat
  count1 : Nat
  rstates : List (Str × List Str)
  cats : List (Option Str × CatPair)

/-- Bucket pair of a main-category key (`({}, {})` when absent). -/
def catGet (m : RLog) (k : Option Str) : CatPair := (alGet k m.cats).getD ([], [])

/-- Recursor behind `catAppend`. -/
def catsApp (mainK subK : Option Str) (rep : Bool) (e : Str) :
    List (Option Str × CatPair) → List (Option Str × CatPair)
  | [] => [(mainK, if rep then ([(subK, [e])], []) else ([], [(subK, [e])]))]
  | (k, pr) :: rest =>
    if k = mainK then
      (k, if rep then (subApp subK e pr.1, pr.2) else (pr.1, subApp subK e pr.2)) :: rest
    else (k, pr) :: catsApp mainK subK rep e rest

/-- `release_log.setdefault(main,({},{}))[i].setdefault(sub,[]).append(e)`:
append entry `e` to the bucket `(mainK, subK, rep)`. -/
def catAppend (m : RLog) (mainK : Option Str) (subK : Option Str) (rep : Bool) (e : Str) : RLog :=
  { m with cats := catsApp mainK subK rep e m.cats }

/-- The entry list of one `(main, sub, reported?)` bucket, `[]` when the
bucket does not exist.  Bucket equality of two models is compared through
this accessor. -/
def getBucket (m : RLog) (mainK : Option Str) (subK : Option Str) (rep : Bool) : List Str :=
  let pr := catGet m mainK
  ((alGet subK (if rep then pr.1 else pr.2)).getD [])

/-- Recursor behind `rstApp`. -/
def rstGo (k : Str) (e : Str) : List (Str × List Str) → List (Str × List Str)
  | [] => []
  | (k', v) :: rest => if k' = k then (k', v ++ [e]) :: rest else (k', v) :: rstGo k e rest

/-- Append to a tracked release-state list (the key is known present). -/
def rstApp (m : RLog) (k : Str) (e : Str) : RLog :=
  { m with rstates := rstGo k e m.rstates }

/-- `{k: [] for k in rstate_list}`: duplicate labels collapse to one key. -/
def rstatesInit (rlist : List Str) : List (Str × List Str) :=
  rlist.foldl (fun acc k => if (alGet k acc).isSome then acc else acc ++ [(k, [])]) []

/-- The ignore-block delimiters. -/
def IGNORE_START_LINE : Str := "<!-- IGNORE_START -->".data

/-- End delimiter of an ignore block. -/
def IGNORE_END_LINE : Str := "<!-- IGNORE_END -->".data

/-- Header written by `release_log_init` when no previous file exists. -/
def freshHeader (blender_rev start_sha1 end_sha1 : Str) (rstate : Option Str) : Str :=
  "= Blender ".data ++ blender_rev ++ ": Bug Fixes =\n\n".data
    ++ (match rstate with
        | some st => "[".data ++ st ++ "] ".data
        | none => [])
    ++ "Changes from revision \x7b\x7bGitCommit|rB".data ++ start_sha1.take 10
    ++ "\x7d\x7d to \x7b\x7bGitCommit|rB".data ++ end_sha1.take 10
    ++ "\x7d\x7d, inclusive.\n\n".data

/-- `release_log_init` when the release-log file does not exist yet:
fresh header, zero counts, empty tracked release-state lists, no buckets. -/
def release_log_fresh (blender_rev start_sha1 end_sha1 : Str) (rstate : Option Str)
    (rstate_list : List Str) : RLog :=
  ⟨freshHeader blender_rev start_sha1 end_sha1 rstate, 0, 0, rstatesInit rstate_list, []⟩

/-- Heading state assigned by a `== Name ==` line (source lines 344-349
and 377-382): a known main category selects it; otherwise the text is
treated as a sub-category and its main category looked up (possibly
`none`). -/
def mainHeadState (name : Str) : Option Str × Option Str :=
  if mainCats.contains name then (some name, none)
  else (alGet name subToMain, some name)

/-- Heading state assigned by a `=== Name ===` line (source lines
366-374). -/
def subHeadState (name : Str) : Option Str × Option Str :=
  match alGet name subToMain with
  | some mc => (some mc, some name)
  | none => if mainCats.contains name then (some name, none) else (none, some name)

/-- Parser state while walking the body of an existing release log. -/
structure PState where
  ignore : Bool
  main : Option Str
  sub : Option Str
  m : RLog

/-- One body line of `release_log_init`'s parse loop (source lines
325-401, after the header was consumed). -/
def bodyStep (st : PState) (l0 : Str) : PState :=
  if isSubstr IGNORE_END_LINE l0 then { st with ignore := false }
  else if st.ignore || isSubstr IGNORE_START_LINE l0 then { st with ignore := true }
  else
    let l := pyStrip " \n".data l0
    if strBegins "===".data l then
      let p := subHeadState (pyStrip " =".data l)
      { st with main := p.1, sub := p.2 }
    else if strBegins "==".data l then
      let p := mainHeadState (pyStrip " =".data l)
      { st with main := p.1, sub := p.2 }
    else if isSubstr "Fix ".data l then
      let m := st.m
      let m :=
        if isSubstr "Fix \x7b\x7bBugReport|".data l then
          { catAppend m st.main st.sub true l with count0 := m.count0 + 1 }
        else
          { catAppend m st.main st.sub false l with count1 := m.count1 + 1 }
      let lr := pyStrip "* ".data l
      let m :=
        if strBegins "[".data lr then
          match firstIdx ']' lr with
          | some e =>
            if 0 < e then
              let rst := (lr.drop 1).take (e - 1)
              if (alGet rst m.rstates).isSome then
                rstApp m rst ("* ".data ++ pyStripWS (lr.drop (e + 1)))
              else m
            else m
          | none => m
        else m
      { st with m := m }
    else st

/-- The inner header loop (source lines 335-352): collect header lines
until the first `== ... ==` heading, honouring ignore blocks.  Returns
the ignore flag, the collected header lines, the heading-derived state
when a heading was found, and the unconsumed lines. -/
def parseHeaderLoop (ign : Bool) (hdr : List Str) :
    List Str → Bool × List Str × Option (Option Str × Option Str) × List Str
  | [] => (ign, hdr, none, [])
  | hl :: rest =>
    if isSubstr IGNORE_END_LINE hl then parseHeaderLoop false hdr rest
    else if ign || isSubstr IGNORE_START_LINE hl then parseHeaderLoop true hdr rest
    else
      let hl' := pyStrip " \n".data hl
      if strBegins "==".data hl' then
        (false, hdr, some (mainHeadState (pyStrip " =".data hl')), rest)
      else parseHeaderLoop ign (hdr ++ [hl']) rest

/-- Find the first non-ignored line (the start of the outer loop before
any header line was recorded). -/
def findFirstLine (ign : Bool) : List Str → Bool × Option (Str × List Str)
  | [] => (ign, none)
  | l :: rest =>
    if isSubstr IGNORE_END_LINE l then findFirstLine false rest
    else if ign || isSubstr IGNORE_START_LINE l then findFirstLine true rest
    else (ign, some (pyStrip " \n".data l, rest))

/-- Three consecutive apostrophes (wiki italics), kept out of string
literals. -/
def apos3 : Str := [Char.ofNat 39, Char.ofNat 39, Char.ofNat 39]

/-- Two consecutive apostrophes. -/
def apos2 : Str := [Char.ofNat 39, Char.ofNat 39]

/-- Header rebuilt from a parsed file (source lines 354-362): the
collected header lines joined by newlines, then a fresh revision-range
line naming the current branch. -/
def regenHeader (hdrLines : List Str) (branch start_sha1 end_sha1 : Str)
    (rstate : Option Str) : Str :=
  joinNL hdrLines
    ++ (match rstate with
        | some st => "[".data ++ st ++ "] ".data
        | none => [])
    ++ "Changes from revision \x7b\x7bGitCommit|".data ++ start_sha1.take 10
    ++ "\x7d\x7d to \x7b\x7bGitCommit|".data ++ end_sha1.take 10
    ++ "\x7d\x7d, inclusive (".data ++ apos2 ++ branch ++ apos2 ++ " branch).\n\n".data

/-- `release_log_init` when the file exists: seed the model from its
lines.  `branch` is what `GitRepo(source_dir).branch` yields.  The
header block is everything before the first `== ... ==` heading; that
heading primes the category state, and the remaining lines are folded
through `bodyStep`. -/
def release_log_parse (branch blender_rev start_sha1 end_sha1 : Str) (rstate : Option Str)
    (rstate_list : List Str) (lines : List Str) : RLog :=
  let m0 := release_log_fresh blender_rev start_sha1 end_sha1 rstate rstate_list
  match findFirstLine false lines with
  | (_, none) => m0
  | (ign1, some (l0, rest)) =>
    let (ign2, hdr, headSt, rest2) := parseHeaderLoop ign1 [l0] rest
    let m1 := { m0 with
                header := regenHeader hdr branch start_sha1 end_sha1 rstate,
                count0 := 0, count1 := 0 }
    match headSt with
    | none => m1
    | some (mc, sc) => (rest2.foldl bodyStep ⟨ign2, mc, sc, m1⟩).m

/-! ### The mutation and the serializer (`write_release_log`) -/

/-- The entry lines contributed by key `key` of a bucket pair, each
nonempty list followed by one blank line (the two `for data in
main_cat_data` loops: reported first, then unreported). -/
def pairView (pr : CatPair) (key : Option Str) : List Str :=
  (let es := (alGet key pr.1).getD []
   if es.isEmpty then [] else es ++ [[]])
    ++ (let es := (alGet key pr.2).getD []
        if es.isEmpty then [] else es ++ [[]])

/-- The `main_cat_lines` block of one main category (source lines
429-448): heading, direct entries, blank-line padding, qualifying
sub-category blocks; the whole block is kept only when longer than two
lines. -/
def mainCatBlock (m : RLog) (mainCat : Str) (subCats : List Str) : List Str :=
  let pr := catGet m (some mainCat)
  let base := ("== ".data ++ mainCat ++ " ==".data) :: pairView pr none
  let base := if base.length = 1 then base ++ [[]] else base
  let full := base ++ subCats.flatMap (fun sc =>
    let sl := ("=== ".data ++ sc ++ " ===".data) :: pairView pr (some sc)
    if 2 < sl.length then sl else [])
  if 2 < full.length then full else []

/-- The trailing `UNSORTED` block (source lines 450-459): present only
when the `None` main-category key exists, and kept only when it yields
more than two lines.  Note that only the `None` sub-category entries of
the bucket are consulted. -/
def unsortedBlock (m : RLog) : List Str :=
  if (alGet none m.cats).isSome then
    let pr := catGet m none
    let base := ("== UNSORTED ==\n\n".data) :: pairView pr none
    if 2 < base.length then base else []
  else []

/-- The `lines` list built by `write_release_log` (source lines 425-459). -/
def catLines (m : RLog) : List Str :=
  BUGFIX_CATEGORIES.flatMap (fun p => mainCatBlock m p.1 p.2) ++ unsortedBlock m

/-- The fixed `{{Note|...}}` disclaimer paragraph written inside the
first ignore block. -/
def noteBlock : Str :=
  "\x7b\x7bNote|Note|Before RC1 (i.e. during regular development of next version in main branch), only fixes of issues which already existed in previous official releases are listed here. Fixes for regressions introduced since last release, or for new features, are ".data
    ++ apos3 ++ "not".data ++ apos3
    ++ " listed here.<br/>For following RCs and final release, ".data
    ++ apos3 ++ "all".data ++ apos3
    ++ " backported fixes are listed.\x7d\x7d".data

/-- The release-state appendix section for one tracked label. -/
def rstateSection (m : RLog) (rst : Str) : Str :=
  let es := (alGet rst m.rstates).getD []
  if es.isEmpty then []
  else
    "== ".data ++ rst ++ " ==\n".data
      ++ "For ".data ++ rst ++ ", ".data ++ natDigits es.length
      ++ " bugs were fixed:\n\n".data
      ++ joinNL es ++ "\n\n".data

/-- The full document text written by `write_release_log` (source lines
461-485): header, count summary inside an ignore block, the category
lines, and the release-state appendix inside a second ignore block. -/
def renderText (m : RLog) (rstate_list : List Str) : Str :=
  m.header
    ++ IGNORE_START_LINE ++ "\n".data
    ++ "Total fixed bugs: ".data ++ natDigits (m.count0 + m.count1)
    ++ " (".data ++ natDigits m.count0 ++ " from tracker, ".data ++ natDigits m.count1
    ++ " reported/found by other ways).\n\n".data
    ++ noteBlock ++ "\n".data ++ IGNORE_END_LINE ++ "\n\n".data
    ++ joinNL (catLines m) ++ "\n".data
    ++ IGNORE_START_LINE ++ "\n\n<hr/>\n\n".data
    ++ (rstate_list.flatMap (rstateSection m))
    ++ IGNORE_END_LINE ++ "\n".data

/-- The mutation part of `write_release_log` (source lines 406-423):
resolve the category indices, append the rendered entry to the
reported or unreported bucket, bump the matching counter, and — when the
release state is a tracked label — evaluate `gen_commit_pretty(c)`
(which raises `TypeError`, see `gen_commit_pretty`).  Errors model the
interpreter dying; the partially-mutated in-memory state is then
unreachable. -/
def addEntry (m : RLog) (c : Commit) (cat : Nat × Option Nat) (rstate : Option Str) :
    Except PyErr RLog :=
  match BUGFIX_CATEGORIES.get? cat.1 with
  | none => .error .indexErr
  | some (mainCat, subCats) =>
    match (match cat.2 with
           | some j => (subCats.get? j).elim (Except.error PyErr.indexErr) (fun s => .ok (some s))
           | none => .ok none) with
    | .error e => .error e
    | .ok subCat =>
      match gen_commit_pretty c rstate with
      | .error e => .error e
      | .ok (entry, unrep) =>
        let m' :=
          if unrep then
            { catAppend m (some mainCat) subCat false entry with count1 := m.count1 + 1 }
          else
            { catAppend m (some mainCat) subCat true entry with count0 := m.count0 + 1 }
        match rstate with
        | some st =>
          if (alGet st m'.rstates).isSome then
            match gen_commit_pretty c none with
            | .error e => .error e
            | .ok (e2, _) => .ok (rstApp m' st e2)
          else .ok m'
        | none => .ok m'

/-- `write_release_log`: mutate the model for the accepted commit, then
serialize the whole document (the file write is modelled by returning
the text). -/
def write_release_log (m : RLog) (c : Commit) (cat : Nat × Option Nat) (rstate : Option Str)
    (rstate_list : List Str) : Except PyErr (RLog × Str) :=
  match addEntry m c cat rstate with
  | .error e => .error e
  | .ok m' => .ok (m', renderText m' rstate_list)

/-- Iterated `addEntry` over a list of accepted commits. -/
def addEntries (m : RLog) : List (Commit × (Nat × Option Nat) × Option Str) → Except PyErr RLog
  | [] => .ok m
  | (c, cat, rst) :: rest =>
    match addEntry m c cat rst with
    | .error e => .error e
    | .ok m' => addEntries m' rest

/-! ### General lemmas -/

/-- A prettify scan with no core match anywhere leaves the string
unchanged. -/
theorem prettifySubF_of_none {s : Str} (h : findCore s = none) : prettifySubF s = s := by
  unfold prettifySubF
  cases hl : s.length with
  | zero => rfl
  | succ n => simp [prettifyGo, h]

/-- Does the string contain a bare bug-number token (`T` directly
followed by a digit), i.e. a `re_bugify` match? -/
def hasBareT : Str → Bool
  | [] => false
  | c :: rest =>
    (c = 'T' && (match rest with | d :: _ => d.isDigit | [] => false)) || hasBareT rest

/-- `re_bugify` leaves a string without bare bug-number tokens alone. -/
theorem bugifySub_of_no_bareT : ∀ {s : Str}, hasBareT s = false → bugifySub s = s := by
  intro s
  induction s with
  | nil => intro _; rfl
  | cons c rest ih =>
    intro h
    simp only [hasBareT, Bool.or_eq_false_iff, Bool.and_eq_false_iff] at h
    obtain ⟨h1, h2⟩ := h
    show (if c = 'T' then _ else _) = _
    by_cases hc : c = 'T'
    · have hds : rest.takeWhile (·.isDigit) = [] := by
        cases rest with
        | nil => rfl
        | cons d tl =>
          have hd : d.isDigit = false := by
            cases h1 with
            | inl h1 => simp [hc] at h1
            | inr h1 => simpa using h1
          simp [List.takeWhile, hd]
      simp [hc, hds, ih h2]
    · simp [hc, ih h2]

/-- Hex digits are word characters. -/
theorem isWordC_of_isHexC {c : Char} (h : isHexC c = true) : isWordC c = true := by
  unfold isHexC at h
  unfold isWordC Char.isAlphanum Char.isAlpha Char.isDigit Char.isLower Char.isUpper at *
  simp only [Bool.or_eq_true, Bool.and_eq_true, decide_eq_true_eq, Char.le_def,
    UInt32.le_def, BitVec.le_def] at h ⊢
  have e1 : ('a' : Char).val.toBitVec.toNat = 97 := by decide
  have e2 : ('f' : Char).val.toBitVec.toNat = 102 := by decide
  have e3 : ('A' : Char).val.toBitVec.toNat = 65 := by decide
  have e4 : ('F' : Char).val.toBitVec.toNat = 70 := by decide
  have e5 : ((48 : UInt32)).toBitVec.toNat = 48 := by decide
  have e6 : ((57 : UInt32)).toBitVec.toNat = 57 := by decide
  have e7 : ((97 : UInt32)).toBitVec.toNat = 97 := by decide
  have e8 : ((122 : UInt32)).toBitVec.toNat = 122 := by decide
  have e9 : ((65 : UInt32)).toBitVec.toNat = 65 := by decide
  have e10 : ((90 : UInt32)).toBitVec.toNat = 90 := by decide
  simp only [e1, e2, e3, e4, e5, e6, e7, e8, e9, e10] at h ⊢
  omega

/-- `commitifySub` copies a block of word characters verbatim. -/
theorem commitifySub_word_append : ∀ {w t : Str}, (∀ c ∈ w, isWordC c = true) →
    commitifySub (w ++ t) = w ++ commitifySub t := by
  intro w
  induction w with
  | nil => intro t _; rfl
  | cons c rest ih =>
    intro t hw
    have hc : isWordC c = true := hw c (by simp)
    show (if isWordC c then _ else _) = _
    simp [hc, ih (fun d hd => hw d (by simp [hd]))]

/-- `takeWhile` walks through a block that satisfies the predicate. -/
theorem takeWhile_append_all {p : Char → Bool} : ∀ {a b : Str}, (∀ c ∈ a, p c = true) →
    List.takeWhile p (a ++ b) = a ++ List.takeWhile p b := by
  intro a
  induction a with
  | nil => intro b _; rfl
  | cons c rest ih =>
    intro b ha
    have hc : p c = true := ha c (by simp)
    simp [List.takeWhile, hc, ih (fun d hd => ha d (by simp [hd]))]

/-- Dropping the length of a leading block uncovers the tail. -/
theorem listDropLeft : ∀ {a b : Str}, List.drop a.length (a ++ b) = b := by
  intro a
  induction a with
  | nil => intro b; rfl
  | cons c rest ih => intro b; simp [ih]

/-- Taking the length of a leading block yields that block. -/
theorem listTakeLeft : ∀ {a b : Str}, List.take a.length (a ++ b) = a := by
  intro a
  induction a with
  | nil => intro b; rfl
  | cons c rest ih => intro b; simp [ih]

/-! ### Claims C4, C5, C9 -/

/-- C4: `gen_commit_pretty` called with no release state is claimed to
return `* <prose> ({{GitCommit|rB<short-id>}}).`; in the source that
branch evaluates a two-placeholder `%`-format against three arguments and
raises `TypeError` instead.  The theorem evaluates the model at a
concrete failing input. -/
theorem C4_pretty_none_is_TypeError :
    gen_commit_pretty ⟨"abc1234567890def".data, "Fix T1: crash".data⟩ none
      = Except.error PyErr.typeErr := by
  rfl

/-- C5 counterexample: a commit with an empty body (hence an empty
extracted summary) does not make the transformer fail; it returns the
prose `Fix unreported: ` flagged unreported. -/
theorem C5_counterexample_empty_returns_prose :
    gen_commit_message_pretty ⟨"abc1234567".data, "".data⟩
      = ("Fix unreported: ".data, true) := by
  rfl

/-- C5 (amended): for every commit whose extracted summary is empty, the
message transformer does not fail with any `EmptyMessage` error — it has
no failure path at all — and returns the prose `Fix unreported: ` with
the unreported flag set. -/
theorem C5_amended_empty_summary (c : Commit) (h : gen_commit_summary c = []) :
    gen_commit_message_pretty c = ("Fix unreported: ".data, true) := by
  unfold gen_commit_message_pretty
  rw [h]
  rfl

/-- Witness for `C5_amended_empty_summary` at a concrete commit whose
body strips to nothing. -/
theorem C5_amended_witness :
    gen_commit_summary ⟨"abc1234567".data, " .:;- ".data⟩ = [] ∧
      gen_commit_message_pretty ⟨"abc1234567".data, " .:;- ".data⟩
        = ("Fix unreported: ".data, true) :=
  ⟨by decide, C5_amended_empty_summary _ (by decide)⟩

/-- C9 (amended): the first spec example holds verbatim; a message whose
summary has no fix pattern is flagged unreported and returns the summary
prefixed with `Fix unreported: ` and then still passed through the bare
bug-number and commit-reference rewrites (so exactly the plain prefixed
summary when those rewrites find nothing, as in the second example). -/
theorem C9_amended_transformer_cases :
    (∀ sha : Str,
      gen_commit_message_pretty ⟨sha, "Fix T12345: crash on save\n\nLonger body".data⟩
        = ("Fix \x7b\x7bBugReport|12345\x7d\x7d: crash on save".data, false))
  ∧ (∀ c : Commit, findCore (gen_commit_summary c) = none →
      gen_commit_message_pretty c
        = (commitifySub (bugifySub ("Fix unreported: ".data ++ gen_commit_summary c)), true))
  ∧ (∀ sha : Str,
      gen_commit_message_pretty ⟨sha, "Cleanup unused var".data⟩
        = ("Fix unreported: Cleanup unused var".data, true)) := by
  refine ⟨fun sha => by rfl, fun c h => ?_, fun sha => by rfl⟩
  have hp := prettifySubF_of_none h
  simp only [gen_commit_message_pretty, hp]
  simp

/-- Witness for `C9_amended_transformer_cases` at the spec's second
example message. -/
theorem C9_amended_witness :
    findCore (gen_commit_summary ⟨"x".data, "Cleanup unused var".data⟩) = none ∧
      gen_commit_message_pretty ⟨"x".data, "Cleanup unused var".data⟩
        = (commitifySub (bugifySub ("Fix unreported: ".data
            ++ gen_commit_summary ⟨"x".data, "Cleanup unused var".data⟩)), true) :=
  ⟨by decide, C9_amended_transformer_cases.2.1 _ (by decide)⟩

/-- C9 counterexample: for the fix-pattern-free message `See T99` the
transformer does not return the plain prefixed summary — the bare
bug-number rewrite still fires inside it. -/
theorem C9_counterexample_not_plain_prefix :
    (gen_commit_message_pretty ⟨"x".data, "See T99".data⟩).2 = true ∧
      (gen_commit_message_pretty ⟨"x".data, "See T99".data⟩).1
        ≠ "Fix unreported: ".data ++ gen_commit_summary ⟨"x".data, "See T99".data⟩ := by
  constructor
  · rfl
  · decide

/-! ### Claim C6 -/

/-- A non-word character followed by a non-token tail is copied by the
commit-reference pass. -/
theorem commitifySub_nonword_step {c : Char} (hc : isWordC c = false) {t : Str}
    (ht : tokenLen t = none) : commitifySub (c :: t) = c :: commitifySub t := by
  simp [commitifySub, hc, ht]

/-- A non-word character followed by a commit token triggers the
replacement: the non-word character is dropped, the token wrapped, and
scanning resumes after the token. -/
theorem commitifySub_nonword_tok {c : Char} (hc : isWordC c = false) {t : Str} {n : Nat}
    (ht : tokenLen t = some n) :
    commitifySub (c :: t)
      = "\x7b\x7bGitCommit|".data ++ t.take n ++ "\x7d\x7d".data
          ++ (commitifySub t).drop n := by
  simp [commitifySub, hc, ht]

/-- C6 counterexample: a summary already containing both markers is
re-processed with doubled braces around the commit reference — the pipe
before `rB...` satisfies the `\W` of `re_commitify`, so the wrapped
reference is wrapped again. -/
theorem C6_counterexample_double_wrap :
    isSubstr "\x7b\x7bGitCommit\x7b\x7bGitCommit|".data
      (gen_commit_message_pretty
        ⟨"x".data, "Fix \x7b\x7bBugReport|999\x7d\x7d: leak \x7b\x7bGitCommit|rBabc1234567\x7d\x7d".data⟩).1
      = true := by
  decide

/-- C6 (amended): the bug-number pass is idempotent on wrapped markers —
a string without a bare `T<digit>` token (as any `{{BugReport|...}}`
marker is) is left unchanged — but the commit-reference pass is not:
an already-wrapped `{{GitCommit|rB<hex>}}` marker is wrapped again,
producing doubled braces. -/
theorem C6_amended_partial_idempotence :
    (∀ s : Str, hasBareT s = false → bugifySub s = s)
  ∧ (∀ h : Str, 6 ≤ h.length → (∀ c ∈ h, isHexC c = true) →
      commitifySub ("\x7b\x7bGitCommit|rB".data ++ h ++ "\x7d\x7d".data)
        = "\x7b\x7bGitCommit".data ++ "\x7b\x7bGitCommit|rB".data ++ h
            ++ "\x7d\x7d".data ++ "\x7d\x7d".data) := by
  constructor
  · exact fun s hs => bugifySub_of_no_bareT hs
  · intro h hlen hhex
    have hword : ∀ c ∈ ('r' :: 'B' :: h), isWordC c = true := by
      intro c hc
      simp only [List.mem_cons] at hc
      rcases hc with rfl | rfl | hc
      · decide
      · decide
      · exact isWordC_of_isHexC (hhex c hc)
    have htail : commitifySub ('r' :: 'B' :: (h ++ "\x7d\x7d".data))
        = 'r' :: 'B' :: (h ++ "\x7d\x7d".data) := by
      have hw := commitifySub_word_append (w := 'r' :: 'B' :: h) (t := "\x7d\x7d".data) hword
      have hcc : commitifySub "\x7d\x7d".data = "\x7d\x7d".data := by decide
      simpa [hcc] using hw
    have htake : List.takeWhile isHexC (h ++ "\x7d\x7d".data) = h := by
      rw [takeWhile_append_all hhex]
      have hz : List.takeWhile isHexC "\x7d\x7d".data = [] := by decide
      simp [hz]
    have htok : tokenLen ('r' :: 'B' :: (h ++ "\x7d\x7d".data)) = some (2 + h.length) := by
      show (if 6 ≤ (List.takeWhile isHexC (h ++ "\x7d\x7d".data)).length then _ else _) = _
      rw [htake]
      simp [hlen]
    have hdrop : List.drop (2 + h.length) ('r' :: 'B' :: (h ++ "\x7d\x7d".data))
        = "\x7d\x7d".data := by
      rw [Nat.add_comm]
      show List.drop h.length (h ++ "\x7d\x7d".data) = "\x7d\x7d".data
      exact listDropLeft
    have htk : List.take (2 + h.length) ('r' :: 'B' :: (h ++ "\x7d\x7d".data))
        = 'r' :: 'B' :: h := by
      rw [Nat.add_comm]
      show 'r' :: 'B' :: List.take h.length (h ++ "\x7d\x7d".data) = _
      rw [listTakeLeft]
    calc commitifySub ("\x7b\x7bGitCommit|rB".data ++ h ++ "\x7d\x7d".data)
        = commitifySub ('{' :: '{' :: ("GitCommit".data
            ++ ('|' :: ('r' :: 'B' :: (h ++ "\x7d\x7d".data))))) := by
          simp
      _ = '{' :: commitifySub ('{' :: ("GitCommit".data
            ++ ('|' :: ('r' :: 'B' :: (h ++ "\x7d\x7d".data))))) := by
          exact commitifySub_nonword_step (by decide) (by rfl)
      _ = '{' :: '{' :: commitifySub ("GitCommit".data
            ++ ('|' :: ('r' :: 'B' :: (h ++ "\x7d\x7d".data)))) := by
          rw [commitifySub_nonword_step (by decide) (by rfl)]
      _ = '{' :: '{' :: ("GitCommit".data
            ++ commitifySub ('|' :: ('r' :: 'B' :: (h ++ "\x7d\x7d".data)))) := by
          rw [commitifySub_word_append (by decide)]
      _ = "\x7b\x7bGitCommit".data ++ "\x7b\x7bGitCommit|rB".data ++ h
            ++ "\x7d\x7d".data ++ "\x7d\x7d".data := by
          rw [commitifySub_nonword_tok (by decide) htok, htail, hdrop, htk]
          simp

/-- Witness for `C6_amended_partial_idempotence` at concrete marker
contents. -/
theorem C6_amended_witness :
    (hasBareT "Fix \x7b\x7bBugReport|999\x7d\x7d: leak".data = false ∧
      bugifySub "Fix \x7b\x7bBugReport|999\x7d\x7d: leak".data
        = "Fix \x7b\x7bBugReport|999\x7d\x7d: leak".data)
  ∧ (6 ≤ ("abc1234567".data : Str).length ∧
      commitifySub ("\x7b\x7bGitCommit|rB".data ++ "abc1234567".data ++ "\x7d\x7d".data)
        = "\x7b\x7bGitCommit".data ++ "\x7b\x7bGitCommit|rB".data ++ "abc1234567".data
            ++ "\x7d\x7d".data ++ "\x7d\x7d".data) :=
  ⟨⟨by decide, C6_amended_partial_idempotence.1 _ (by decide)⟩,
   ⟨by decide, C6_amended_partial_idempotence.2 _ (by decide) (by decide)⟩⟩

/-! ### Claim C7 -/

/-- `strBegins` holds on a string extended past the pattern. -/
theorem strBegins_append_self : ∀ (p t : Str), strBegins p (p ++ t) = true := by
  intro p
  induction p with
  | nil => intro t; rfl
  | cons c rest ih => intro t; simp [strBegins, ih]

/-- A matching pattern pins the subject's first character. -/
theorem strBegins_head {c : Char} {p s : Str} (h : strBegins (c :: p) s = true) :
    s.head? = some c := by
  cases s with
  | nil => simp [strBegins] at h
  | cons d t =>
    simp only [strBegins, Bool.and_eq_true, decide_eq_true_eq] at h
    simp [h.1]

/-- `firstIdx` skips a block not containing the character. -/
theorem firstIdx_append_of_not_mem {c : Char} : ∀ {a b : Str}, c ∉ a →
    firstIdx c (a ++ b) = (firstIdx c b).map (· + a.length) := by
  intro a
  induction a with
  | nil => intro b _; simp
  | cons d rest ih =>
    intro b h
    have hd : ¬ (d = c) := fun hh => h (by simp [hh])
    have hr : c ∉ rest := fun hh => h (by simp [hh])
    show (if d = c then some 0 else (firstIdx c (rest ++ b)).map (· + 1))
        = (firstIdx c b).map (· + (d :: rest).length)
    rw [if_neg hd, ih hr]
    cases firstIdx c b with
    | none => simp
    | some v =>
      simp only [Option.map_some', Option.map_map, List.length_cons]
      show some (v + rest.length + 1) = some (v + (rest.length + 1))
      congr 1

/-- Last index satisfying a predicate inside `range (n+1)`, when `k`
satisfies it and nothing above `k` does. -/
theorem lastFilterRange (P : Nat → Bool) : ∀ (n k : Nat), k ≤ n → P k = true →
    (∀ i, k < i → i ≤ n → P i = false) →
    ((List.range (n + 1)).filter P).getLast? = some k := by
  intro n
  induction n with
  | zero =>
    intro k hk hP _
    interval_cases k
    simp [List.range_succ, List.filter, hP]
  | succ n ih =>
    intro k hk hP hall
    by_cases hkn : k = n + 1
    · subst hkn
      rw [List.range_succ, List.filter_append]
      simp [List.filter, hP]
    · have hk' : k ≤ n := by omega
      have hPn : P (n + 1) = false := hall (n + 1) (by omega) (by omega)
      rw [List.range_succ, List.filter_append]
      simp only [List.filter, hPn]
      simpa using ih k hk' hP (fun i h1 h2 => hall i h1 (by omega))

/-- `rfindSub` characterization: the pattern matches at `k` and nowhere
later. -/
theorem rfindSub_eq_some {p s : Str} {k : Nat} (hk : k ≤ s.length)
    (h1 : strBegins p (s.drop k) = true)
    (h2 : ∀ i, k < i → i ≤ s.length → strBegins p (s.drop i) = false) :
    rfindSub p s = some k := by
  unfold rfindSub
  exact lastFilterRange _ s.length k hk h1 h2

/-- Membership in a dropped suffix implies membership. -/
theorem mem_of_head?_drop {l : Str} {n : Nat} {a : Char}
    (h : (l.drop n).head? = some a) : a ∈ l := by
  have h1 : a ∈ l.drop n := by
    cases hd : l.drop n with
    | nil => rw [hd] at h; simp at h
    | cons b t =>
      rw [hd] at h
      simp at h
      simp [h]
  exact List.drop_subset n l h1

/-- The renderer's bracketed entry format is exactly inverted by
`gen_commit_unprettify` (claim C7): for an entry
`* [<state>] <prose> ({{GitCommit|rB<hex>}}).` with a bracket-free state
label, nonempty prose and hexadecimal short id, the prose is returned
byte-for-byte. -/
theorem C7_unprettify_inverse (st prose sha : Str)
    (hst : ']' ∉ st) (hsha : ∀ c ∈ sha, isHexC c = true) :
    gen_commit_unprettify ("* [".data ++ (st ++ ("] ".data ++ (prose
        ++ (" (\x7b\x7bGitCommit|rB".data ++ (sha ++ "\x7d\x7d).".data)))))) = prose := by
  set X : Str := sha ++ "\x7d\x7d).".data with hX
  set R : Str := prose ++ (" (\x7b\x7bGitCommit|rB".data ++ X) with hR
  set full : Str := "* [".data ++ (st ++ ("] ".data ++ R)) with hfull
  have hbeg : strBegins "* [".data full = true := by
    rw [hfull]
    simp [strBegins]
  have hfi : firstIdx ']' full = some (3 + st.length) := by
    have hsplit : full = ("* [".data ++ st) ++ (']' :: (' ' :: R)) := by
      rw [hfull]
      simp
    have hnm : ']' ∉ "* [".data ++ st := by
      simp only [List.mem_append]
      rintro (h | h)
      · simp at h
      · exact hst h
    rw [hsplit, firstIdx_append_of_not_mem hnm]
    simp [firstIdx]
    omega
  have hdropfull : full.drop (3 + st.length + 2) = R := by
    have hsplit : full = (("* [".data ++ st) ++ "] ".data) ++ R := by
      rw [hfull]
      simp
    have hlen : 3 + st.length + 2 = (("* [".data ++ st) ++ "] ".data).length := by
      simp
      omega
    rw [hsplit, hlen, listDropLeft]
  have hdropk : R.drop (prose.length + 1) = "(\x7b\x7bGitCommit|rB".data ++ X := by
    have h1 : R.drop prose.length = " (\x7b\x7bGitCommit|rB".data ++ X := by
      rw [hR]
      exact listDropLeft
    have h2 : R.drop (prose.length + 1) = (R.drop prose.length).drop 1 := by
      rw [List.drop_drop]
    rw [h2, h1]
    rfl
  have hnotin : '(' ∉ "\x7b\x7bGitCommit|rB".data ++ X := by
    rw [hX]
    intro hmem
    simp only [List.mem_append] at hmem
    rcases hmem with h | h | h
    · exact absurd h (by decide)
    · exact absurd (hsha _ h) (by decide)
    · exact absurd h (by decide)
  have hrf : rfindSub "(\x7b\x7bGitCommit|rB".data R = some (prose.length + 1) := by
    apply rfindSub_eq_some
    · rw [hR]
      simp
    · rw [hdropk]
      exact strBegins_append_self _ _
    · intro i hgt hle
      cases hsb : strBegins "(\x7b\x7bGitCommit|rB".data (R.drop i)
      · rfl
      · exfalso
        have hhead : (R.drop i).head? = some '(' := by
          have hs' : strBegins ('(' :: "\x7b\x7bGitCommit|rB".data) (R.drop i) = true := hsb
          exact strBegins_head hs'
        have hdec : R.drop i
            = ("\x7b\x7bGitCommit|rB".data ++ X).drop (i - (prose.length + 1) - 1) := by
          have e1 : R.drop i = (R.drop (prose.length + 1)).drop (i - (prose.length + 1)) := by
            rw [List.drop_drop]
            congr 1
            omega
          rw [e1, hdropk]
          have e2 : i - (prose.length + 1) = (i - (prose.length + 1) - 1) + 1 := by omega
          rw [e2]
          rfl
        rw [hdec] at hhead
        exact hnotin (mem_of_head?_drop hhead)
  show (let body1 :=
          if strBegins "* [".data full then
            match firstIdx ']' full with
            | some e => if 0 < e then full.drop (e + 2) else full
            | none => full
          else full
        match rfindSub "(\x7b\x7bGitCommit|rB".data body1 with
        | some stp => if 0 < stp then body1.take (stp - 1) else body1
        | none => body1) = prose
  rw [hbeg]
  have h01 : (0 : Nat) < 3 + st.length := by omega
  simp only [if_true, hfi, h01, hdropfull]
  rw [hrf]
  have h02 : (0 : Nat) < prose.length + 1 := by omega
  simp only [h02, if_true, Nat.add_sub_cancel]
  rw [hR]
  exact listTakeLeft

/-- Witness for `C7_unprettify_inverse` at the claim's concrete example
entry `* [RC2] Fix {{BugReport|999}}: leak ({{GitCommit|rBabc1234567}}).`,
whose prose is `Fix {{BugReport|999}}: leak`. -/
theorem C7_unprettify_witness :
    (']' ∉ "RC2".data
      ∧ (∀ c ∈ "abc1234567".data, isHexC c = true))
    ∧ gen_commit_unprettify ("* [".data ++ ("RC2".data ++ ("] ".data
        ++ ("Fix \x7b\x7bBugReport|999\x7d\x7d: leak".data
          ++ (" (\x7b\x7bGitCommit|rB".data ++ ("abc1234567".data ++ "\x7d\x7d).".data))))))
        = "Fix \x7b\x7bBugReport|999\x7d\x7d: leak".data :=
  ⟨⟨by decide, by decide⟩,
    C7_unprettify_inverse _ _ _ (by decide) (by decide)⟩


/-! ### Claim C2 -/

set_option maxRecDepth 80000 in
/-- C2: entries under a heading outside the static tree are preserved by
the parser in the uncategorized (`none` main-category) bucket, keyed by
the heading name as sub-category — but the serializer's `UNSORTED` block
only consults the `none` sub-category key of that bucket, so a
parse-then-render cycle silently drops the entry.  Evaluated at a
concrete document whose unknown heading is the literal `UNSORTED`. -/
theorem C2_unsorted_entry_preserved_then_lost :
    (let doc : List Str :=
      ["My Header".data, [],
       "== UNSORTED ==".data,
       "* Fix unreported: lost thing (\x7b\x7bGitCommit|rBdeadbeef12\x7d\x7d).".data]
     let m := release_log_parse "master".data "2.79".data "1234567890".data
       "abcdef1234".data none [] doc
     getBucket m none (some "UNSORTED".data) false
        = ["* Fix unreported: lost thing (\x7b\x7bGitCommit|rBdeadbeef12\x7d\x7d).".data]
      ∧ m.count1 = 1
      ∧ isSubstr "lost thing".data (renderText m []) = false) := by
  refine ⟨by decide, by decide, by decide⟩

/-! ### Claim C8 -/

/-- Each successful `addEntry` bumps exactly one of the two counters by
one; the bump is definitional in every branch of the mutation. -/
theorem addEntry_count {m : RLog} {c : Commit} {cat : Nat × Option Nat} {rst : Option Str}
    {m' : RLog} (h : addEntry m c cat rst = .ok m') :
    (m'.count0 = m.count0 + 1 ∧ m'.count1 = m.count1)
      ∨ m'.count0 = m.count0 ∧ m'.count1 = m.count1 + 1 := by
  unfold addEntry at h
  iterate 10
    all_goals try split at h
    all_goals try (simp only [] at h)
  all_goals try (exact Except.noConfusion h)
  all_goals injection h with h2
  all_goals subst h2
  all_goals first
    | exact Or.inl ⟨rfl, rfl⟩
    | exact Or.inr ⟨rfl, rfl⟩

/-- Counts accumulate over a run of successful `addEntry` calls. -/
theorem addEntries_count : ∀ {calls : List (Commit × (Nat × Option Nat) × Option Str)}
    {m m' : RLog}, addEntries m calls = .ok m' →
    m'.count0 + m'.count1 = m.count0 + m.count1 + calls.length := by
  intro calls
  induction calls with
  | nil =>
    intro m m' h
    simp only [addEntries, Except.ok.injEq] at h
    subst h
    simp
  | cons hd tl ih =>
    intro m m' h
    unfold addEntries at h
    split at h
    · exact Except.noConfusion h
    · next m1 heq =>
      have h1 := addEntry_count heq
      have h2 := ih h
      simp only [List.length_cons]
      rcases h1 with ⟨e0, e1⟩ | ⟨e0, e1⟩ <;> omega

/-- C8: every single successful `addEntry` call increments exactly one of
the reported/unreported counters by exactly one, and after `N` calls from
a fresh model `counts[0] + counts[1] = N`. -/
theorem C8_count_conservation :
    (∀ (m : RLog) (c : Commit) (cat : Nat × Option Nat) (rst : Option Str) (m' : RLog),
        addEntry m c cat rst = .ok m' →
          (m'.count0 = m.count0 + 1 ∧ m'.count1 = m.count1)
            ∨ (m'.count0 = m.count0 ∧ m'.count1 = m.count1 + 1))
  ∧ (∀ (rev s1 s2 : Str) (rst0 : Option Str) (rlist : List Str)
        (calls : List (Commit × (Nat × Option Nat) × Option Str)) (m' : RLog),
        addEntries (release_log_fresh rev s1 s2 rst0 rlist) calls = .ok m' →
          m'.count0 + m'.count1 = calls.length) :=
  ⟨fun _ _ _ _ _ h => addEntry_count h,
   fun _ _ _ _ _ _ _ h => by simpa [release_log_fresh] using addEntries_count h⟩

/-- Model reached by one concrete accepted commit (used by the C8
witness). -/
def c8model : RLog :=
  match addEntries (release_log_fresh "2.79".data "1234567890".data "abcdef1234".data none [])
      [(⟨"abcdef12345678".data, "Fix T111: crash in render".data⟩, (0, none),
        some "alpha".data)] with
  | .ok m => m
  | .error _ => release_log_fresh [] [] [] none []

set_option maxRecDepth 80000 in
/-- Witness for `C8_count_conservation` after one concrete call. -/
theorem C8_count_witness :
    addEntries (release_log_fresh "2.79".data "1234567890".data "abcdef1234".data none [])
      [(⟨"abcdef12345678".data, "Fix T111: crash in render".data⟩, (0, none),
        some "alpha".data)] = .ok c8model
    ∧ c8model.count0 + c8model.count1 = 1 :=
  ⟨rfl, C8_count_conservation.2 "2.79".data "1234567890".data "abcdef1234".data none []
    [(⟨"abcdef12345678".data, "Fix T111: crash in render".data⟩, (0, none),
      some "alpha".data)] c8model rfl⟩
theorem alGet_subApp (k k' : Option Str) (e : Str) : ∀ (mp : SubMap),
    alGet k' (subApp k e mp)
      = if k' = k then some (((alGet k mp).getD []) ++ [e]) else alGet k' mp := by
  intro mp
  induction mp with
  | nil =>
    show alGet k' [(k, [e])] = _
    by_cases hk : k' = k
    · subst hk
      simp [alGet]
    · have hk2 : ¬ (k = k') := fun hh => hk hh.symm
      simp [alGet, hk2, hk]
  | cons p rest ih =>
    obtain ⟨k0, v⟩ := p
    show alGet k' (if k0 = k then (k0, v ++ [e]) :: rest else (k0, v) :: subApp k e rest)
        = if k' = k then some (((alGet k ((k0, v) :: rest)).getD []) ++ [e])
          else alGet k' ((k0, v) :: rest)
    by_cases h0 : k0 = k <;> by_cases hk : k' = k <;>
      (simp_all [alGet, subApp]; try simp_all [eq_comm])

/-- Bucket list read off a raw category map. -/
def bucketOf (cats : List (Option Str × CatPair)) (K' s' : Option Str) (rep' : Bool) :
    List Str :=
  (alGet s' (if rep' then ((alGet K' cats).getD ([], [])).1
             else ((alGet K' cats).getD ([], [])).2)).getD []

/-- Unfold `bucketOf` over a cons cell. -/
theorem bucketOf_cons (k0 : Option Str) (pr : CatPair) (rest : List (Option Str × CatPair))
    (K' s' : Option Str) (rep' : Bool) :
    bucketOf ((k0, pr) :: rest) K' s' rep'
      = if k0 = K' then (alGet s' (if rep' then pr.1 else pr.2)).getD []
        else bucketOf rest K' s' rep' := by
  by_cases h : k0 = K' <;> simp [bucketOf, alGet, h]

theorem bucketOf_catsApp (K s : Option Str) (rep : Bool) (e : Str) :
    ∀ (cats : List (Option Str × CatPair)) (K' s' : Option Str) (rep' : Bool),
    bucketOf (catsApp K s rep e cats) K' s' rep'
      = if K' = K ∧ s' = s ∧ rep' = rep then bucketOf cats K' s' rep' ++ [e]
        else bucketOf cats K' s' rep' := by
  intro cats
  induction cats with
  | nil =>
    intro K' s' rep'
    show bucketOf [(K, if rep then ([(s, [e])], []) else ([], [(s, [e])]))] K' s' rep' = _
    rw [bucketOf_cons]
    have hemp : ∀ (a b : Option Str) (r : Bool),
        bucketOf ([] : List (Option Str × CatPair)) a b r = [] := by
      intro a b r
      cases r <;> simp [bucketOf, alGet]
    by_cases hK : K = K'
    · rw [if_pos hK]
      have hK2 : K' = K := hK.symm
      cases rep <;> cases rep'
      · show (alGet s' [(s, [e])]).getD [] = _
        by_cases hs : s' = s
        · rw [if_pos ⟨hK2, hs, rfl⟩, hemp]
          have hs2 : s = s' := hs.symm
          simp [alGet, hs2]
        · have hcond : ¬ (K' = K ∧ s' = s ∧ (false = false)) := fun hh => hs hh.2.1
          rw [if_neg hcond, hemp]
          have hs2 : ¬ (s = s') := fun hh => hs hh.symm
          simp [alGet, hs2]
      · show (alGet s' ([] : SubMap)).getD [] = _
        have hcond : ¬ (K' = K ∧ s' = s ∧ (true = false)) := fun hh => by
          have := hh.2.2
          exact absurd this (by decide)
        rw [if_neg hcond, hemp]
        simp [alGet]
      · show (alGet s' ([] : SubMap)).getD [] = _
        have hcond : ¬ (K' = K ∧ s' = s ∧ (false = true)) := fun hh => by
          have := hh.2.2
          exact absurd this (by decide)
        rw [if_neg hcond, hemp]
        simp [alGet]
      · show (alGet s' [(s, [e])]).getD [] = _
        by_cases hs : s' = s
        · rw [if_pos ⟨hK2, hs, rfl⟩, hemp]
          have hs2 : s = s' := hs.symm
          simp [alGet, hs2]
        · have hcond : ¬ (K' = K ∧ s' = s ∧ (true = true)) := fun hh => hs hh.2.1
          rw [if_neg hcond, hemp]
          have hs2 : ¬ (s = s') := fun hh => hs hh.symm
          simp [alGet, hs2]
    · have hK2 : ¬ (K' = K) := fun hh => hK hh.symm
      rw [if_neg hK]
      have hcond : ¬ (K' = K ∧ s' = s ∧ (rep' = rep)) := fun hh => hK2 hh.1
      rw [if_neg hcond, hemp]
  | cons p rest ih =>
    obtain ⟨k0, pr⟩ := p
    intro K' s' rep'
    show bucketOf (if k0 = K
          then (k0, if rep then (subApp s e pr.1, pr.2) else (pr.1, subApp s e pr.2)) :: rest
          else (k0, pr) :: catsApp K s rep e rest) K' s' rep' = _
    by_cases h0 : k0 = K
    · rw [if_pos h0, bucketOf_cons, bucketOf_cons]
      by_cases hK' : k0 = K'
      · rw [if_pos hK', if_pos hK']
        have hKK : K' = K := by rw [← hK', h0]
        cases rep <;> cases rep'
        · show (alGet s' (subApp s e pr.2)).getD [] = _
          rw [alGet_subApp]
          by_cases hs : s' = s
          · rw [if_pos hs]
            simp [hKK, hs]
          · rw [if_neg hs]
            simp [hKK, hs]
        · show (alGet s' pr.1).getD [] = _
          simp [hKK]
        · show (alGet s' pr.2).getD [] = _
          simp [hKK]
        · show (alGet s' (subApp s e pr.1)).getD [] = _
          rw [alGet_subApp]
          by_cases hs : s' = s
          · rw [if_pos hs]
            simp [hKK, hs]
          · rw [if_neg hs]
            simp [hKK, hs]
      · rw [if_neg hK', if_neg hK']
        have hKK : ¬ (K' = K) := fun hh => hK' (by rw [h0, ← hh])
        simp [hKK]
    · rw [if_neg h0, bucketOf_cons, bucketOf_cons]
      by_cases hK' : k0 = K'
      · rw [if_pos hK', if_pos hK']
        have hKK : ¬ (K' = K) := fun hh => h0 (by rw [hK', hh])
        simp [hKK]
      · rw [if_neg hK', if_neg hK']
        exact ih K' s' rep'

/-- Effect of `catAppend` on every bucket: the addressed bucket gains the
entry at its end, every other bucket is untouched. -/
theorem getBucket_catAppend (m : RLog) (K s : Option Str) (rep : Bool) (e : Str)
    (K' s' : Option Str) (rep' : Bool) :
    getBucket (catAppend m K s rep e) K' s' rep'
      = if K' = K ∧ s' = s ∧ rep' = rep then getBucket m K' s' rep' ++ [e]
        else getBucket m K' s' rep' := by
  have h1 : ∀ (mm : RLog), getBucket mm K' s' rep' = bucketOf mm.cats K' s' rep' := by
    intro mm
    rfl
  rw [h1, h1]
  show bucketOf (catsApp K s rep e m.cats) K' s' rep' = _
  exact bucketOf_catsApp K s rep e m.cats K' s' rep'

/-- `catAppend` only touches the bucket store. -/
theorem catAppend_rstates (m : RLog) (a b : Option Str) (r : Bool) (e : Str) :
    (catAppend m a b r e).rstates = m.rstates := rfl

/-- `catAppend` keeps the header. -/
theorem catAppend_header (m : RLog) (a b : Option Str) (r : Bool) (e : Str) :
    (catAppend m a b r e).header = m.header := rfl

/-- C10 (amended): a successful `addEntry` call — in particular one whose
release state is not a tracked label, the only way the call can succeed —
appends exactly one entry at the end of exactly one
`(main, sub, reported?)` bucket, leaves every other bucket and every
previously existing entry in place, leaves the header and all
release-state lists unchanged, and bumps exactly the matching counter. -/
theorem C10_amended_append_frame
    (m : RLog) (c : Commit) (i : Nat) (oj : Option Nat) (st : Str)
    (mainCat : Str) (subCats : List Str)
    (h1 : BUGFIX_CATEGORIES.get? i = some (mainCat, subCats))
    (subCat : Option Str)
    (h2 : (match oj with
           | some j => (subCats.get? j).elim (Except.error PyErr.indexErr)
               (fun sc => Except.ok (some sc))
           | none => Except.ok none) = Except.ok subCat)
    (h3 : alGet st m.rstates = none) :
    ∃ m', addEntry m c (i, oj) (some st) = .ok m'
      ∧ m'.header = m.header
      ∧ m'.rstates = m.rstates
      ∧ (if (gen_commit_message_pretty c).2
         then m'.count1 = m.count1 + 1 ∧ m'.count0 = m.count0
         else m'.count0 = m.count0 + 1 ∧ m'.count1 = m.count1)
      ∧ (∀ (K' s' : Option Str) (r' : Bool),
          getBucket m' K' s' r'
            = if K' = some mainCat ∧ s' = subCat ∧ r' = !(gen_commit_message_pretty c).2
              then getBucket m K' s' r'
                  ++ ["* [".data ++ st ++ "] ".data ++ (gen_commit_message_pretty c).1
                        ++ " (\x7b\x7bGitCommit|rB".data ++ c.sha1.take 10 ++ "\x7d\x7d).".data]
              else getBucket m K' s' r') := by
  rcases hgc : gen_commit_message_pretty c with ⟨prose, flag⟩
  have hpretty : gen_commit_pretty c (some st)
      = .ok ("* [".data ++ st ++ "] ".data ++ prose ++ " (\x7b\x7bGitCommit|rB".data
          ++ c.sha1.take 10 ++ "\x7d\x7d).".data, flag) := by
    unfold gen_commit_pretty
    rw [hgc]
  have haddeq : addEntry m c (i, oj) (some st)
      = .ok (if flag
             then { catAppend m (some mainCat) subCat false
                      ("* [".data ++ st ++ "] ".data ++ prose ++ " (\x7b\x7bGitCommit|rB".data
                        ++ c.sha1.take 10 ++ "\x7d\x7d).".data) with count1 := m.count1 + 1 }
             else { catAppend m (some mainCat) subCat true
                      ("* [".data ++ st ++ "] ".data ++ prose ++ " (\x7b\x7bGitCommit|rB".data
                        ++ c.sha1.take 10 ++ "\x7d\x7d).".data) with count0 := m.count0 + 1 }) := by
    unfold addEntry
    simp only [h1, h2, hpretty]
    cases flag
    · show (if (alGet st m.rstates).isSome = true then _ else _) = _
      rw [h3]
      simp
    · show (if (alGet st m.rstates).isSome = true then _ else _) = _
      rw [h3]
      simp
  refine ⟨_, haddeq, ?_, ?_, ?_, ?_⟩
  · cases flag <;> rfl
  · cases flag <;> rfl
  · cases flag
    · exact ⟨rfl, rfl⟩
    · exact ⟨rfl, rfl⟩
  · intro K' s' r'
    cases flag
    · exact getBucket_catAppend m (some mainCat) subCat true
        ("* [".data ++ st ++ "] ".data ++ prose ++ " (\x7b\x7bGitCommit|rB".data
          ++ c.sha1.take 10 ++ "\x7d\x7d).".data) K' s' r'
    · exact getBucket_catAppend m (some mainCat) subCat false
        ("* [".data ++ st ++ "] ".data ++ prose ++ " (\x7b\x7bGitCommit|rB".data
          ++ c.sha1.take 10 ++ "\x7d\x7d).".data) K' s' r'

/-- Error component of a modelled run (`none` when the run succeeded). -/
def exceptErrOf (x : Except PyErr RLog) : Option PyErr :=
  match x with
  | .error e => some e
  | .ok _ => none

set_option maxRecDepth 80000 in
/-- C10 counterexample: an `addEntry` call whose release state IS a
tracked label does not append to that label's release-state list — it
dies with the `gen_commit_pretty` TypeError (the unbracketed-rendering
defect) before producing any model at all. -/
theorem C10_counterexample_tracked_state_crashes :
    exceptErrOf (addEntry
      (release_log_fresh "2.79".data "1234567890".data "abcdef1234".data
        (some "RC2".data) ["RC2".data])
      ⟨"abcdef12345678".data, "Fix T1: x".data⟩ (0, none) (some "RC2".data))
      = some PyErr.typeErr := by
  rfl

set_option maxRecDepth 80000 in
/-- Witness for `C10_amended_append_frame` at a concrete untracked call. -/
theorem C10_amended_witness :
    ∃ m', addEntry (release_log_fresh "2.79".data "1234567890".data "abcdef1234".data none [])
        ⟨"abcdef12345678".data, "Fix T1: x".data⟩ (5, none) (some "alpha".data) = .ok m'
      ∧ m'.header = (release_log_fresh "2.79".data "1234567890".data "abcdef1234".data
          none []).header := by
  obtain ⟨m', ha, hb, -, -, -⟩ := C10_amended_append_frame
    (release_log_fresh "2.79".data "1234567890".data "abcdef1234".data none [])
    ⟨"abcdef12345678".data, "Fix T1: x".data⟩ 5 none "alpha".data "Game Engine".data []
    (by decide) none (by rfl) (by rfl)
  exact ⟨m', ha, hb⟩

set_option maxRecDepth 80000 in
/-- C3 counterexample: rendering the empty model emits no main-category
headings at all — an entry-less main category (every one of them here) is
dropped by the `len > 2` gate, not kept as a bare heading. -/
theorem C3_counterexample_empty_main_dropped :
    isSubstr "== Game Engine ==".data
      (renderText (release_log_fresh "2.79".data "1234567890".data "abcdef1234".data none []) [])
      = false := by
  decide

/-! ### C3: category skeleton -/

/-- The wiki heading line of a main category. -/
def mainLine (M : Str) : Str := "== ".data ++ M ++ " ==".data

/-- The wiki heading line of a sub-category. -/
def subLine (s : Str) : Str := "=== ".data ++ s ++ " ===".data

/-- Does a main category own at least one entry anywhere under it? -/
def catHasB (m : RLog) (M : Str) (subs : List Str) : Bool :=
  (none :: subs.map some).any (fun sc =>
    !(getBucket m (some M) sc true).isEmpty || !(getBucket m (some M) sc false).isEmpty)

/-- A `pairView` is empty exactly when both bucket lists are. -/
theorem pairView_nil_iff (pr : CatPair) (k : Option Str) :
    pairView pr k = [] ↔ ((alGet k pr.1).getD [] = [] ∧ (alGet k pr.2).getD [] = []) := by
  unfold pairView
  by_cases h1 : ((alGet k pr.1).getD []).isEmpty <;>
    by_cases h2 : ((alGet k pr.2).getD []).isEmpty <;>
      simp_all [List.isEmpty_iff]

/-- A nonempty `pairView` has at least two lines. -/
theorem pairView_len (pr : CatPair) (k : Option Str) (h : pairView pr k ≠ []) :
    2 ≤ (pairView pr k).length := by
  unfold pairView at *
  by_cases h1 : ((alGet k pr.1).getD []).isEmpty <;>
    by_cases h2 : ((alGet k pr.2).getD []).isEmpty
  · exfalso
    apply h
    simp [h1, h2]
  · rw [if_pos h1, if_neg h2]
    have h2' : (alGet k pr.2).getD [] ≠ [] := by simpa [List.isEmpty_iff] using h2
    have := List.length_pos.2 h2'
    simp only [List.nil_append, List.length_append, List.length_cons, List.length_nil]
    omega
  · rw [if_neg h1, if_pos h2]
    have h1' : (alGet k pr.1).getD [] ≠ [] := by simpa [List.isEmpty_iff] using h1
    have := List.length_pos.2 h1'
    simp only [List.append_nil, List.length_append, List.length_cons, List.length_nil]
    omega
  · rw [if_neg h1, if_neg h2]
    have h1' : (alGet k pr.1).getD [] ≠ [] := by simpa [List.isEmpty_iff] using h1
    have := List.length_pos.2 h1'
    simp only [List.length_append, List.length_cons, List.length_nil]
    omega

/-- Lines of a `pairView` are blank or entries of one of the buckets. -/
theorem mem_pairView (pr : CatPair) (k : Option Str) (x : Str) (hx : x ∈ pairView pr k) :
    x = [] ∨ x ∈ (alGet k pr.1).getD [] ∨ x ∈ (alGet k pr.2).getD [] := by
  unfold pairView at hx
  rcases List.mem_append.1 hx with h | h
  · by_cases h1 : ((alGet k pr.1).getD []).isEmpty
    · simp [h1] at h
    · simp only [h1, Bool.false_eq_true, if_false] at h
      rcases List.mem_append.1 h with h' | h'
      · exact Or.inr (Or.inl h')
      · simp at h'
        exact Or.inl h'
  · by_cases h2 : ((alGet k pr.2).getD []).isEmpty
    · simp [h2] at h
    · simp only [h2, Bool.false_eq_true, if_false] at h
      rcases List.mem_append.1 h with h' | h'
      · exact Or.inr (Or.inr h')
      · simp at h'
        exact Or.inl h'

/-- A sub-category heading line is not a star entry. -/
theorem subLine_not_entry (sc : Str) : strBegins "* ".data (subLine sc) = false := rfl

/-- A sub-category heading line is not blank. -/
theorem subLine_ne_nil (sc : Str) : subLine sc ≠ [] := by
  intro h
  have h2 : (subLine sc).get? 0 = ([] : Str).get? 0 := by rw [h]
  exact Option.noConfusion h2

/-- A sub-category heading line never equals a main-category heading line
(their third characters differ). -/
theorem subLine_ne_mainLine (sc M : Str) : subLine sc ≠ mainLine M := by
  intro h
  have h2 : (subLine sc).get? 2 = (mainLine M).get? 2 := by rw [h]
  have l : (subLine sc).get? 2 = some ('=' : Char) := rfl
  have r : (mainLine M).get? 2 = some (' ' : Char) := rfl
  rw [l, r] at h2
  exact absurd (Option.some.inj h2) (by decide)

/-- Sub-category heading lines are injective in the name. -/
theorem subLine_inj {sc sc' : Str} (h : subLine sc = subLine sc') : sc = sc' := by
  unfold subLine at h
  exact List.append_cancel_left (List.append_cancel_right h)

/-- Head line of an assembled (padded) main-category block. -/
theorem headingBlock_head (hd : Str) (pv sb : List Str) :
    ((if (hd :: pv).length = 1 then (hd :: pv) ++ [[]] else hd :: pv) ++ sb).head?
      = some hd := by
  split <;> rfl

/-- Length gate of an assembled main-category block. -/
theorem headingBlock_len (hd : Str) (pv sb : List Str)
    (h : 2 ≤ pv.length ∨ 3 ≤ sb.length) :
    2 < ((if (hd :: pv).length = 1 then (hd :: pv) ++ [[]] else hd :: pv) ++ sb).length := by
  split <;> rcases h with h | h <;>
    simp_all [List.length_append] <;> omega
/-- A boolean-nonempty list is nonempty. -/
theorem ne_nil_of_bnot {α : Type} {l : List α} (h : (!l.isEmpty) = true) : l ≠ [] := by
  intro hn
  subst hn
  simp at h

/-- `mainCatBlock` keeps the main heading exactly when some bucket under
the main category is nonempty. -/
theorem mainCatBlock_head (m : RLog) (M : Str) (subs : List Str) :
    (mainCatBlock m M subs).head?
      = if catHasB m M subs then some (mainLine M) else none := by
  by_cases hc : catHasB m M subs
  · rw [if_pos hc]
    unfold catHasB at hc
    rw [List.any_eq_true] at hc
    obtain ⟨sc, hmem, hsc⟩ := hc
    simp only [Bool.or_eq_true] at hsc
    simp only [mainCatBlock]
    have hlen : 2 ≤ (pairView (catGet m (some M)) none).length
        ∨ 3 ≤ (subs.flatMap (fun sc =>
            if 2 < (("=== ".data ++ sc ++ " ===".data)
                :: pairView (catGet m (some M)) (some sc)).length then
              ("=== ".data ++ sc ++ " ===".data)
                :: pairView (catGet m (some M)) (some sc)
            else [])).length := by
      rcases List.mem_cons.1 hmem with rfl | hmem'
      · left
        apply pairView_len
        intro hpv
        have hboth := (pairView_nil_iff (catGet m (some M)) none).1 hpv
        rcases hsc with h | h
        · exact ne_nil_of_bnot h hboth.1
        · exact ne_nil_of_bnot h hboth.2
      · right
        obtain ⟨sc0, hsc0, rfl⟩ := List.mem_map.1 hmem'
        have hpv : pairView (catGet m (some M)) (some sc0) ≠ [] := by
          intro hpv
          have hboth := (pairView_nil_iff (catGet m (some M)) (some sc0)).1 hpv
          rcases hsc with h | h
          · exact ne_nil_of_bnot h hboth.1
          · exact ne_nil_of_bnot h hboth.2
        have h2 := pairView_len _ _ hpv
        obtain ⟨s, t, rfl⟩ := List.append_of_mem hsc0
        rw [List.flatMap_append, List.flatMap_cons]
        rw [if_pos (by simp only [List.length_cons]; omega)]
        simp only [List.length_append, List.length_cons]
        omega
    rw [if_pos (headingBlock_len _ _ _ hlen)]
    exact headingBlock_head _ _ _
  · rw [if_neg hc]
    unfold catHasB at hc
    rw [Bool.not_eq_true, List.any_eq_false] at hc
    have h0 : pairView (catGet m (some M)) none = [] := by
      apply (pairView_nil_iff _ _).2
      have := hc none (List.mem_cons_self _ _)
      simpa [List.isEmpty_iff] using this
    have hs : ∀ sc ∈ subs, pairView (catGet m (some M)) (some sc) = [] := by
      intro sc hsc
      apply (pairView_nil_iff _ _).2
      have := hc (some sc) (List.mem_cons_of_mem _ (List.mem_map_of_mem some hsc))
      simpa [List.isEmpty_iff] using this
    have hfm : (subs.flatMap (fun sc =>
        if 2 < (("=== ".data ++ sc ++ " ===".data)
            :: pairView (catGet m (some M)) (some sc)).length then
          ("=== ".data ++ sc ++ " ===".data)
            :: pairView (catGet m (some M)) (some sc)
        else [])) = [] := by
      apply List.flatMap_eq_nil_iff.2
      intro sc hsc
      rw [hs sc hsc]
      rfl
    simp only [mainCatBlock, h0, hfm]
    simp
/-- No sub-heading line ever occurs inside a `pairView` of a model whose
bucket entries are all star entries. -/
theorem subLine_not_in_pairView (m : RLog) (M : Str)
    (hE : ∀ K s r e, e ∈ getBucket m K s r → strBegins "* ".data e = true)
    (k : Option Str) (sc : Str) :
    subLine sc ∉ pairView (catGet m (some M)) k := by
  intro hmem
  rcases mem_pairView _ _ _ hmem with h | h | h
  · exact subLine_ne_nil sc h
  · have := hE (some M) k true _ h
    rw [subLine_not_entry] at this
    exact Bool.noConfusion this
  · have := hE (some M) k false _ h
    rw [subLine_not_entry] at this
    exact Bool.noConfusion this

/-- The heading of a sub-category with no entries is absent from the
sub-category region of its main category. -/
theorem subLine_not_in_subBlocks (m : RLog) (M : Str) (subs : List Str) (sc : Str)
    (hE : ∀ K s r e, e ∈ getBucket m K s r → strBegins "* ".data e = true)
    (hpv : pairView (catGet m (some M)) (some sc) = [])
    (h : subLine sc ∈ subs.flatMap (fun sc =>
        if 2 < (("=== ".data ++ sc ++ " ===".data)
            :: pairView (catGet m (some M)) (some sc)).length then
          ("=== ".data ++ sc ++ " ===".data)
            :: pairView (catGet m (some M)) (some sc)
        else [])) : False := by
  obtain ⟨sc', hsc', hf⟩ := List.mem_flatMap.1 h
  split at hf
  case isFalse => exact absurd hf (List.not_mem_nil _)
  case isTrue hg =>
    rcases List.mem_cons.1 hf with h2 | h2
    · have hee : sc = sc' := subLine_inj h2
      subst hee
      rw [hpv] at hg
      simp at hg
    · exact subLine_not_in_pairView m M hE (some sc') sc h2

/-- A sub-category heading appears in a main-category block exactly when
that sub-category owns an entry (reported or unreported). -/
theorem subLine_mem_mainCatBlock_iff (m : RLog) (M : Str) (subs : List Str) (sc : Str)
    (hsc : sc ∈ subs)
    (hE : ∀ K s r e, e ∈ getBucket m K s r → strBegins "* ".data e = true) :
    subLine sc ∈ mainCatBlock m M subs
      ↔ (getBucket m (some M) (some sc) true ≠ []
          ∨ getBucket m (some M) (some sc) false ≠ []) := by
  constructor
  · intro hin
    by_contra hnb
    push_neg at hnb
    have hpv : pairView (catGet m (some M)) (some sc) = [] :=
      (pairView_nil_iff _ _).2 hnb
    simp only [mainCatBlock] at hin
    split at hin <;> split at hin
    all_goals try exact absurd hin (List.not_mem_nil _)
    · rcases List.mem_append.1 hin with h | h
      · rcases List.mem_append.1 h with h' | h'
        · rcases List.mem_cons.1 h' with h2 | h2
          · exact subLine_ne_mainLine sc M h2
          · exact subLine_not_in_pairView m M hE none sc h2
        · have h2 : subLine sc = [] := by simpa using h'
          exact subLine_ne_nil sc h2
      · exact subLine_not_in_subBlocks m M subs sc hE hpv h
    · rcases List.mem_append.1 hin with h | h
      · rcases List.mem_cons.1 h with h2 | h2
        · exact subLine_ne_mainLine sc M h2
        · exact subLine_not_in_pairView m M hE none sc h2
      · exact subLine_not_in_subBlocks m M subs sc hE hpv h
  · intro hb
    have hpv : pairView (catGet m (some M)) (some sc) ≠ [] := by
      intro hpv
      have hboth := (pairView_nil_iff _ _).1 hpv
      rcases hb with h | h
      · exact h hboth.1
      · exact h hboth.2
    have h2 := pairView_len _ _ hpv
    simp only [mainCatBlock]
    have h3 : 3 ≤ (subs.flatMap (fun sc =>
        if 2 < (("=== ".data ++ sc ++ " ===".data)
            :: pairView (catGet m (some M)) (some sc)).length then
          ("=== ".data ++ sc ++ " ===".data)
            :: pairView (catGet m (some M)) (some sc)
        else [])).length := by
      obtain ⟨s, t, rfl⟩ := List.append_of_mem hsc
      rw [List.flatMap_append, List.flatMap_cons]
      rw [if_pos (by simp only [List.length_cons]; omega)]
      simp only [List.length_append, List.length_cons]
      omega
    rw [if_pos (headingBlock_len _ _ _ (Or.inr h3))]
    apply List.mem_append_right
    apply List.mem_flatMap.2
    refine ⟨sc, hsc, ?_⟩
    rw [if_pos (by simp only [List.length_cons]; omega)]
    exact List.mem_cons_self _ _
/-- A successful association-list lookup locates a stored pair. -/
theorem alGet_mem {κ α : Type} [DecidableEq κ] (k : κ) (l : List (κ × α)) (v : α)
    (h : alGet k l = some v) : (k, v) ∈ l := by
  induction l with
  | nil => exact Option.noConfusion h
  | cons p rest ih =>
    obtain ⟨k', v'⟩ := p
    unfold alGet at h
    split at h
    case isTrue heq =>
      subst heq
      injection h with h2
      subst h2
      exact List.mem_cons_self _ _
    case isFalse => exact List.mem_cons_of_mem _ (ih h)

/-- A decidable per-pair entry condition on the stored category buckets
gives the universal bucket condition used by the skeleton theorems. -/
theorem entriesOK_hE (m : RLog)
    (h : ∀ pc ∈ m.cats,
        (∀ kv ∈ pc.2.1, ∀ e ∈ kv.2, strBegins "* ".data e = true)
        ∧ (∀ kv ∈ pc.2.2, ∀ e ∈ kv.2, strBegins "* ".data e = true)) :
    ∀ K s r e, e ∈ getBucket m K s r → strBegins "* ".data e = true := by
  intro K s r e he
  unfold getBucket catGet at he
  cases hg : alGet K m.cats with
  | none =>
    rw [hg] at he
    cases r <;> simp [alGet] at he
  | some pr =>
    rw [hg] at he
    have hmem := alGet_mem K m.cats pr hg
    have hps := h (K, pr) hmem
    cases r
    · simp only [Option.getD, Bool.false_eq_true, if_false] at he
      cases hg2 : alGet s pr.2 with
      | none => rw [hg2] at he; exact absurd he (by simp)
      | some es =>
        rw [hg2] at he
        exact hps.2 (s, es) (alGet_mem s pr.2 es hg2) e he
    · simp only [Option.getD, if_true] at he
      cases hg2 : alGet s pr.1 with
      | none => rw [hg2] at he; exact absurd he (by simp)
      | some es =>
        rw [hg2] at he
        exact hps.1 (s, es) (alGet_mem s pr.1 es hg2) e he
/-- C3: the claimed skeleton completeness fails —
`C3_counterexample_empty_main_dropped` shows an entry-less main category
is dropped entirely rather than emitted as a bare heading.  Amended
property, proved here: for any model whose stored entries are star
entries, a main-category heading of the static tree heads its rendered
block exactly when the category owns at least one entry anywhere under
it, and a sub-category heading appears in the block exactly when that
sub-category owns at least one entry (reported or unreported). -/
theorem C3_amended_skeleton (m : RLog)
    (hE : ∀ K s r e, e ∈ getBucket m K s r → strBegins "* ".data e = true) :
    ∀ p ∈ BUGFIX_CATEGORIES,
      ((mainCatBlock m p.1 p.2).head?
          = if catHasB m p.1 p.2 then some (mainLine p.1) else none)
      ∧ ∀ sc ∈ p.2,
          (subLine sc ∈ mainCatBlock m p.1 p.2
            ↔ (getBucket m (some p.1) (some sc) true ≠ []
                ∨ getBucket m (some p.1) (some sc) false ≠ [])) := by
  intro p _hp
  exact ⟨mainCatBlock_head m p.1 p.2,
    fun sc hsc => subLine_mem_mainCatBlock_iff m p.1 p.2 sc hsc hE⟩

/-- A two-entry model exercising the amended skeleton theorem. -/
def c3m : RLog :=
  ⟨[], 1, 1, [],
   [(some "Data / Geometry".data,
     ([(some "Modifiers".data, ["* Fix a.".data])],
      [(none, ["* Fix unreported: b.".data])]))]⟩

/-- Sub-category list of the `Data / Geometry` main category. -/
def dgSubs : List Str :=
  ["Armatures".data, "Curve/Text Editing".data, "Mesh Editing".data, "Meta Editing".data,
   "Modifiers".data, "Material / Texture".data]

theorem C3_amended_witness :
    (mainCatBlock c3m "Data / Geometry".data dgSubs).head?
        = some (mainLine "Data / Geometry".data)
    ∧ subLine "Modifiers".data ∈ mainCatBlock c3m "Data / Geometry".data dgSubs := by
  have h := C3_amended_skeleton c3m (entriesOK_hE c3m (by decide))
      ("Data / Geometry".data, dgSubs) (by decide)
  constructor
  · have h1 := h.1
    rw [if_pos (by decide :
      catHasB c3m ("Data / Geometry".data, dgSubs).1 ("Data / Geometry".data, dgSubs).2
        = true)] at h1
    exact h1
  · exact (h.2 "Modifiers".data (by decide)).2 (Or.inl (by decide))
/-! ### C1: round-trip -/

/-- The breaker call: an unreported commit whose prose happens to contain
the literal reported-entry marker text. -/
def c1calls : List (Commit × (Nat × Option Nat) × Option Str) :=
  [(⟨"abcdef12345678".data, "Mention Fix \x7b\x7bBugReport|123\x7d\x7d here".data⟩,
    (0, none), some "alpha".data)]

/-- Model built from the breaker call. -/
def c1m : RLog :=
  match addEntries (release_log_fresh "2.79".data "1234567890".data "abcdef1234".data
      (some "RC1".data) []) c1calls with
  | .ok m => m
  | .error _ => release_log_fresh [] [] [] none []

set_option maxRecDepth 100000 in
/-- C1 counterexample: the breaker model stores one unreported entry, yet
re-parsing its rendered document classifies the entry as reported — the
counts and the per-bucket lists both flip. -/
theorem C1_counterexample_reparse_flips :
    c1m.count0 = 0 ∧ c1m.count1 = 1
    ∧ (getBucket c1m (some "Objects / Animation / GP".data) none false).length = 1
    ∧ (getBucket c1m (some "Objects / Animation / GP".data) none true).length = 0
    ∧ (release_log_parse "master".data "2.79".data "1234567890".data "abcdef1234".data
        (some "RC1".data) [] (splitNL (renderText c1m []))).count0 = 1
    ∧ (release_log_parse "master".data "2.79".data "1234567890".data "abcdef1234".data
        (some "RC1".data) [] (splitNL (renderText c1m []))).count1 = 0
    ∧ (getBucket (release_log_parse "master".data "2.79".data "1234567890".data
          "abcdef1234".data (some "RC1".data) [] (splitNL (renderText c1m [])))
        (some "Objects / Animation / GP".data) none false).length = 0 := by
  decide
/-- Right-fold text assembly: each line followed by a newline, then the
tail text. -/
def linesJoin (ls : List Str) (t : Str) : Str :=
  ls.foldr (fun l acc => l ++ '\n' :: acc) t

/-- `linesJoin` distributes over list append. -/
theorem linesJoin_append (xs ys : List Str) (t : Str) :
    linesJoin (xs ++ ys) t = linesJoin xs (linesJoin ys t) := by
  unfold linesJoin
  rw [List.foldr_append]

/-- Splitting a newline-free line off the front of a text. -/
theorem splitNL_cons_line (l t : Str) (hl : '\n' ∉ l) :
    splitNL (l ++ '\n' :: t) = l :: splitNL t := by
  induction l with
  | nil => rfl
  | cons c cs ih =>
    have hc : c ≠ '\n' := fun h => hl (h ▸ List.mem_cons_self c cs)
    have ih2 := ih (fun h => hl (List.mem_cons_of_mem c h))
    rw [List.cons_append, splitNL.eq_def]
    split
    · next heq => exact absurd heq (by simp)
    · next heq => exact absurd (List.cons.inj heq).1 hc
    · next c2 c' hne heq =>
      obtain ⟨h1, h2⟩ := List.cons.inj heq
      subst h1
      rw [← h2, ih2]

/-- `splitNL` recovers the lines of a `linesJoin` assembly. -/
theorem splitNL_linesJoin (ls : List Str) (t : Str) (h : ∀ l ∈ ls, '\n' ∉ l) :
    splitNL (linesJoin ls t) = ls ++ splitNL t := by
  induction ls with
  | nil => rfl
  | cons l rest ih =>
    show splitNL (l ++ '\n' :: linesJoin rest t) = _
    rw [splitNL_cons_line _ _ (h l (List.mem_cons_self l rest)),
        ih (fun x hx => h x (List.mem_cons_of_mem l hx))]
    rfl

/-- `joinNL` plus a line break is a `linesJoin` (with the empty-list case
contributing one blank line). -/
theorem joinNL_nl (ls : List Str) (t : Str) :
    joinNL ls ++ '\n' :: t = linesJoin (if ls.isEmpty then [[]] else ls) t := by
  induction ls with
  | nil => rfl
  | cons l rest ih =>
    cases rest with
    | nil => rfl
    | cons l2 rest2 =>
      show (l ++ '\n' :: joinNL (l2 :: rest2)) ++ '\n' :: t = l ++ '\n' :: linesJoin (l2 :: rest2) t
      rw [List.append_assoc, List.cons_append]
      rw [show joinNL (l2 :: rest2) ++ '\n' :: t = linesJoin (l2 :: rest2) t from ih]
/-- Digit characters are ordinary text (no newline, no markup opener). -/
theorem digitChar_safe (k : Nat) : Nat.digitChar k ≠ '\n' ∧ Nat.digitChar k ≠ '<' := by
  rcases Nat.lt_or_ge k 16 with h | h
  · interval_cases k <;> exact ⟨by decide, by decide⟩
  · have e : Nat.digitChar k = Char.ofNat 42 := by
      unfold Nat.digitChar
      rw [if_neg (by omega : ¬ k = 0), if_neg (by omega : ¬ k = 1), if_neg (by omega : ¬ k = 2), if_neg (by omega : ¬ k = 3), if_neg (by omega : ¬ k = 4), if_neg (by omega : ¬ k = 5), if_neg (by omega : ¬ k = 6), if_neg (by omega : ¬ k = 7), if_neg (by omega : ¬ k = 8), if_neg (by omega : ¬ k = 9), if_neg (by omega : ¬ k = 10), if_neg (by omega : ¬ k = 11), if_neg (by omega : ¬ k = 12), if_neg (by omega : ¬ k = 13), if_neg (by omega : ¬ k = 14), if_neg (by omega : ¬ k = 15)]
    rw [e]
    exact ⟨by decide, by decide⟩

/-- Characters of a rendered number are ordinary text. -/
theorem natDigits_safe (n : Nat) : ∀ c ∈ natDigits n, c ≠ '\n' ∧ c ≠ '<' := by
  unfold natDigits
  generalize n + 1 = fu
  induction fu generalizing n with
  | zero => intro c hc; exact absurd hc (List.not_mem_nil c)
  | succ fu ih =>
    intro c hc
    unfold natDigitsAux at hc
    split at hc
    · rcases List.mem_singleton.1 hc with rfl
      exact digitChar_safe _
    · rcases List.mem_append.1 hc with h | h
      · exact ih _ c h
      · rcases List.mem_singleton.1 h with rfl
        exact digitChar_safe _

/-- Lookup hits in the left part of a concatenated association list. -/
theorem alGet_append_some {κ α : Type} [DecidableEq κ] (k : κ) (l1 l2 : List (κ × α)) (v : α)
    (h : alGet k l1 = some v) : alGet k (l1 ++ l2) = some v := by
  induction l1 with
  | nil => exact Option.noConfusion h
  | cons p rest ih =>
    obtain ⟨k0, v0⟩ := p
    unfold alGet at h
    show (if k0 = k then some v0 else alGet k (rest ++ l2)) = some v
    split at h
    · next hk => rw [if_pos hk]; exact h
    · next hk => rw [if_neg hk]; exact ih h

/-- Lookup falls through to the right part when the left part misses. -/
theorem alGet_append_none {κ α : Type} [DecidableEq κ] (k : κ) (l1 l2 : List (κ × α))
    (h : alGet k l1 = none) : alGet k (l1 ++ l2) = alGet k l2 := by
  induction l1 with
  | nil => rfl
  | cons p rest ih =>
    obtain ⟨k0, v0⟩ := p
    unfold alGet at h
    show (if k0 = k then some v0 else alGet k (rest ++ l2)) = alGet k l2
    split at h
    · exact Option.noConfusion h
    · next hk => rw [if_neg hk]; exact ih h

/-- All release-state lists of a fresh model are empty. -/
theorem rstatesInit_getD (rl : List Str) (k : Str) :
    (alGet k (rstatesInit rl)).getD [] = [] := by
  unfold rstatesInit
  have main : ∀ (acc : List (Str × List Str)),
      (∀ k', (alGet k' acc).getD [] = []) →
      ∀ k', (alGet k' (rl.foldl (fun acc k =>
          if (alGet k acc).isSome then acc else acc ++ [(k, [])]) acc)).getD [] = [] := by
    induction rl with
    | nil => intro acc hacc k'; exact hacc k'
    | cons r rest ih =>
      intro acc hacc k'
      show (alGet k' (rest.foldl _ (if (alGet r acc).isSome then acc
          else acc ++ [(r, [])]))).getD [] = []
      apply ih
      intro k2
      split
      · exact hacc k2
      · cases hg : alGet k2 acc with
        | some v =>
          rw [alGet_append_some k2 acc _ v hg]
          have := hacc k2
          rw [hg] at this
          simpa using this
        | none =>
          rw [alGet_append_none k2 acc _ hg]
          show (alGet k2 [(r, [])]).getD [] = []
          unfold alGet
          split <;> rfl
  exact main [] (fun k' => rfl) k

/-- With all tracked lists empty, the release-state appendix vanishes. -/
theorem rstateAppendix_empty (m : RLog) (rl : List Str)
    (h : ∀ r, (alGet r m.rstates).getD [] = []) :
    rl.flatMap (rstateSection m) = [] := by
  apply List.flatMap_eq_nil_iff.2
  intro r _
  unfold rstateSection
  rw [h r]
  rfl

/-- The count-summary line of the first ignore block. -/
def totalLine (c0 c1 : Nat) : Str :=
  "Total fixed bugs: ".data ++ natDigits (c0 + c1) ++ " (".data ++ natDigits c0
    ++ " from tracker, ".data ++ natDigits c1 ++ " reported/found by other ways).".data

/-- The lines a freshly initialized document starts with, up to (and
including) the blank line that precedes the first category heading. -/
def hdrLines (rev s1 s2 st0 : Str) (c0 c1 : Nat) : List Str :=
  ["= Blender ".data ++ rev ++ ": Bug Fixes =".data,
   [],
   "[".data ++ st0 ++ "] ".data ++ "Changes from revision \x7b\x7bGitCommit|rB".data
     ++ s1.take 10 ++ "\x7d\x7d to \x7b\x7bGitCommit|rB".data ++ s2.take 10
     ++ "\x7d\x7d, inclusive.".data,
   [],
   IGNORE_START_LINE,
   totalLine c0 c1,
   [],
   noteBlock,
   IGNORE_END_LINE,
   []]

/-- The lines the document ends with (empty release-state appendix). -/
def tailLines : List Str :=
  [IGNORE_START_LINE, [], "<hr/>".data, [], IGNORE_END_LINE, []]

set_option maxRecDepth 40000 in
/-- The rendered document as a line assembly. -/
theorem renderText_assemble (m : RLog) (rl : List Str) (rev s1 s2 st0 : Str)
    (hhdr : m.header = freshHeader rev s1 s2 (some st0))
    (happ : rl.flatMap (rstateSection m) = []) :
    renderText m rl
      = linesJoin
          (["= Blender ".data ++ rev ++ ": Bug Fixes =".data,
            [],
            "[".data ++ st0 ++ "] ".data ++ "Changes from revision \x7b\x7bGitCommit|rB".data
              ++ s1.take 10 ++ "\x7d\x7d to \x7b\x7bGitCommit|rB".data ++ s2.take 10
              ++ "\x7d\x7d, inclusive.".data,
            [],
            IGNORE_START_LINE,
            totalLine m.count0 m.count1,
            [],
            noteBlock,
            IGNORE_END_LINE,
            []]
            ++ (if (catLines m).isEmpty then [[]] else catLines m)
            ++ [IGNORE_START_LINE, [], "<hr/>".data, []])
          (IGNORE_END_LINE ++ ['\n']) := by
  rw [linesJoin_append, linesJoin_append]
  unfold renderText
  rw [hhdr, happ]
  unfold freshHeader totalLine
  rw [← joinNL_nl]
  simp only [linesJoin, List.foldr_cons, List.foldr_nil, List.nil_append, List.append_nil,
    List.cons_append, List.append_assoc]
/-- Newline-freedom distributes over append. -/
theorem not_nl_append {a b : Str} (ha : '\n' ∉ a) (hb : '\n' ∉ b) : '\n' ∉ a ++ b := by
  intro h
  rcases List.mem_append.1 h with h | h
  · exact ha h
  · exact hb h

/-- Lines of the rendered document: header block, category lines (or one
blank line when there are none), closing ignore block. -/
theorem splitNL_renderText (m : RLog) (rl : List Str) (rev s1 s2 st0 : Str)
    (hhdr : m.header = freshHeader rev s1 s2 (some st0))
    (hnl1 : '\n' ∉ rev) (hnl2 : '\n' ∉ s1.take 10) (hnl3 : '\n' ∉ s2.take 10)
    (hnl4 : '\n' ∉ st0)
    (happ : rl.flatMap (rstateSection m) = [])
    (hcat : ∀ l ∈ catLines m, '\n' ∉ l) :
    splitNL (renderText m rl)
      = hdrLines rev s1 s2 st0 m.count0 m.count1
          ++ (if (catLines m).isEmpty then [[]] else catLines m) ++ tailLines := by
  rw [renderText_assemble m rl rev s1 s2 st0 hhdr happ]
  rw [splitNL_linesJoin]
  · rw [splitNL_cons_line IGNORE_END_LINE [] (by decide)]
    show _ ++ [IGNORE_END_LINE, []] = _
    unfold hdrLines tailLines
    simp only [List.append_assoc, List.cons_append, List.nil_append, List.append_nil]
  · intro l hl
    rcases List.mem_append.1 hl with h | h
    · rcases List.mem_append.1 h with h' | h'
      · -- the ten header lines
        simp only [List.mem_cons, List.mem_nil_iff, or_false] at h'
        have hnd : ∀ n, '\n' ∉ natDigits n := fun n hm => (natDigits_safe n _ hm).1 rfl
        rcases h' with rfl | rfl | rfl | rfl | rfl | rfl | rfl | rfl | rfl | rfl
        · exact not_nl_append (not_nl_append (by decide) hnl1) (by decide)
        · exact List.not_mem_nil _
        · exact not_nl_append (not_nl_append (not_nl_append (not_nl_append (not_nl_append
            (not_nl_append (not_nl_append (by decide) hnl4) (by decide)) (by decide)) hnl2)
            (by decide)) hnl3) (by decide)
        · exact List.not_mem_nil _
        · exact (by decide : '\n' ∉ IGNORE_START_LINE)
        · exact not_nl_append (not_nl_append (not_nl_append (not_nl_append (not_nl_append
            (not_nl_append (by decide) (hnd _)) (by decide)) (hnd _)) (by decide)) (hnd _))
            (by decide)
        · exact List.not_mem_nil _
        · exact (by decide : '\n' ∉ noteBlock)
        · exact (by decide : '\n' ∉ IGNORE_END_LINE)
        · exact List.not_mem_nil _
      · -- the category lines (or the one blank line)
        split at h'
        · rcases List.mem_singleton.1 h' with rfl
          exact List.not_mem_nil _
        · exact hcat l h'
    · -- the four closing lines before the final ignore-end
      simp only [List.mem_cons, List.mem_nil_iff, or_false] at h
      rcases h with rfl | rfl | rfl | rfl
      · exact (by decide : '\n' ∉ IGNORE_START_LINE)
      · exact List.not_mem_nil _
      · exact (by decide : '\n' ∉ "<hr/>".data)
      · exact List.not_mem_nil _
/-- Well-formedness of a stored release-log entry line with respect to its
reported flag: a star entry, newline- and marker-free, strip-invariant,
containing the fix keyword and containing the reported-entry marker
exactly when it sits in a reported bucket. -/
def EntryOKb (e : Str) (rep : Bool) : Bool :=
  strBegins "* ".data e
  && e.all (fun c => !(c == '\n'))
  && !(isSubstr IGNORE_START_LINE e) && !(isSubstr IGNORE_END_LINE e)
  && isSubstr "Fix ".data e
  && (isSubstr "Fix \x7b\x7bBugReport|".data e == rep)
  && (pyStrip " \n".data e == e)

/-- A star entry starts with an asterisk and a space. -/
theorem strBegins_star (e : Str) (h : strBegins "* ".data e = true) :
    ∃ t, e = '*' :: ' ' :: t := by
  cases e with
  | nil => exact absurd h (by decide)
  | cons c r =>
    cases r with
    | nil =>
      exfalso
      have : strBegins "* ".data [c] = ('*' = c && false) := rfl
      rw [this] at h
      simp at h
    | cons c2 r2 =>
      have : strBegins "* ".data (c :: c2 :: r2)
          = (('*' = c) && ((' ' = c2) && true)) := rfl
      rw [this] at h
      simp only [Bool.and_eq_true, decide_eq_true_eq] at h
      obtain ⟨h1, h2, -⟩ := h
      subst h1
      subst h2
      exact ⟨r2, rfl⟩

/-- Entry lines are not wiki headings. -/
theorem entry_not_heading (t : Str) :
    strBegins "===".data ('*' :: ' ' :: t) = false
    ∧ strBegins "==".data ('*' :: ' ' :: t) = false :=
  ⟨rfl, rfl⟩

/-- A newline-free `all` check gives non-membership. -/
theorem not_mem_of_all_ne (e : Str) (h : e.all (fun c => !(c == '\n')) = true) :
    '\n' ∉ e := by
  intro hm
  have := List.all_eq_true.1 h '\n' hm
  simp at this

/-- A `bodyStep` on a well-formed entry line in category state
`(main, sub)` appends the line to the `(main, sub, rep)` bucket and bumps
the matching counter (the release-state side table may change too). -/
theorem bodyStep_entry (st : PState) (e : Str) (rep : Bool)
    (hign : st.ignore = false) (he : EntryOKb e rep = true) :
    ∃ rsts : List (Str × List Str),
      bodyStep st e = ⟨false, st.main, st.sub,
        { header := st.m.header,
          count0 := st.m.count0 + (if rep then 1 else 0),
          count1 := st.m.count1 + (if rep then 0 else 1),
          rstates := rsts,
          cats := catsApp st.main st.sub rep e st.m.cats }⟩ := by
  simp only [EntryOKb, Bool.and_eq_true, Bool.not_eq_true', beq_iff_eq] at he
  obtain ⟨⟨⟨⟨⟨⟨h1, h2⟩, h3⟩, h4⟩, h5⟩, h6⟩, h7⟩ := he
  obtain ⟨t, het⟩ := strBegins_star e h1
  have hdd := entry_not_heading t
  rw [← het] at hdd
  unfold bodyStep
  rw [h4, hign, h3]
  simp only [Bool.false_or, Bool.false_eq_true, if_false, h7, hdd.1, hdd.2, h5, h6, if_true]
  cases rep
  · -- unreported entry
    simp only [Bool.false_eq_true, if_false]
    split
    · split
      · split
        · split
          · exact ⟨_, rfl⟩
          · exact ⟨_, rfl⟩
        · exact ⟨_, rfl⟩
      · exact ⟨_, rfl⟩
    · exact ⟨_, rfl⟩
  · -- reported entry
    simp only [if_true]
    split
    · split
      · split
        · split
          · exact ⟨_, rfl⟩
          · exact ⟨_, rfl⟩
        · exact ⟨_, rfl⟩
      · exact ⟨_, rfl⟩
    · exact ⟨_, rfl⟩
/-- A blank line is a no-op for the body parser (outside ignore blocks). -/
theorem bodyStep_blank (st : PState) (hign : st.ignore = false) :
    bodyStep st [] = st := by
  unfold bodyStep
  rw [hign]
  rfl

/-- Decidable side conditions letting the parser recognise a sub-category
heading line and resolve its main category. -/
def HSubOKb (sc M : Str) : Bool :=
  !(isSubstr IGNORE_END_LINE (subLine sc)) && !(isSubstr IGNORE_START_LINE (subLine sc))
  && (pyStrip " \n".data (subLine sc) == subLine sc)
  && (pyStrip " =".data (subLine sc) == sc)
  && (alGet sc subToMain == some M)

/-- Decidable side conditions letting the parser recognise a main-category
heading line. -/
def HMainOKb (M : Str) : Bool :=
  !(isSubstr IGNORE_END_LINE (mainLine M)) && !(isSubstr IGNORE_START_LINE (mainLine M))
  && (pyStrip " \n".data (mainLine M) == mainLine M)
  && (pyStrip " =".data (mainLine M) == M)
  && mainCats.contains M

/-- A sub-heading line sets the category state. -/
theorem bodyStep_subHead (st : PState) (sc M : Str) (hign : st.ignore = false)
    (h : HSubOKb sc M = true) :
    bodyStep st (subLine sc) = { st with main := some M, sub := some sc } := by
  simp only [HSubOKb, Bool.and_eq_true, Bool.not_eq_true', beq_iff_eq] at h
  obtain ⟨⟨⟨⟨h1, h2⟩, h3⟩, h4⟩, h5⟩ := h
  unfold bodyStep
  rw [h1, hign, h2]
  simp only [Bool.false_or, Bool.false_eq_true, if_false, h3]
  rw [show strBegins "===".data (subLine sc) = true from rfl]
  simp only [if_true, h4]
  unfold subHeadState
  rw [h5]

/-- A main-heading line sets the category state. -/
theorem bodyStep_mainHead (st : PState) (M : Str) (hign : st.ignore = false)
    (h : HMainOKb M = true) :
    bodyStep st (mainLine M) = { st with main := some M, sub := none } := by
  simp only [HMainOKb, Bool.and_eq_true, Bool.not_eq_true', beq_iff_eq] at h
  obtain ⟨⟨⟨⟨h1, h2⟩, h3⟩, h4⟩, h5⟩ := h
  unfold bodyStep
  rw [h1, hign, h2]
  simp only [Bool.false_or, Bool.false_eq_true, if_false, h3]
  rw [show strBegins "===".data (mainLine M) = false from rfl]
  rw [show strBegins "==".data (mainLine M) = true from rfl]
  simp only [if_false, if_true, h4]
  unfold mainHeadState
  rw [if_pos h5]
  simp
/-- Append a whole list of entries to one bucket of a raw category map. -/
def catsAppList (K s : Option Str) (rep : Bool) (es : List Str)
    (cs : List (Option Str × CatPair)) : List (Option Str × CatPair) :=
  es.foldl (fun a e => catsApp K s rep e a) cs

/-- Effect of `catsAppList` on every bucket. -/
theorem bucketOf_catsAppList (K s : Option Str) (rep : Bool) (es : List Str) :
    ∀ (cs : List (Option Str × CatPair)) (K' s' : Option Str) (rep' : Bool),
    bucketOf (catsAppList K s rep es cs) K' s' rep'
      = if K' = K ∧ s' = s ∧ rep' = rep then bucketOf cs K' s' rep' ++ es
        else bucketOf cs K' s' rep' := by
  induction es with
  | nil =>
    intro cs K' s' rep'
    split <;> simp [catsAppList]
  | cons e es' ih =>
    intro cs K' s' rep'
    show bucketOf (catsAppList K s rep es' (catsApp K s rep e cs)) K' s' rep' = _
    rw [ih, bucketOf_catsApp]
    split
    · simp
    · rfl

/-- Folding the body parser over a run of well-formed entries appends them
all to the current bucket and bumps the matching counter accordingly. -/
theorem fold_entries (es : List Str) (rep : Bool) :
    ∀ (st : PState), st.ignore = false → (∀ e ∈ es, EntryOKb e rep = true) →
    ∃ rsts, es.foldl bodyStep st = ⟨false, st.main, st.sub,
      { header := st.m.header,
        count0 := st.m.count0 + (if rep then es.length else 0),
        count1 := st.m.count1 + (if rep then 0 else es.length),
        rstates := rsts,
        cats := catsAppList st.main st.sub rep es st.m.cats }⟩ := by
  induction es with
  | nil =>
    intro st hign _
    obtain ⟨ign, ma, su, mm⟩ := st
    obtain ⟨hh, c0, c1, rr, cc⟩ := mm
    simp only at hign
    subst hign
    refine ⟨rr, ?_⟩
    show (⟨false, ma, su, ⟨hh, c0, c1, rr, cc⟩⟩ : PState) = _
    cases rep <;> simp [catsAppList]
  | cons e es' ih =>
    intro st hign hes
    obtain ⟨rsts1, h1⟩ := bodyStep_entry st e rep hign (hes e (List.mem_cons_self e es'))
    obtain ⟨rsts2, h2⟩ := ih ⟨false, st.main, st.sub,
        { header := st.m.header,
          count0 := st.m.count0 + (if rep then 1 else 0),
          count1 := st.m.count1 + (if rep then 0 else 1),
          rstates := rsts1,
          cats := catsApp st.main st.sub rep e st.m.cats }⟩ rfl
      (fun x hx => hes x (List.mem_cons_of_mem e hx))
    refine ⟨rsts2, ?_⟩
    rw [List.foldl_cons, h1, h2]
    simp only
    congr 1
    congr 1
    all_goals first
      | rfl
      | (cases rep <;> simp [List.length_cons] <;> omega)
/-- Folding the body parser over one optional entry group (entries plus a
blank separator when nonempty). -/
theorem fold_optGroup (es : List Str) (rep : Bool) (st : PState)
    (hign : st.ignore = false) (hes : ∀ e ∈ es, EntryOKb e rep = true) :
    ∃ rsts, ((if es.isEmpty then [] else es ++ [[]]).foldl bodyStep st) = ⟨false, st.main, st.sub,
      { header := st.m.header,
        count0 := st.m.count0 + (if rep then es.length else 0),
        count1 := st.m.count1 + (if rep then 0 else es.length),
        rstates := rsts,
        cats := catsAppList st.main st.sub rep es st.m.cats }⟩ := by
  by_cases hemp : es.isEmpty
  · rw [if_pos hemp]
    have he : es = [] := List.isEmpty_iff.1 hemp
    subst he
    obtain ⟨ign, ma, su, mm⟩ := st
    obtain ⟨hh, c0, c1, rr, cc⟩ := mm
    simp only at hign
    subst hign
    refine ⟨rr, ?_⟩
    show (⟨false, ma, su, ⟨hh, c0, c1, rr, cc⟩⟩ : PState) = _
    cases rep <;> simp [catsAppList]
  · rw [if_neg hemp]
    rw [List.foldl_append]
    obtain ⟨rsts, h1⟩ := fold_entries es rep st hign hes
    rw [h1]
    refine ⟨rsts, ?_⟩
    show List.foldl bodyStep _ [[]] = _
    rw [List.foldl_cons, List.foldl_nil]
    rw [bodyStep_blank _ rfl]

/-- `fold_optGroup`, reported side, counter forms reduced. -/
theorem fold_optGroup_rep (es : List Str) (st : PState)
    (hign : st.ignore = false) (hes : ∀ e ∈ es, EntryOKb e true = true) :
    ∃ rsts, ((if es.isEmpty then [] else es ++ [[]]).foldl bodyStep st) = ⟨false, st.main, st.sub,
      { header := st.m.header,
        count0 := st.m.count0 + es.length,
        count1 := st.m.count1,
        rstates := rsts,
        cats := catsAppList st.main st.sub true es st.m.cats }⟩ := by
  obtain ⟨r, h⟩ := fold_optGroup es true st hign hes
  exact ⟨r, h⟩

/-- `fold_optGroup`, unreported side, counter forms reduced. -/
theorem fold_optGroup_unrep (es : List Str) (st : PState)
    (hign : st.ignore = false) (hes : ∀ e ∈ es, EntryOKb e false = true) :
    ∃ rsts, ((if es.isEmpty then [] else es ++ [[]]).foldl bodyStep st) = ⟨false, st.main, st.sub,
      { header := st.m.header,
        count0 := st.m.count0,
        count1 := st.m.count1 + es.length,
        rstates := rsts,
        cats := catsAppList st.main st.sub false es st.m.cats }⟩ := by
  obtain ⟨r, h⟩ := fold_optGroup es false st hign hes
  exact ⟨r, h⟩

/-- Folding the body parser over the rendered lines of one bucket pair:
the reported then the unreported bucket contents are appended under the
current category state, and both counters advance by the bucket sizes. -/
theorem fold_pairView (pr : CatPair) (k : Option Str) (st : PState)
    (hign : st.ignore = false)
    (h1 : ∀ e ∈ (alGet k pr.1).getD [], EntryOKb e true = true)
    (h2 : ∀ e ∈ (alGet k pr.2).getD [], EntryOKb e false = true) :
    ∃ rsts, (pairView pr k).foldl bodyStep st = ⟨false, st.main, st.sub,
      { header := st.m.header,
        count0 := st.m.count0 + ((alGet k pr.1).getD []).length,
        count1 := st.m.count1 + ((alGet k pr.2).getD []).length,
        rstates := rsts,
        cats := catsAppList st.main st.sub false ((alGet k pr.2).getD [])
                  (catsAppList st.main st.sub true ((alGet k pr.1).getD []) st.m.cats) }⟩ := by
  obtain ⟨rsts1, e1⟩ := fold_optGroup_rep ((alGet k pr.1).getD []) st hign h1
  obtain ⟨rsts2, e2⟩ := fold_optGroup_unrep ((alGet k pr.2).getD [])
    ⟨false, st.main, st.sub,
      { header := st.m.header,
        count0 := st.m.count0 + ((alGet k pr.1).getD []).length,
        count1 := st.m.count1,
        rstates := rsts1,
        cats := catsAppList st.main st.sub true ((alGet k pr.1).getD []) st.m.cats }⟩
    rfl h2
  refine ⟨rsts2, ?_⟩
  show List.foldl bodyStep st
      ((if ((alGet k pr.1).getD []).isEmpty then [] else (alGet k pr.1).getD [] ++ [[]])
        ++ (if ((alGet k pr.2).getD []).isEmpty then [] else (alGet k pr.2).getD [] ++ [[]]))
      = _
  rw [List.foldl_append, e1, e2]
/-- Folding the body parser over one rendered sub-category block. -/
theorem fold_subBlock (pr : CatPair) (M sc : Str) (st : PState)
    (hign : st.ignore = false) (hmain : st.main = some M)
    (hsub : HSubOKb sc M = true)
    (h1 : ∀ e ∈ (alGet (some sc) pr.1).getD [], EntryOKb e true = true)
    (h2 : ∀ e ∈ (alGet (some sc) pr.2).getD [], EntryOKb e false = true) :
    ∃ rsts sub',
      ((if 2 < (("=== ".data ++ sc ++ " ===".data) :: pairView pr (some sc)).length
        then ("=== ".data ++ sc ++ " ===".data) :: pairView pr (some sc)
        else []).foldl bodyStep st)
      = ⟨false, some M, sub',
        { header := st.m.header,
          count0 := st.m.count0 + ((alGet (some sc) pr.1).getD []).length,
          count1 := st.m.count1 + ((alGet (some sc) pr.2).getD []).length,
          rstates := rsts,
          cats := catsAppList (some M) (some sc) false ((alGet (some sc) pr.2).getD [])
                    (catsAppList (some M) (some sc) true ((alGet (some sc) pr.1).getD [])
                      st.m.cats) }⟩ := by
  by_cases hgate : 2 < (("=== ".data ++ sc ++ " ===".data) :: pairView pr (some sc)).length
  · rw [if_pos hgate]
    rw [List.foldl_cons]
    rw [show bodyStep st ("=== ".data ++ sc ++ " ===".data)
        = { st with main := some M, sub := some sc } from bodyStep_subHead st sc M hign hsub]
    obtain ⟨rsts, e1⟩ := fold_pairView pr (some sc)
      { st with main := some M, sub := some sc } (by rw [hign]) h1 h2
    rw [e1]
    exact ⟨rsts, some sc, rfl⟩
  · rw [if_neg hgate]
    have hpv : pairView pr (some sc) = [] := by
      rcases hh : pairView pr (some sc) with _ | ⟨a, t⟩
      · rfl
      · exfalso
        apply hgate
        have := pairView_len pr (some sc) (by rw [hh]; exact List.cons_ne_nil a t)
        simp only [List.length_cons]
        omega
    obtain ⟨hb1, hb2⟩ := (pairView_nil_iff pr (some sc)).1 hpv
    rw [hb1, hb2]
    obtain ⟨ign, ma, su, mm⟩ := st
    obtain ⟨hh, c0, c1, rr, cc⟩ := mm
    simp only at hign hmain
    subst hign
    subst hmain
    exact ⟨rr, su, by simp [catsAppList]⟩
/-- Bucket view of appending a reported and an unreported entry list to
the same `(main, sub)` address. -/
theorem bucketOf_doubleApp (M : Option Str) (sc : Option Str) (es1 es2 : List Str)
    (cs : List (Option Str × CatPair)) (K' s' : Option Str) (r' : Bool) :
    bucketOf (catsAppList M sc false es2 (catsAppList M sc true es1 cs)) K' s' r'
      = bucketOf cs K' s' r'
        ++ (if K' = M ∧ s' = sc then (if r' then es1 else es2) else []) := by
  rw [bucketOf_catsAppList, bucketOf_catsAppList]
  by_cases hK : K' = M ∧ s' = sc
  · obtain ⟨hk, hs⟩ := hK
    cases r'
    · rw [if_pos ⟨hk, hs, rfl⟩, if_neg (fun hh => Bool.noConfusion hh.2.2),
        if_pos ⟨hk, hs⟩]
      rfl
    · rw [if_neg (fun hh => Bool.noConfusion hh.2.2), if_pos ⟨hk, hs, rfl⟩,
        if_pos ⟨hk, hs⟩]
      rfl
  · rw [if_neg (fun hh => hK ⟨hh.1, hh.2.1⟩), if_neg (fun hh => hK ⟨hh.1, hh.2.1⟩),
      if_neg hK, List.append_nil]

/-- Folding the body parser over the whole sub-category region of one
main-category block. -/
theorem fold_subBlocks (pr : CatPair) (M : Str) (subs : List Str) :
    ∀ (st : PState), st.ignore = false → st.main = some M →
    (∀ sc ∈ subs, HSubOKb sc M = true) →
    (∀ sc ∈ subs, (∀ e ∈ (alGet (some sc) pr.1).getD [], EntryOKb e true = true)
        ∧ (∀ e ∈ (alGet (some sc) pr.2).getD [], EntryOKb e false = true)) →
    subs.Nodup →
    ∃ rsts sub' C,
      ((subs.flatMap (fun sc =>
          if 2 < (("=== ".data ++ sc ++ " ===".data) :: pairView pr (some sc)).length
          then ("=== ".data ++ sc ++ " ===".data) :: pairView pr (some sc)
          else [])).foldl bodyStep st)
        = ⟨false, some M, sub',
          { header := st.m.header,
            count0 := st.m.count0
              + (subs.map (fun sc => ((alGet (some sc) pr.1).getD []).length)).sum,
            count1 := st.m.count1
              + (subs.map (fun sc => ((alGet (some sc) pr.2).getD []).length)).sum,
            rstates := rsts, cats := C }⟩
      ∧ ∀ K' s' r', bucketOf C K' s' r'
          = bucketOf st.m.cats K' s' r'
            ++ (if K' = some M ∧ s' ∈ subs.map some
                then (alGet s' (if r' then pr.1 else pr.2)).getD [] else []) := by
  induction subs with
  | nil =>
    intro st hign hmain _ _ _
    obtain ⟨ign, ma, su, mm⟩ := st
    obtain ⟨hh, c0, c1, rr, cc⟩ := mm
    simp only at hign hmain
    subst hign
    subst hmain
    refine ⟨rr, su, cc, by simp, ?_⟩
    intro K' s' r'
    simp
  | cons sc subs' ih =>
    intro st hign hmain hsubok hentok hnd
    rw [List.flatMap_cons, List.foldl_append]
    obtain ⟨rsts1, sub1, e1⟩ := fold_subBlock pr M sc st hign hmain
      (hsubok sc (List.mem_cons_self sc subs'))
      (hentok sc (List.mem_cons_self sc subs')).1
      (hentok sc (List.mem_cons_self sc subs')).2
    rw [e1]
    obtain ⟨rsts2, sub2, C2, e2, hb2⟩ := ih
      ⟨false, some M, sub1,
        { header := st.m.header,
          count0 := st.m.count0 + ((alGet (some sc) pr.1).getD []).length,
          count1 := st.m.count1 + ((alGet (some sc) pr.2).getD []).length,
          rstates := rsts1,
          cats := catsAppList (some M) (some sc) false ((alGet (some sc) pr.2).getD [])
                    (catsAppList (some M) (some sc) true ((alGet (some sc) pr.1).getD [])
                      st.m.cats) }⟩
      rfl rfl
      (fun x hx => hsubok x (List.mem_cons_of_mem sc hx))
      (fun x hx => hentok x (List.mem_cons_of_mem sc hx))
      (List.Nodup.of_cons hnd)
    rw [e2]
    refine ⟨rsts2, sub2, C2, ?_, ?_⟩
    · simp only
      congr 1
      congr 1
      · simp only [List.map_cons, List.sum_cons]
        omega
      · simp only [List.map_cons, List.sum_cons]
        omega
    · intro K' s' r'
      rw [hb2 K' s' r']
      simp only
      rw [bucketOf_doubleApp, List.append_assoc]
      congr 1
      have hscn : sc ∉ subs' := (List.nodup_cons.1 hnd).1
      by_cases hK : K' = some M
      · by_cases hs : s' = some sc
        · subst hs
          have hnotin : (some sc : Option Str) ∉ subs'.map some := by
            intro hmem
            obtain ⟨x, hx, hxe⟩ := List.mem_map.1 hmem
            injection hxe with hxe2
            exact hscn (hxe2 ▸ hx)
          rw [if_pos (⟨hK, rfl⟩ : K' = some M ∧ (some sc : Option Str) = some sc)]
          rw [if_neg (show ¬(K' = some M ∧ (some sc : Option Str) ∈ subs'.map some) from
            fun hh => hnotin hh.2)]
          rw [if_pos (show K' = some M ∧ (some sc : Option Str) ∈ (sc :: subs').map some from
            ⟨hK, by rw [List.map_cons]; exact List.mem_cons_self _ _⟩)]
          rw [List.append_nil]
          cases r' <;> rfl
        · by_cases hs2 : s' ∈ subs'.map some
          · rw [if_neg (show ¬(K' = some M ∧ s' = some sc) from fun hh => hs hh.2)]
            rw [if_pos (⟨hK, hs2⟩ : K' = some M ∧ s' ∈ subs'.map some)]
            rw [if_pos (show K' = some M ∧ s' ∈ (sc :: subs').map some from
              ⟨hK, by rw [List.map_cons]; exact List.mem_cons_of_mem _ hs2⟩)]
            rw [List.nil_append]
          · rw [if_neg (show ¬(K' = some M ∧ s' = some sc) from fun hh => hs hh.2)]
            rw [if_neg (show ¬(K' = some M ∧ s' ∈ subs'.map some) from fun hh => hs2 hh.2)]
            rw [if_neg (show ¬(K' = some M ∧ s' ∈ (sc :: subs').map some) from
              fun hh => by
                rw [List.map_cons] at hh
                rcases List.mem_cons.1 hh.2 with h3 | h3
                · exact hs h3
                · exact hs2 h3)]
            rfl
      · rw [if_neg (show ¬(K' = some M ∧ s' = some sc) from fun hh => hK hh.1)]
        rw [if_neg (show ¬(K' = some M ∧ s' ∈ subs'.map some) from fun hh => hK hh.1)]
        rw [if_neg (show ¬(K' = some M ∧ s' ∈ (sc :: subs').map some) from fun hh => hK hh.1)]
        rfl
/-- A main-category block is dropped exactly when the category owns no
entry at all. -/
theorem mainCatBlock_nil_iff (m : RLog) (M : Str) (subs : List Str) :
    mainCatBlock m M subs = [] ↔ catHasB m M subs = false := by
  have h := mainCatBlock_head m M subs
  constructor
  · intro he
    rw [he] at h
    cases hc : catHasB m M subs
    · rfl
    · rw [hc] at h
      exact Option.noConfusion h
  · intro hc
    rw [hc] at h
    exact List.head?_eq_none_iff.1 h

/-- An entry-less main category has only empty buckets in scope. -/
theorem catHasB_false_iff (m : RLog) (M : Str) (subs : List Str) :
    catHasB m M subs = false
      ↔ ∀ s ∈ (none :: subs.map some),
          getBucket m (some M) s true = [] ∧ getBucket m (some M) s false = [] := by
  unfold catHasB
  rw [List.any_eq_false]
  constructor
  · intro h s hs
    have := h s hs
    simpa [List.isEmpty_iff] using this
  · intro h s hs
    have := h s hs
    simp [List.isEmpty_iff, this.1, this.2]

/-- The two shapes of a rendered main-category block. -/
theorem mainCatBlock_cases (m : RLog) (M : Str) (subs : List Str) :
    mainCatBlock m M subs = []
    ∨ mainCatBlock m M subs
        = (if (("== ".data ++ M ++ " ==".data) :: pairView (catGet m (some M)) none).length = 1
           then (("== ".data ++ M ++ " ==".data) :: pairView (catGet m (some M)) none) ++ [[]]
           else ("== ".data ++ M ++ " ==".data) :: pairView (catGet m (some M)) none)
          ++ subs.flatMap (fun sc =>
              if 2 < (("=== ".data ++ sc ++ " ===".data)
                  :: pairView (catGet m (some M)) (some sc)).length
              then ("=== ".data ++ sc ++ " ===".data) :: pairView (catGet m (some M)) (some sc)
              else []) := by
  simp only [mainCatBlock]
  split <;> split
  · right
    rfl
  · left
    rfl
  · right
    rfl
  · left
    rfl
/-- Heading step, constructor form. -/
theorem bodyStep_mainHead2 (st : PState) (M : Str) (hign : st.ignore = false)
    (h : HMainOKb M = true) :
    bodyStep st ("== ".data ++ M ++ " ==".data) = ⟨false, some M, none, st.m⟩ := by
  rw [show bodyStep st ("== ".data ++ M ++ " ==".data)
      = { st with main := some M, sub := none } from bodyStep_mainHead st M hign h]
  obtain ⟨ign, ma, su, mm⟩ := st
  simp only at hign
  subst hign
  rfl

/-- Folding the body parser over one whole main-category block. -/
theorem fold_mainBlock (m : RLog) (M : Str) (subs : List Str) (st : PState)
    (hign : st.ignore = false)
    (hmainok : HMainOKb M = true)
    (hsubok : ∀ sc ∈ subs, HSubOKb sc M = true)
    (hent : ∀ k, (∀ e ∈ (alGet k (catGet m (some M)).1).getD [], EntryOKb e true = true)
        ∧ (∀ e ∈ (alGet k (catGet m (some M)).2).getD [], EntryOKb e false = true))
    (hnd : subs.Nodup) :
    ∃ rsts main' sub' C,
      ((mainCatBlock m M subs).foldl bodyStep st)
        = ⟨false, main', sub',
          { header := st.m.header,
            count0 := st.m.count0 + ((none :: subs.map some).map
                (fun s => ((alGet s (catGet m (some M)).1).getD []).length)).sum,
            count1 := st.m.count1 + ((none :: subs.map some).map
                (fun s => ((alGet s (catGet m (some M)).2).getD []).length)).sum,
            rstates := rsts, cats := C }⟩
      ∧ ∀ K' s' r', bucketOf C K' s' r'
          = bucketOf st.m.cats K' s' r'
            ++ (if K' = some M ∧ s' ∈ (none :: subs.map some)
                then (alGet s' (if r' then (catGet m (some M)).1
                                else (catGet m (some M)).2)).getD [] else []) := by
  have hnone_map : (none : Option Str) ∉ subs.map some := by
    intro hmem
    obtain ⟨x, -, hx⟩ := List.mem_map.1 hmem
    exact Option.noConfusion hx
  rcases mainCatBlock_cases m M subs with hnil | hfull
  · have hc := (mainCatBlock_nil_iff m M subs).1 hnil
    have hempty := (catHasB_false_iff m M subs).1 hc
    rw [hnil]
    have hz0 : ((none :: subs.map some).map
        (fun s => ((alGet s (catGet m (some M)).1).getD []).length)).sum = 0 := by
      apply List.sum_eq_zero
      intro x hx
      obtain ⟨s, hs, rfl⟩ := List.mem_map.1 hx
      have hb : (alGet s (catGet m (some M)).1).getD [] = [] := (hempty s hs).1
      rw [hb]
      rfl
    have hz1 : ((none :: subs.map some).map
        (fun s => ((alGet s (catGet m (some M)).2).getD []).length)).sum = 0 := by
      apply List.sum_eq_zero
      intro x hx
      obtain ⟨s, hs, rfl⟩ := List.mem_map.1 hx
      have hb : (alGet s (catGet m (some M)).2).getD [] = [] := (hempty s hs).2
      rw [hb]
      rfl
    obtain ⟨ign, ma, su, mm⟩ := st
    obtain ⟨hh, c0, c1, rr, cc⟩ := mm
    simp only at hign
    subst hign
    refine ⟨rr, ma, su, cc, ?_, ?_⟩
    · show (⟨false, ma, su, ⟨hh, c0, c1, rr, cc⟩⟩ : PState) = _
      rw [hz0, hz1]
      rfl
    · intro K' s' r'
      by_cases hK : K' = some M ∧ s' ∈ (none :: subs.map some)
      · rw [if_pos hK]
        have he := hempty s' hK.2
        have hb : (alGet s' (if r' then (catGet m (some M)).1
            else (catGet m (some M)).2)).getD [] = [] := by
          cases r'
          · exact he.2
          · exact he.1
        rw [hb, List.append_nil]
      · rw [if_neg hK, List.append_nil]
  · rw [hfull, List.foldl_append]
    by_cases hpad : ((("== ".data ++ M ++ " ==".data)
        :: pairView (catGet m (some M)) none).length = 1)
    · rw [if_pos hpad]
      have hpv : pairView (catGet m (some M)) none = [] := by
        simp only [List.length_cons] at hpad
        exact List.length_eq_zero.1 (by omega)
      obtain ⟨hbn1, hbn2⟩ := (pairView_nil_iff (catGet m (some M)) none).1 hpv
      rw [hpv]
      have e1 : List.foldl bodyStep st
          ((("== ".data ++ M ++ " ==".data) :: ([] : List Str)) ++ [[]])
          = ⟨false, some M, none, st.m⟩ := by
        rw [show ((("== ".data ++ M ++ " ==".data) :: ([] : List Str)) ++ [[]])
            = [("== ".data ++ M ++ " ==".data), []] from rfl]
        rw [List.foldl_cons, bodyStep_mainHead2 st M hign hmainok, List.foldl_cons,
          bodyStep_blank _ rfl, List.foldl_nil]
      rw [e1]
      obtain ⟨rsts2, sub2, C2, e2, hb2⟩ := fold_subBlocks (catGet m (some M)) M subs
        ⟨false, some M, none, st.m⟩ rfl rfl hsubok (fun sc _ => hent (some sc)) hnd
      rw [e2]
      refine ⟨rsts2, some M, sub2, C2, ?_, ?_⟩
      · show (⟨false, some M, sub2,
          ⟨st.m.header,
           st.m.count0 + (subs.map (fun sc =>
             ((alGet (some sc) (catGet m (some M)).1).getD []).length)).sum,
           st.m.count1 + (subs.map (fun sc =>
             ((alGet (some sc) (catGet m (some M)).2).getD []).length)).sum,
           rsts2, C2⟩⟩ : PState) = _
        simp only [List.map_cons, List.sum_cons, List.map_map, Function.comp_def,
          hbn1, hbn2, List.length_nil]
        congr 1
        congr 1
        · omega
        · omega
      · intro K' s' r'
        have hb2' : bucketOf C2 K' s' r'
            = bucketOf st.m.cats K' s' r'
              ++ (if K' = some M ∧ s' ∈ subs.map some
                  then (alGet s' (if r' then (catGet m (some M)).1
                                  else (catGet m (some M)).2)).getD [] else []) :=
          hb2 K' s' r'
        rw [hb2']
        congr 1
        by_cases hK : K' = some M
        · by_cases hsn : s' = none
          · subst hsn
            rw [if_neg (show ¬(K' = some M ∧ (none : Option Str) ∈ subs.map some)
                from fun hh => hnone_map hh.2)]
            rw [if_pos (show K' = some M ∧ (none : Option Str) ∈ none :: subs.map some
                from ⟨hK, List.mem_cons_self _ _⟩)]
            cases r'
            · exact hbn2.symm
            · exact hbn1.symm
          · by_cases hs2 : s' ∈ subs.map some
            · rw [if_pos (⟨hK, hs2⟩ : K' = some M ∧ s' ∈ subs.map some),
                if_pos (show K' = some M ∧ s' ∈ none :: subs.map some
                  from ⟨hK, List.mem_cons_of_mem _ hs2⟩)]
            · rw [if_neg (show ¬(K' = some M ∧ s' ∈ subs.map some) from fun hh => hs2 hh.2),
                if_neg (show ¬(K' = some M ∧ s' ∈ none :: subs.map some) from fun hh => by
                  rcases List.mem_cons.1 hh.2 with h3 | h3
                  · exact hsn h3
                  · exact hs2 h3)]
        · rw [if_neg (show ¬(K' = some M ∧ s' ∈ subs.map some) from fun hh => hK hh.1),
            if_neg (show ¬(K' = some M ∧ s' ∈ none :: subs.map some) from fun hh => hK hh.1)]
    · rw [if_neg hpad]
      rw [List.foldl_cons, bodyStep_mainHead2 st M hign hmainok]
      obtain ⟨rsts1, e1⟩ := fold_pairView (catGet m (some M)) none
        ⟨false, some M, none, st.m⟩ rfl (hent none).1 (hent none).2
      have e1' : List.foldl bodyStep (⟨false, some M, none, st.m⟩ : PState)
          (pairView (catGet m (some M)) none)
          = ⟨false, some M, none,
            ⟨st.m.header,
             st.m.count0 + ((alGet none (catGet m (some M)).1).getD []).length,
             st.m.count1 + ((alGet none (catGet m (some M)).2).getD []).length,
             rsts1,
             catsAppList (some M) none false ((alGet none (catGet m (some M)).2).getD [])
               (catsAppList (some M) none true ((alGet none (catGet m (some M)).1).getD [])
                 st.m.cats)⟩⟩ := e1
      rw [e1']
      obtain ⟨rsts2, sub2, C2, e2, hb2⟩ := fold_subBlocks (catGet m (some M)) M subs
        ⟨false, some M, none,
          ⟨st.m.header,
           st.m.count0 + ((alGet none (catGet m (some M)).1).getD []).length,
           st.m.count1 + ((alGet none (catGet m (some M)).2).getD []).length,
           rsts1,
           catsAppList (some M) none false ((alGet none (catGet m (some M)).2).getD [])
             (catsAppList (some M) none true ((alGet none (catGet m (some M)).1).getD [])
               st.m.cats)⟩⟩ rfl rfl hsubok (fun sc _ => hent (some sc)) hnd
      rw [e2]
      refine ⟨rsts2, some M, sub2, C2, ?_, ?_⟩
      · show (⟨false, some M, sub2,
          ⟨st.m.header,
           st.m.count0 + ((alGet none (catGet m (some M)).1).getD []).length
             + (subs.map (fun sc =>
                 ((alGet (some sc) (catGet m (some M)).1).getD []).length)).sum,
           st.m.count1 + ((alGet none (catGet m (some M)).2).getD []).length
             + (subs.map (fun sc =>
                 ((alGet (some sc) (catGet m (some M)).2).getD []).length)).sum,
           rsts2, C2⟩⟩ : PState) = _
        simp only [List.map_cons, List.sum_cons, List.map_map, Function.comp_def]
        congr 1
        congr 1
        · omega
        · omega
      · intro K' s' r'
        have hb2' : bucketOf C2 K' s' r'
            = bucketOf (catsAppList (some M) none false
                  ((alGet none (catGet m (some M)).2).getD [])
                  (catsAppList (some M) none true
                    ((alGet none (catGet m (some M)).1).getD []) st.m.cats)) K' s' r'
              ++ (if K' = some M ∧ s' ∈ subs.map some
                  then (alGet s' (if r' then (catGet m (some M)).1
                                  else (catGet m (some M)).2)).getD [] else []) :=
          hb2 K' s' r'
        rw [hb2', bucketOf_doubleApp, List.append_assoc]
        congr 1
        by_cases hK : K' = some M
        · by_cases hsn : s' = none
          · subst hsn
            rw [if_pos (⟨hK, rfl⟩ : K' = some M ∧ (none : Option Str) = none)]
            rw [if_neg (show ¬(K' = some M ∧ (none : Option Str) ∈ subs.map some)
                from fun hh => hnone_map hh.2)]
            rw [if_pos (show K' = some M ∧ (none : Option Str) ∈ none :: subs.map some
                from ⟨hK, List.mem_cons_self _ _⟩)]
            rw [List.append_nil]
            cases r' <;> rfl
          · by_cases hs2 : s' ∈ subs.map some
            · rw [if_neg (show ¬(K' = some M ∧ s' = none) from fun hh => hsn hh.2),
                if_pos (⟨hK, hs2⟩ : K' = some M ∧ s' ∈ subs.map some),
                if_pos (show K' = some M ∧ s' ∈ none :: subs.map some
                  from ⟨hK, List.mem_cons_of_mem _ hs2⟩)]
              rw [List.nil_append]
            · rw [if_neg (show ¬(K' = some M ∧ s' = none) from fun hh => hsn hh.2),
                if_neg (show ¬(K' = some M ∧ s' ∈ subs.map some) from fun hh => hs2 hh.2),
                if_neg (show ¬(K' = some M ∧ s' ∈ none :: subs.map some) from fun hh => by
                  rcases List.mem_cons.1 hh.2 with h3 | h3
                  · exact hsn h3
                  · exact hs2 h3)]
              rfl
        · rw [if_neg (show ¬(K' = some M ∧ s' = none) from fun hh => hK hh.1),
            if_neg (show ¬(K' = some M ∧ s' ∈ subs.map some) from fun hh => hK hh.1),
            if_neg (show ¬(K' = some M ∧ s' ∈ none :: subs.map some) from fun hh => hK hh.1)]
          rfl
/-- Folding the body parser over the rendered blocks of a list of
categories: every bucket in scope is replayed, both counters advance by
the per-category totals, and the header survives. -/
theorem fold_blocks (m : RLog) (cs : List (Str × List Str)) :
    ∀ (st : PState), st.ignore = false →
    (∀ p ∈ cs, HMainOKb p.1 = true) →
    (∀ p ∈ cs, ∀ sc ∈ p.2, HSubOKb sc p.1 = true) →
    (∀ p ∈ cs, ∀ k, (∀ e ∈ (alGet k (catGet m (some p.1)).1).getD [], EntryOKb e true = true)
        ∧ (∀ e ∈ (alGet k (catGet m (some p.1)).2).getD [], EntryOKb e false = true)) →
    (∀ p ∈ cs, p.2.Nodup) →
    (cs.map (·.1)).Nodup →
    ∃ st' : PState, (cs.flatMap (fun p => mainCatBlock m p.1 p.2)).foldl bodyStep st = st'
      ∧ st'.ignore = false
      ∧ st'.m.header = st.m.header
      ∧ st'.m.count0 = st.m.count0 + (cs.map (fun p => ((none :: p.2.map some).map
            (fun s => ((alGet s (catGet m (some p.1)).1).getD []).length)).sum)).sum
      ∧ st'.m.count1 = st.m.count1 + (cs.map (fun p => ((none :: p.2.map some).map
            (fun s => ((alGet s (catGet m (some p.1)).2).getD []).length)).sum)).sum
      ∧ ∀ K' s' r', bucketOf st'.m.cats K' s' r'
          = bucketOf st.m.cats K' s' r'
            ++ (if ∃ p ∈ cs, K' = some p.1 ∧ s' ∈ (none :: p.2.map some)
                then (alGet s' (if r' then (catGet m K').1 else (catGet m K').2)).getD []
                else []) := by
  induction cs with
  | nil =>
    intro st hign _ _ _ _ _
    refine ⟨st, rfl, hign, rfl, by simp, by simp, ?_⟩
    intro K' s' r'
    rw [if_neg (by simp), List.append_nil]
  | cons p cs' ih =>
    intro st hign hmok hsok hek hndsub hndmain
    rw [List.flatMap_cons, List.foldl_append]
    obtain ⟨rsts1, main1, sub1, C1, e1, hb1⟩ := fold_mainBlock m p.1 p.2 st hign
      (hmok p (List.mem_cons_self p cs'))
      (hsok p (List.mem_cons_self p cs'))
      (hek p (List.mem_cons_self p cs'))
      (hndsub p (List.mem_cons_self p cs'))
    rw [e1]
    obtain ⟨st2, e2, h2ign, h2hdr, h2c0, h2c1, h2b⟩ := ih
      ⟨false, main1, sub1,
        { header := st.m.header,
          count0 := st.m.count0 + ((none :: p.2.map some).map
              (fun s => ((alGet s (catGet m (some p.1)).1).getD []).length)).sum,
          count1 := st.m.count1 + ((none :: p.2.map some).map
              (fun s => ((alGet s (catGet m (some p.1)).2).getD []).length)).sum,
          rstates := rsts1, cats := C1 }⟩ rfl
      (fun q hq => hmok q (List.mem_cons_of_mem p hq))
      (fun q hq => hsok q (List.mem_cons_of_mem p hq))
      (fun q hq => hek q (List.mem_cons_of_mem p hq))
      (fun q hq => hndsub q (List.mem_cons_of_mem p hq))
      (by rw [List.map_cons] at hndmain; exact (List.nodup_cons.1 hndmain).2)
    refine ⟨st2, e2, h2ign, by rw [h2hdr], ?_, ?_, ?_⟩
    · rw [h2c0]
      simp only [List.map_cons, List.sum_cons]
      omega
    · rw [h2c1]
      simp only [List.map_cons, List.sum_cons]
      omega
    · intro K' s' r'
      rw [h2b K' s' r']
      simp only
      rw [hb1 K' s' r', List.append_assoc]
      congr 1
      have hpnotin : ∀ q ∈ cs', K' = some p.1 → ¬ (K' = some q.1) := by
        intro q hq hKp hKq
        rw [List.map_cons] at hndmain
        have hne := (List.nodup_cons.1 hndmain).1
        rw [hKp] at hKq
        injection hKq with hh
        exact hne (hh ▸ List.mem_map_of_mem (·.1) hq)
      by_cases hp : K' = some p.1 ∧ s' ∈ (none :: p.2.map some)
      · rw [if_pos hp]
        rw [if_neg (show ¬ ∃ q ∈ cs', K' = some q.1 ∧ s' ∈ (none :: q.2.map some) from by
          rintro ⟨q, hq, hKq, -⟩
          exact hpnotin q hq hp.1 hKq)]
        rw [if_pos (show ∃ q ∈ p :: cs', K' = some q.1 ∧ s' ∈ (none :: q.2.map some) from
          ⟨p, List.mem_cons_self p cs', hp.1, hp.2⟩)]
        rw [List.append_nil]
        rw [hp.1]
      · rw [if_neg hp]
        by_cases hrest : ∃ q ∈ cs', K' = some q.1 ∧ s' ∈ (none :: q.2.map some)
        · rw [if_pos hrest]
          rw [if_pos (show ∃ q ∈ p :: cs', K' = some q.1 ∧ s' ∈ (none :: q.2.map some) from by
            obtain ⟨q, hq, hx⟩ := hrest
            exact ⟨q, List.mem_cons_of_mem p hq, hx⟩)]
          rw [List.nil_append]
        · rw [if_neg hrest]
          rw [if_neg (show ¬ ∃ q ∈ p :: cs', K' = some q.1 ∧ s' ∈ (none :: q.2.map some) from by
            rintro ⟨q, hq, hx⟩
            rcases List.mem_cons.1 hq with rfl | hq'
            · exact hp hx
            · exact hrest ⟨q, hq', hx⟩)]
          rfl
/-- Character non-membership distributes over append. -/
theorem not_mem_append2 {c : Char} {a b : Str} (ha : c ∉ a) (hb : c ∉ b) : c ∉ a ++ b := by
  intro h
  rcases List.mem_append.1 h with h | h
  · exact ha h
  · exact hb h

/-- A needle whose first character is absent from the haystack never
occurs in it. -/
theorem isSubstr_head_not_mem (c : Char) (p' : Str) :
    ∀ (s : Str), c ∉ s → isSubstr (c :: p') s = false := by
  intro s
  induction s with
  | nil => intro _; rfl
  | cons d rest ih =>
    intro hmem
    have hcd : c ≠ d := fun h => hmem (h ▸ List.mem_cons_self d rest)
    show (strBegins (c :: p') (d :: rest) || isSubstr (c :: p') rest) = false
    rw [show strBegins (c :: p') (d :: rest) = ((c = d : Bool) && strBegins p' rest) from rfl]
    rw [decide_eq_false hcd]
    rw [ih (fun h => hmem (List.mem_cons_of_mem d h))]
    rfl

/-- The markup opener is absent from the count-summary line. -/
theorem totalLine_no_lt (c0 c1 : Nat) : '<' ∉ totalLine c0 c1 := by
  have hnd : ∀ n, '<' ∉ natDigits n := fun n hm => (natDigits_safe n _ hm).2 rfl
  unfold totalLine
  exact not_mem_append2 (not_mem_append2 (not_mem_append2 (not_mem_append2 (not_mem_append2
    (not_mem_append2 (by decide) (hnd _)) (by decide)) (hnd _)) (by decide)) (hnd _))
    (by decide)

/-- No ignore marker occurs in the count-summary line. -/
theorem totalLine_no_markers (c0 c1 : Nat) :
    isSubstr IGNORE_END_LINE (totalLine c0 c1) = false
    ∧ isSubstr IGNORE_START_LINE (totalLine c0 c1) = false := by
  constructor
  · rw [show IGNORE_END_LINE = '<' :: "!-- IGNORE_END -->".data from rfl]
    exact isSubstr_head_not_mem _ _ _ (totalLine_no_lt c0 c1)
  · rw [show IGNORE_START_LINE = '<' :: "!-- IGNORE_START -->".data from rfl]
    exact isSubstr_head_not_mem _ _ _ (totalLine_no_lt c0 c1)

/-- A stripped line whose first character is ordinary cannot be a wiki
heading. -/
theorem strip_head_not_dd (c : Char) (u : Str)
    (hc1 : (" \n".data.contains c) = false) (hc2 : c ≠ '=') :
    strBegins "==".data (pyStrip " \n".data (c :: u)) = false := by
  unfold pyStrip
  rw [show (c :: u).dropWhile (" \n".data.contains ·)
      = if (" \n".data.contains c) then (u.dropWhile (" \n".data.contains ·)) else c :: u
    from List.dropWhile_cons ..]
  rw [hc1]
  simp only [Bool.false_eq_true, if_false]
  have hsuf := List.dropWhile_suffix (l := (c :: u).reverse) (" \n".data.contains ·)
  have hpre : ((c :: u).reverse.dropWhile (" \n".data.contains ·)).reverse <+: (c :: u) :=
    List.reverse_suffix.1 (by rw [List.reverse_reverse]; exact hsuf)
  obtain ⟨t, ht⟩ := hpre
  cases hr : ((c :: u).reverse.dropWhile (" \n".data.contains ·)).reverse with
  | nil => rfl
  | cons a r' =>
    rw [hr] at ht
    rw [List.cons_append] at ht
    injection ht with h1 h2
    subst h1
    show (('=' = a : Bool) && strBegins "=".data r') = false
    rw [decide_eq_false (fun h => hc2 h.symm)]
    rfl
/-- Header loop: collect an ordinary line. -/
theorem pH_collect (hdr : List Str) (l : Str) (rest : List Str)
    (h1 : isSubstr IGNORE_END_LINE l = false)
    (h2 : isSubstr IGNORE_START_LINE l = false)
    (h3 : strBegins "==".data (pyStrip " \n".data l) = false) :
    parseHeaderLoop false hdr (l :: rest)
      = parseHeaderLoop false (hdr ++ [pyStrip " \n".data l]) rest := by
  conv_lhs => rw [parseHeaderLoop]
  simp only [h1, h2, h3, Bool.false_or, Bool.false_eq_true, if_false]

/-- Header loop: an ignore-opening line. -/
theorem pH_startIgn (ign : Bool) (hdr : List Str) (l : Str) (rest : List Str)
    (h1 : isSubstr IGNORE_END_LINE l = false)
    (h2 : isSubstr IGNORE_START_LINE l = true) :
    parseHeaderLoop ign hdr (l :: rest) = parseHeaderLoop true hdr rest := by
  conv_lhs => rw [parseHeaderLoop]
  simp only [h1, h2, Bool.or_true, Bool.false_eq_true, if_false, if_true]

/-- Header loop: a line inside an ignore block. -/
theorem pH_underIgn (hdr : List Str) (l : Str) (rest : List Str)
    (h1 : isSubstr IGNORE_END_LINE l = false) :
    parseHeaderLoop true hdr (l :: rest) = parseHeaderLoop true hdr rest := by
  conv_lhs => rw [parseHeaderLoop]
  simp only [h1, Bool.true_or, Bool.false_eq_true, if_false, if_true]

/-- Header loop: an ignore-closing line. -/
theorem pH_endIgn (ign : Bool) (hdr : List Str) (l : Str) (rest : List Str)
    (h1 : isSubstr IGNORE_END_LINE l = true) :
    parseHeaderLoop ign hdr (l :: rest) = parseHeaderLoop false hdr rest := by
  conv_lhs => rw [parseHeaderLoop]
  simp only [h1, if_true]

/-- Header loop: a heading line ends the header phase. -/
theorem pH_heading (hdr : List Str) (l : Str) (rest : List Str)
    (h1 : isSubstr IGNORE_END_LINE l = false)
    (h2 : isSubstr IGNORE_START_LINE l = false)
    (h3 : strBegins "==".data (pyStrip " \n".data l) = true) :
    parseHeaderLoop false hdr (l :: rest)
      = (false, hdr, some (mainHeadState (pyStrip " =".data (pyStrip " \n".data l))), rest) := by
  conv_lhs => rw [parseHeaderLoop]
  simp only [h1, h2, h3, Bool.false_or, Bool.false_eq_true, if_false, if_true]

set_option maxRecDepth 20000 in
/-- The header phase walks the fixed heading-free document prefix and
resumes after it. -/
theorem headerPhase (hdr0 : List Str) (L3 : Str) (c0 c1 : Nat) (R : List Str)
    (h3end : isSubstr IGNORE_END_LINE L3 = false)
    (h3start : isSubstr IGNORE_START_LINE L3 = false)
    (h3dd : strBegins "==".data (pyStrip " \n".data L3) = false) :
    parseHeaderLoop false hdr0 (([] : Str) :: L3 :: ([] : Str) :: IGNORE_START_LINE
        :: totalLine c0 c1 :: ([] : Str) :: noteBlock :: IGNORE_END_LINE :: ([] : Str) :: R)
      = parseHeaderLoop false
          (hdr0 ++ [[]] ++ [pyStrip " \n".data L3] ++ [[]] ++ [[]]) R := by
  rw [pH_collect hdr0 [] _ (by decide) (by decide) (by decide)]
  rw [pH_collect _ L3 _ h3end h3start h3dd]
  rw [pH_collect _ [] _ (by decide) (by decide) (by decide)]
  rw [pH_startIgn false _ IGNORE_START_LINE _ (by decide) (by decide)]
  rw [pH_underIgn _ (totalLine c0 c1) _ (totalLine_no_markers c0 c1).1]
  rw [pH_underIgn _ [] _ (by decide)]
  rw [pH_underIgn _ noteBlock _ (by decide)]
  rw [pH_endIgn _ _ IGNORE_END_LINE _ (by decide)]
  rw [pH_collect _ [] _ (by decide) (by decide) (by decide)]
  rfl
/-- First document line, when clean, starts the header. -/
theorem findFirst_cons (l : Str) (rest : List Str)
    (h1 : isSubstr IGNORE_END_LINE l = false)
    (h2 : isSubstr IGNORE_START_LINE l = false) :
    findFirstLine false (l :: rest) = (false, some (pyStrip " \n".data l, rest)) := by
  conv_lhs => rw [findFirstLine]
  simp only [h1, h2, Bool.false_or, Bool.false_eq_true, if_false]

/-- A known main category resolves to itself. -/
theorem mainHeadState_of_ok (M : Str) (h : HMainOKb M = true) :
    mainHeadState M = (some M, none) := by
  simp only [HMainOKb, Bool.and_eq_true] at h
  unfold mainHeadState
  rw [if_pos h.2]

/-- A nonempty main-category block starts with its heading line. -/
theorem mainCatBlock_cons_of_ne (m : RLog) (M : Str) (subs : List Str)
    (h : mainCatBlock m M subs ≠ []) :
    ∃ t, mainCatBlock m M subs = ("== ".data ++ M ++ " ==".data) :: t := by
  have hc : catHasB m M subs = true := by
    cases hcc : catHasB m M subs
    · exact absurd ((mainCatBlock_nil_iff m M subs).2 hcc) h
    · rfl
  have hh := mainCatBlock_head m M subs
  rw [hc, if_pos rfl] at hh
  cases hl : mainCatBlock m M subs with
  | nil => exact absurd hl h
  | cons a t =>
    rw [hl] at hh
    injection hh with hh2
    refine ⟨t, ?_⟩
    rw [hh2]
    rfl

/-- The bucket accessor is the raw-map accessor. -/
theorem getBucket_bucketOf (x : RLog) (K s : Option Str) (r : Bool) :
    getBucket x K s r = bucketOf x.cats K s r := rfl

/-- Empty raw map has empty buckets. -/
theorem bucketOf_nil (a b : Option Str) (r : Bool) :
    bucketOf ([] : List (Option Str × CatPair)) a b r = [] := by
  cases r <;> simp [bucketOf, alGet]

/-- Without an uncategorized key there is no UNSORTED block. -/
theorem unsortedBlock_nil (m : RLog) (h : alGet none m.cats = none) :
    unsortedBlock m = [] := by
  unfold unsortedBlock
  rw [h]
  rfl

/-- The parser walks rendered category blocks: either every block is
empty and the header loop passes through, or it stops at the first
heading and the remaining lines replay like the whole block stream. -/
theorem parseHeaderLoop_blocks (m : RLog) (cs : List (Str × List Str)) :
    ∀ (hdr : List Str) (T : List Str),
    (∀ p ∈ cs, HMainOKb p.1 = true) →
    ((∀ p ∈ cs, mainCatBlock m p.1 p.2 = [])
      ∧ parseHeaderLoop false hdr ((cs.flatMap (fun p => mainCatBlock m p.1 p.2)) ++ T)
          = parseHeaderLoop false hdr T)
    ∨ (∃ M rest2,
        parseHeaderLoop false hdr ((cs.flatMap (fun p => mainCatBlock m p.1 p.2)) ++ T)
          = (false, hdr, some (some M, none), rest2)
        ∧ ∀ (acc : RLog) (ma0 su0 : Option Str),
            List.foldl bodyStep ⟨false, some M, none, acc⟩ rest2
              = List.foldl bodyStep ⟨false, ma0, su0, acc⟩
                  ((cs.flatMap (fun p => mainCatBlock m p.1 p.2)) ++ T)) := by
  induction cs with
  | nil =>
    intro hdr T _
    exact Or.inl ⟨fun p hp => absurd hp (List.not_mem_nil p), rfl⟩
  | cons p cs' ih =>
    intro hdr T hmok
    by_cases hb : mainCatBlock m p.1 p.2 = []
    · rw [List.flatMap_cons, hb, List.nil_append]
      rcases ih hdr T (fun q hq => hmok q (List.mem_cons_of_mem p hq)) with ⟨hall, heq⟩ | hr
      · exact Or.inl ⟨fun q hq => by
          rcases List.mem_cons.1 hq with rfl | hq'
          · exact hb
          · exact hall q hq', heq⟩
      · obtain ⟨M, rest2, heq, hbr⟩ := hr
        refine Or.inr ⟨M, rest2, heq, ?_⟩
        intro acc ma0 su0
        rw [hbr acc ma0 su0]
    · obtain ⟨t, hbt⟩ := mainCatBlock_cons_of_ne m p.1 p.2 hb
      have hok := hmok p (List.mem_cons_self p cs')
      have hparts : isSubstr IGNORE_END_LINE ("== ".data ++ p.1 ++ " ==".data) = false
          ∧ isSubstr IGNORE_START_LINE ("== ".data ++ p.1 ++ " ==".data) = false
          ∧ pyStrip " \n".data ("== ".data ++ p.1 ++ " ==".data)
              = ("== ".data ++ p.1 ++ " ==".data)
          ∧ pyStrip " =".data ("== ".data ++ p.1 ++ " ==".data) = p.1 := by
        have h2 := hok
        simp only [HMainOKb, Bool.and_eq_true, Bool.not_eq_true', beq_iff_eq] at h2
        exact ⟨h2.1.1.1.1, h2.1.1.1.2, h2.1.1.2, h2.1.2⟩
      rw [List.flatMap_cons, hbt, List.cons_append, List.cons_append]
      rw [pH_heading hdr _ _ hparts.1 hparts.2.1
        (by rw [hparts.2.2.1]; rfl)]
      rw [hparts.2.2.1, hparts.2.2.2, mainHeadState_of_ok p.1 hok]
      refine Or.inr ⟨p.1, (t ++ cs'.flatMap (fun q => mainCatBlock m q.1 q.2)) ++ T, rfl, ?_⟩
      intro acc ma0 su0
      rw [List.foldl_cons, bodyStep_mainHead2 ⟨false, ma0, su0, acc⟩ p.1 rfl hok]

/-- Blank body line keeps the model. -/
theorem bodyStep_m_blank (st : PState) : (bodyStep st []).m = st.m := by
  unfold bodyStep
  cases st.ignore <;> rfl

/-- Ignore-opening body line keeps the model. -/
theorem bodyStep_m_start (st : PState) : (bodyStep st IGNORE_START_LINE).m = st.m := by
  unfold bodyStep
  cases st.ignore <;> rfl

/-- Horizontal-rule line keeps the model. -/
theorem bodyStep_m_hr (st : PState) : (bodyStep st "<hr/>".data).m = st.m := by
  unfold bodyStep
  cases st.ignore <;> rfl

/-- Ignore-closing body line keeps the model. -/
theorem bodyStep_m_end (st : PState) : (bodyStep st IGNORE_END_LINE).m = st.m := by
  unfold bodyStep
  cases st.ignore <;> rfl

/-- The closing lines of the document leave the model untouched. -/
theorem fold_tail_m (st : PState) : (tailLines.foldl bodyStep st).m = st.m := by
  show (bodyStep (bodyStep (bodyStep (bodyStep (bodyStep (bodyStep st
      IGNORE_START_LINE) []) ("<hr/>".data)) []) IGNORE_END_LINE) []).m = st.m
  rw [bodyStep_m_blank, bodyStep_m_end, bodyStep_m_blank, bodyStep_m_hr,
    bodyStep_m_blank, bodyStep_m_start]
/-- Well-formed entries contain no newline. -/
theorem entryOKb_no_nl (e : Str) (r : Bool) (h : EntryOKb e r = true) : '\n' ∉ e := by
  simp only [EntryOKb, Bool.and_eq_true] at h
  exact not_mem_of_all_ne e h.1.1.1.1.1.2

set_option maxRecDepth 40000 in
/-- The static category tree is well-formed for the parser: every main
heading and sub heading round-trips through the line parser, sub lists
are duplicate-free, and main names are distinct. -/
theorem tree_facts :
    (∀ p ∈ BUGFIX_CATEGORIES, HMainOKb p.1 = true)
    ∧ (∀ p ∈ BUGFIX_CATEGORIES, ∀ sc ∈ p.2, HSubOKb sc p.1 = true)
    ∧ (∀ p ∈ BUGFIX_CATEGORIES, p.2.Nodup)
    ∧ (BUGFIX_CATEGORIES.map (·.1)).Nodup := by
  refine ⟨?_, ?_, ?_, ?_⟩ <;> decide

set_option maxRecDepth 40000 in
/-- Heading lines of the static tree contain no newline. -/
theorem tree_line_nl :
    ∀ p ∈ BUGFIX_CATEGORIES, '\n' ∉ ("== ".data ++ p.1 ++ " ==".data)
      ∧ ∀ sc ∈ p.2, '\n' ∉ ("=== ".data ++ sc ++ " ===".data) := by
  decide

/-- Category lines of a tree-scoped model with well-formed entries are
newline-free. -/
theorem catLines_no_nl (m : RLog)
    (hnokey : alGet none m.cats = none)
    (hent : ∀ p ∈ BUGFIX_CATEGORIES, ∀ k,
        (∀ e ∈ (alGet k (catGet m (some p.1)).1).getD [], EntryOKb e true = true)
        ∧ (∀ e ∈ (alGet k (catGet m (some p.1)).2).getD [], EntryOKb e false = true)) :
    ∀ l ∈ catLines m, '\n' ∉ l := by
  intro l hl
  unfold catLines at hl
  rw [unsortedBlock_nil m hnokey, List.append_nil] at hl
  obtain ⟨p, hp, hlp⟩ := List.mem_flatMap.1 hl
  have hpv : ∀ k, l ∈ pairView (catGet m (some p.1)) k → '\n' ∉ l := by
    intro k hk
    rcases mem_pairView _ _ _ hk with rfl | h | h
    · exact List.not_mem_nil _
    · exact entryOKb_no_nl l true ((hent p hp k).1 l h)
    · exact entryOKb_no_nl l false ((hent p hp k).2 l h)
  have hsubline : ∀ sc ∈ p.2, l ∈ (if 2 < (("=== ".data ++ sc ++ " ===".data)
      :: pairView (catGet m (some p.1)) (some sc)).length
      then ("=== ".data ++ sc ++ " ===".data) :: pairView (catGet m (some p.1)) (some sc)
      else []) → '\n' ∉ l := by
    intro sc hsc hin
    split at hin
    · rcases List.mem_cons.1 hin with rfl | h
      · exact (tree_line_nl p hp).2 sc hsc
      · exact hpv (some sc) h
    · exact absurd hin (List.not_mem_nil l)
  rcases mainCatBlock_cases m p.1 p.2 with hnil | hfull
  · rw [hnil] at hlp
    exact absurd hlp (List.not_mem_nil l)
  · rw [hfull] at hlp
    rcases List.mem_append.1 hlp with h | h
    · split at h
      · rcases List.mem_append.1 h with h' | h'
        · rcases List.mem_cons.1 h' with rfl | h2
          · exact (tree_line_nl p hp).1
          · exact hpv none h2
        · rcases List.mem_singleton.1 h' with rfl
          exact List.not_mem_nil _
      · rcases List.mem_cons.1 h with rfl | h2
        · exact (tree_line_nl p hp).1
        · exact hpv none h2
    · obtain ⟨sc, hsc, hin⟩ := List.mem_flatMap.1 h
      exact hsubline sc hsc hin

/-- If no category renders any line, every bucket of a tree-scoped model
is empty. -/
theorem allEmpty_of_catLines_nil (m : RLog)
    (hnokey : alGet none m.cats = none)
    (hscopeA : ∀ K, (∀ p ∈ BUGFIX_CATEGORIES, K ≠ some p.1) → ∀ s r, getBucket m K s r = [])
    (hscopeB : ∀ p ∈ BUGFIX_CATEGORIES, ∀ s, s ∉ (none :: p.2.map some) →
        ∀ r, getBucket m (some p.1) s r = [])
    (hcatn : catLines m = []) :
    ∀ K s r, getBucket m K s r = [] := by
  have hflat : BUGFIX_CATEGORIES.flatMap (fun p => mainCatBlock m p.1 p.2) = [] := by
    unfold catLines at hcatn
    rw [unsortedBlock_nil m hnokey, List.append_nil] at hcatn
    exact hcatn
  have hblocks := List.flatMap_eq_nil_iff.1 hflat
  intro K s r
  by_cases hK : ∃ p ∈ BUGFIX_CATEGORIES, K = some p.1
  · obtain ⟨p, hp, rfl⟩ := hK
    by_cases hs : s ∈ (none :: p.2.map some)
    · have hc := (mainCatBlock_nil_iff m p.1 p.2).1 (hblocks p hp)
      have := (catHasB_false_iff m p.1 p.2).1 hc s hs
      cases r
      · exact this.2
      · exact this.1
    · exact hscopeB p hp s hs r
  · push_neg at hK
    exact hscopeA K hK s r
/-- Folding the body once the header phase handed over: the parsed model
agrees with `m` on every bucket and both counters, for any fresh
accumulator. -/
theorem final_assembly (m A : RLog)
    (hA0 : A.count0 = 0) (hA1 : A.count1 = 0) (hAc : A.cats = [])
    (hent : ∀ p ∈ BUGFIX_CATEGORIES, ∀ k,
        (∀ e ∈ (alGet k (catGet m (some p.1)).1).getD [], EntryOKb e true = true)
        ∧ (∀ e ∈ (alGet k (catGet m (some p.1)).2).getD [], EntryOKb e false = true))
    (hscopeA : ∀ K, (∀ p ∈ BUGFIX_CATEGORIES, K ≠ some p.1) → ∀ s r, getBucket m K s r = [])
    (hscopeB : ∀ p ∈ BUGFIX_CATEGORIES, ∀ s, s ∉ (none :: p.2.map some) →
        ∀ r, getBucket m (some p.1) s r = [])
    (hc0 : m.count0 = (BUGFIX_CATEGORIES.map (fun p => ((none :: p.2.map some).map
        (fun s => ((alGet s (catGet m (some p.1)).1).getD []).length)).sum)).sum)
    (hc1 : m.count1 = (BUGFIX_CATEGORIES.map (fun p => ((none :: p.2.map some).map
        (fun s => ((alGet s (catGet m (some p.1)).2).getD []).length)).sum)).sum) :
    (∀ K s r, getBucket ((List.foldl bodyStep ⟨false, none, none, A⟩
        ((BUGFIX_CATEGORIES.flatMap fun p => mainCatBlock m p.1 p.2)
          ++ [IGNORE_START_LINE, [], "<hr/>".data, [], IGNORE_END_LINE, []])).m) K s r
      = getBucket m K s r)
    ∧ (List.foldl bodyStep ⟨false, none, none, A⟩
        ((BUGFIX_CATEGORIES.flatMap fun p => mainCatBlock m p.1 p.2)
          ++ [IGNORE_START_LINE, [], "<hr/>".data, [], IGNORE_END_LINE, []])).m.count0
        = m.count0
    ∧ (List.foldl bodyStep ⟨false, none, none, A⟩
        ((BUGFIX_CATEGORIES.flatMap fun p => mainCatBlock m p.1 p.2)
          ++ [IGNORE_START_LINE, [], "<hr/>".data, [], IGNORE_END_LINE, []])).m.count1
        = m.count1 := by
  obtain ⟨st2, hst2, hign2, hhdr2, hcA, hcB, hbuck⟩ :=
    fold_blocks m BUGFIX_CATEGORIES ⟨false, none, none, A⟩ rfl
      tree_facts.1 tree_facts.2.1 hent tree_facts.2.2.1 tree_facts.2.2.2
  rw [List.foldl_append, hst2]
  have ht : (List.foldl bodyStep st2
      [IGNORE_START_LINE, [], "<hr/>".data, [], IGNORE_END_LINE, []]).m = st2.m :=
    fold_tail_m st2
  rw [ht]
  refine ⟨?_, ?_, ?_⟩
  · intro K s r
    rw [getBucket_bucketOf st2.m K s r, hbuck K s r]
    have hb2 : bucketOf (⟨false, none, none, A⟩ : PState).m.cats K s r
        = bucketOf A.cats K s r := rfl
    rw [hb2, hAc, bucketOf_nil, List.nil_append]
    by_cases hK : ∃ p ∈ BUGFIX_CATEGORIES, K = some p.1 ∧ s ∈ (none :: p.2.map some)
    · rw [if_pos hK]
      rfl
    · rw [if_neg hK]
      by_cases hKin : ∃ p ∈ BUGFIX_CATEGORIES, K = some p.1
      · obtain ⟨p, hp, rfl⟩ := hKin
        have hs : s ∉ (none :: p.2.map some) := by
          intro hsin
          exact hK ⟨p, hp, rfl, hsin⟩
        rw [hscopeB p hp s hs r]
      · have hKn : ∀ q ∈ BUGFIX_CATEGORIES, K ≠ some q.1 := by
          intro q hq hKq
          exact hKin ⟨q, hq, hKq⟩
        rw [hscopeA K hKn s r]
  · rw [hcA]
    have h0 : (⟨false, none, none, A⟩ : PState).m.count0 = 0 := hA0
    rw [h0, Nat.zero_add]
    exact hc0.symm
  · rw [hcB]
    have h1 : (⟨false, none, none, A⟩ : PState).m.count1 = 0 := hA1
    rw [h1, Nat.zero_add]
    exact hc1.symm

set_option maxRecDepth 40000 in
/-- Re-parsing the rendered document of a tree-scoped, well-formed model
reproduces every bucket and both counters. -/
theorem parse_roundtrip (m : RLog) (branch rev s1 s2 st0 : Str) (rl : List Str)
    (hhdr : m.header = freshHeader rev s1 s2 (some st0))
    (hrst : ∀ r, (alGet r m.rstates).getD [] = [])
    (hnl1 : '\n' ∉ rev) (hnl2 : '\n' ∉ s1.take 10) (hnl3 : '\n' ∉ s2.take 10)
    (hnl4 : '\n' ∉ st0)
    (hlt1 : '<' ∉ rev) (hlt4 : '<' ∉ st0)
    (hlt2 : '<' ∉ s1.take 10) (hlt3 : '<' ∉ s2.take 10)
    (hnokey : alGet none m.cats = none)
    (hent : ∀ p ∈ BUGFIX_CATEGORIES, ∀ k,
        (∀ e ∈ (alGet k (catGet m (some p.1)).1).getD [], EntryOKb e true = true)
        ∧ (∀ e ∈ (alGet k (catGet m (some p.1)).2).getD [], EntryOKb e false = true))
    (hscopeA : ∀ K, (∀ p ∈ BUGFIX_CATEGORIES, K ≠ some p.1) → ∀ s r, getBucket m K s r = [])
    (hscopeB : ∀ p ∈ BUGFIX_CATEGORIES, ∀ s, s ∉ (none :: p.2.map some) →
        ∀ r, getBucket m (some p.1) s r = [])
    (hc0 : m.count0 = (BUGFIX_CATEGORIES.map (fun p => ((none :: p.2.map some).map
        (fun s => ((alGet s (catGet m (some p.1)).1).getD []).length)).sum)).sum)
    (hc1 : m.count1 = (BUGFIX_CATEGORIES.map (fun p => ((none :: p.2.map some).map
        (fun s => ((alGet s (catGet m (some p.1)).2).getD []).length)).sum)).sum) :
    (∀ K s r, getBucket (release_log_parse branch rev s1 s2 (some st0) rl
        (splitNL (renderText m rl))) K s r = getBucket m K s r)
    ∧ (release_log_parse branch rev s1 s2 (some st0) rl
        (splitNL (renderText m rl))).count0 = m.count0
    ∧ (release_log_parse branch rev s1 s2 (some st0) rl
        (splitNL (renderText m rl))).count1 = m.count1 := by
  have hL1lt : '<' ∉ "= Blender ".data ++ rev ++ ": Bug Fixes =".data :=
    not_mem_append2 (not_mem_append2 (by decide) hlt1) (by decide)
  have hL3lt : '<' ∉ "[".data ++ st0 ++ "] ".data
      ++ "Changes from revision \x7b\x7bGitCommit|rB".data ++ s1.take 10
      ++ "\x7d\x7d to \x7b\x7bGitCommit|rB".data ++ s2.take 10
      ++ "\x7d\x7d, inclusive.".data :=
    not_mem_append2 (not_mem_append2 (not_mem_append2 (not_mem_append2 (not_mem_append2
      (not_mem_append2 (not_mem_append2 (by decide) hlt4) (by decide)) (by decide)) hlt2)
      (by decide)) hlt3) (by decide)
  have hL1end : isSubstr IGNORE_END_LINE
      ("= Blender ".data ++ rev ++ ": Bug Fixes =".data) = false := by
    rw [show IGNORE_END_LINE = '<' :: "!-- IGNORE_END -->".data from rfl]
    exact isSubstr_head_not_mem _ _ _ hL1lt
  have hL1start : isSubstr IGNORE_START_LINE
      ("= Blender ".data ++ rev ++ ": Bug Fixes =".data) = false := by
    rw [show IGNORE_START_LINE = '<' :: "!-- IGNORE_START -->".data from rfl]
    exact isSubstr_head_not_mem _ _ _ hL1lt
  have hL3end : isSubstr IGNORE_END_LINE ("[".data ++ st0 ++ "] ".data
      ++ "Changes from revision \x7b\x7bGitCommit|rB".data ++ s1.take 10
      ++ "\x7d\x7d to \x7b\x7bGitCommit|rB".data ++ s2.take 10
      ++ "\x7d\x7d, inclusive.".data) = false := by
    rw [show IGNORE_END_LINE = '<' :: "!-- IGNORE_END -->".data from rfl]
    exact isSubstr_head_not_mem _ _ _ hL3lt
  have hL3start : isSubstr IGNORE_START_LINE ("[".data ++ st0 ++ "] ".data
      ++ "Changes from revision \x7b\x7bGitCommit|rB".data ++ s1.take 10
      ++ "\x7d\x7d to \x7b\x7bGitCommit|rB".data ++ s2.take 10
      ++ "\x7d\x7d, inclusive.".data) = false := by
    rw [show IGNORE_START_LINE = '<' :: "!-- IGNORE_START -->".data from rfl]
    exact isSubstr_head_not_mem _ _ _ hL3lt
  have hL3dd : strBegins "==".data (pyStrip " \n".data ("[".data ++ st0 ++ "] ".data
      ++ "Changes from revision \x7b\x7bGitCommit|rB".data ++ s1.take 10
      ++ "\x7d\x7d to \x7b\x7bGitCommit|rB".data ++ s2.take 10
      ++ "\x7d\x7d, inclusive.".data)) = false :=
    strip_head_not_dd '[' (st0 ++ "] ".data
      ++ "Changes from revision \x7b\x7bGitCommit|rB".data ++ s1.take 10
      ++ "\x7d\x7d to \x7b\x7bGitCommit|rB".data ++ s2.take 10
      ++ "\x7d\x7d, inclusive.".data) (by decide) (by decide)
  have hsplit := splitNL_renderText m rl rev s1 s2 st0 hhdr hnl1 hnl2 hnl3 hnl4
    (rstateAppendix_empty m rl (fun r => hrst r))
    (catLines_no_nl m hnokey hent)
  have hAll : catLines m = [] → ∀ K s r, getBucket m K s r = [] :=
    allEmpty_of_catLines_nil m hnokey hscopeA hscopeB
  have hcatflat : catLines m = BUGFIX_CATEGORIES.flatMap (fun p => mainCatBlock m p.1 p.2) := by
    unfold catLines
    rw [unsortedBlock_nil m hnokey, List.append_nil]
  rw [hsplit]
  by_cases hmid : catLines m = []
  · -- no category lines at all
    have hz0 : m.count0 = 0 := by
      rw [hc0]
      apply List.sum_eq_zero
      intro x hx
      obtain ⟨p, hp, rfl⟩ := List.mem_map.1 hx
      apply List.sum_eq_zero
      intro y hy
      obtain ⟨s, hs, rfl⟩ := List.mem_map.1 hy
      rw [show (alGet s (catGet m (some p.1)).1).getD [] = []
        from hAll hmid (some p.1) s true]
      rfl
    have hz1 : m.count1 = 0 := by
      rw [hc1]
      apply List.sum_eq_zero
      intro x hx
      obtain ⟨p, hp, rfl⟩ := List.mem_map.1 hx
      apply List.sum_eq_zero
      intro y hy
      obtain ⟨s, hs, rfl⟩ := List.mem_map.1 hy
      rw [show (alGet s (catGet m (some p.1)).2).getD [] = []
        from hAll hmid (some p.1) s false]
      rfl
    have hre : (hdrLines rev s1 s2 st0 m.count0 m.count1
        ++ (if (catLines m).isEmpty then [[]] else catLines m)) ++ tailLines
      = ("= Blender ".data ++ rev ++ ": Bug Fixes =".data) :: ([] : Str)
        :: ("[".data ++ st0 ++ "] ".data
            ++ "Changes from revision \x7b\x7bGitCommit|rB".data ++ s1.take 10
            ++ "\x7d\x7d to \x7b\x7bGitCommit|rB".data ++ s2.take 10
            ++ "\x7d\x7d, inclusive.".data)
        :: ([] : Str) :: IGNORE_START_LINE :: totalLine m.count0 m.count1
        :: ([] : Str) :: noteBlock :: IGNORE_END_LINE :: ([] : Str)
        :: ([] : Str) :: IGNORE_START_LINE :: ([] : Str) :: "<hr/>".data
        :: ([] : Str) :: IGNORE_END_LINE :: ([] : Str) :: [] := by
      rw [hmid]
      unfold hdrLines tailLines
      simp only [List.isEmpty_nil, if_true, List.cons_append, List.nil_append]
    rw [hre]
    have hloop : parseHeaderLoop false
        [pyStrip " \n".data ("= Blender ".data ++ rev ++ ": Bug Fixes =".data)]
        (([] : Str) :: ("[".data ++ st0 ++ "] ".data
            ++ "Changes from revision \x7b\x7bGitCommit|rB".data ++ s1.take 10
            ++ "\x7d\x7d to \x7b\x7bGitCommit|rB".data ++ s2.take 10
            ++ "\x7d\x7d, inclusive.".data)
          :: ([] : Str) :: IGNORE_START_LINE :: totalLine m.count0 m.count1
          :: ([] : Str) :: noteBlock :: IGNORE_END_LINE :: ([] : Str)
          :: ([] : Str) :: IGNORE_START_LINE :: ([] : Str) :: "<hr/>".data
          :: ([] : Str) :: IGNORE_END_LINE :: ([] : Str) :: [])
        = (false,
            [pyStrip " \n".data ("= Blender ".data ++ rev ++ ": Bug Fixes =".data)]
              ++ [[]] ++ [pyStrip " \n".data ("[".data ++ st0 ++ "] ".data
                ++ "Changes from revision \x7b\x7bGitCommit|rB".data ++ s1.take 10
                ++ "\x7d\x7d to \x7b\x7bGitCommit|rB".data ++ s2.take 10
                ++ "\x7d\x7d, inclusive.".data)] ++ [[]] ++ [[]] ++ [[]] ++ [[]],
            none, []) := by
      rw [headerPhase _ _ m.count0 m.count1 _ hL3end hL3start hL3dd]
      rw [pH_collect _ [] _ (by decide) (by decide) (by decide)]
      rw [pH_startIgn false _ IGNORE_START_LINE _ (by decide) (by decide)]
      rw [pH_underIgn _ [] _ (by decide)]
      rw [pH_underIgn _ ("<hr/>".data) _ (by decide)]
      rw [pH_underIgn _ [] _ (by decide)]
      rw [pH_endIgn _ _ IGNORE_END_LINE _ (by decide)]
      rw [pH_collect _ [] _ (by decide) (by decide) (by decide)]
      rfl
    simp only [release_log_parse, findFirst_cons _ _ hL1end hL1start, hloop]
    refine ⟨?_, ?_, ?_⟩
    · intro K s r
      rw [hAll hmid K s r]
      cases r <;> rfl
    · rw [hz0]
    · rw [hz1]
  · -- at least one rendered block
    have hmide : (catLines m).isEmpty = false := by
      cases hie : (catLines m).isEmpty
      · rfl
      · exact absurd (List.isEmpty_iff.1 hie) hmid
    have hre : (hdrLines rev s1 s2 st0 m.count0 m.count1
        ++ (if (catLines m).isEmpty then [[]] else catLines m)) ++ tailLines
      = ("= Blender ".data ++ rev ++ ": Bug Fixes =".data) :: ([] : Str)
        :: ("[".data ++ st0 ++ "] ".data
            ++ "Changes from revision \x7b\x7bGitCommit|rB".data ++ s1.take 10
            ++ "\x7d\x7d to \x7b\x7bGitCommit|rB".data ++ s2.take 10
            ++ "\x7d\x7d, inclusive.".data)
        :: ([] : Str) :: IGNORE_START_LINE :: totalLine m.count0 m.count1
        :: ([] : Str) :: noteBlock :: IGNORE_END_LINE :: ([] : Str)
        :: ((BUGFIX_CATEGORIES.flatMap (fun p => mainCatBlock m p.1 p.2))
            ++ (IGNORE_START_LINE :: ([] : Str) :: "<hr/>".data :: ([] : Str)
                :: IGNORE_END_LINE :: ([] : Str) :: [])) := by
      rw [hmide]
      unfold hdrLines tailLines
      rw [← hcatflat]
      simp only [Bool.false_eq_true, if_false, List.cons_append, List.nil_append]
    rw [hre]
    rcases parseHeaderLoop_blocks m BUGFIX_CATEGORIES
        ([pyStrip " \n".data ("= Blender ".data ++ rev ++ ": Bug Fixes =".data)]
          ++ [[]] ++ [pyStrip " \n".data ("[".data ++ st0 ++ "] ".data
            ++ "Changes from revision \x7b\x7bGitCommit|rB".data ++ s1.take 10
            ++ "\x7d\x7d to \x7b\x7bGitCommit|rB".data ++ s2.take 10
            ++ "\x7d\x7d, inclusive.".data)] ++ [[]] ++ [[]])
        (IGNORE_START_LINE :: ([] : Str) :: "<hr/>".data :: ([] : Str)
          :: IGNORE_END_LINE :: ([] : Str) :: [])
        tree_facts.1 with ⟨hall, -⟩ | ⟨M, rest2, heq, hbridge⟩
    · exact absurd (hcatflat.trans (List.flatMap_eq_nil_iff.2 hall)) hmid
    · have hloop2 : parseHeaderLoop false
          [pyStrip " \n".data ("= Blender ".data ++ rev ++ ": Bug Fixes =".data)]
          (([] : Str) :: ("[".data ++ st0 ++ "] ".data
              ++ "Changes from revision \x7b\x7bGitCommit|rB".data ++ s1.take 10
              ++ "\x7d\x7d to \x7b\x7bGitCommit|rB".data ++ s2.take 10
              ++ "\x7d\x7d, inclusive.".data)
            :: ([] : Str) :: IGNORE_START_LINE :: totalLine m.count0 m.count1
            :: ([] : Str) :: noteBlock :: IGNORE_END_LINE :: ([] : Str)
            :: ((BUGFIX_CATEGORIES.flatMap (fun p => mainCatBlock m p.1 p.2))
                ++ (IGNORE_START_LINE :: ([] : Str) :: "<hr/>".data :: ([] : Str)
                    :: IGNORE_END_LINE :: ([] : Str) :: [])))
          = (false,
              [pyStrip " \n".data ("= Blender ".data ++ rev ++ ": Bug Fixes =".data)]
                ++ [[]] ++ [pyStrip " \n".data ("[".data ++ st0 ++ "] ".data
                  ++ "Changes from revision \x7b\x7bGitCommit|rB".data ++ s1.take 10
                  ++ "\x7d\x7d to \x7b\x7bGitCommit|rB".data ++ s2.take 10
                  ++ "\x7d\x7d, inclusive.".data)] ++ [[]] ++ [[]],
              some (some M, none), rest2) := by
        rw [headerPhase _ _ m.count0 m.count1 _ hL3end hL3start hL3dd]
        exact heq
      simp only [release_log_parse, findFirst_cons _ _ hL1end hL1start, hloop2]
      rw [hbridge _ none none]
      exact final_assembly m _ rfl rfl rfl hent hscopeA hscopeB hc0 hc1

/-- Keys other than the addressed main key are untouched by `catsApp`. -/
theorem alGet_catsApp_ne (mainK subK : Option Str) (rep : Bool) (e : Str) (k : Option Str)
    (hk : k ≠ mainK) : ∀ (cats : List (Option Str × CatPair)),
    alGet k (catsApp mainK subK rep e cats) = alGet k cats := by
  intro cats
  induction cats with
  | nil =>
    show alGet k [(mainK, if rep then ([(subK, [e])], []) else ([], [(subK, [e])]))]
        = alGet k []
    show (if mainK = k then _ else alGet k []) = alGet k []
    rw [if_neg (fun hh => hk hh.symm)]
  | cons p rest ih =>
    obtain ⟨k0, pr⟩ := p
    show alGet k (if k0 = mainK then
          (k0, if rep then (subApp subK e pr.1, pr.2) else (pr.1, subApp subK e pr.2)) :: rest
        else (k0, pr) :: catsApp mainK subK rep e rest)
      = alGet k ((k0, pr) :: rest)
    by_cases h0 : k0 = mainK
    · rw [if_pos h0]
      show (if k0 = k then _ else alGet k rest) = (if k0 = k then some pr else alGet k rest)
      rw [if_neg (fun hh => hk ((hh.symm).trans h0)), if_neg (fun hh => hk ((hh.symm).trans h0))]
    · rw [if_neg h0]
      show (if k0 = k then some pr else alGet k (catsApp mainK subK rep e rest))
        = (if k0 = k then some pr else alGet k rest)
      by_cases hk0 : k0 = k
      · rw [if_pos hk0, if_pos hk0]
      · rw [if_neg hk0, if_neg hk0, ih]

/-- With no release state the renderer dies with `TypeError`
(the malformed `%`-format of source line 255). -/
theorem gen_commit_pretty_none (c : Commit) :
    gen_commit_pretty c none = Except.error PyErr.typeErr := by
  have hgp : gen_commit_message_pretty c
      = ((gen_commit_message_pretty c).1, (gen_commit_message_pretty c).2) := rfl
  conv_lhs => rw [gen_commit_pretty, hgp]

/-- Validity of one accepted-commit call: the rendered entry line is
well-formed for its reported/unreported flag. -/
def CallOKb (call : Commit × (Nat × Option Nat) × Option Str) : Bool :=
  match gen_commit_pretty call.1 call.2.2 with
  | .error _ => false
  | .ok (entry, unrep) => EntryOKb entry (!unrep)

/-- Total length of the `r`-side buckets of `m` over a category list. -/
def csCount (m : RLog) (r : Bool) (cs : List (Str × List Str)) : Nat :=
  (cs.map (fun q => ((none :: q.2.map some).map
      (fun t => (getBucket m (some q.1) t r).length)).sum)).sum

theorem csCount_cons (m : RLog) (r : Bool) (q : Str × List Str) (cs : List (Str × List Str)) :
    csCount m r (q :: cs) = ((none :: q.2.map some).map
        (fun t => (getBucket m (some q.1) t r).length)).sum + csCount m r cs := by
  simp [csCount]

/-- Total length of the `r`-side buckets over the whole static tree. -/
def treeCount (m : RLog) (r : Bool) : Nat := csCount m r BUGFIX_CATEGORIES

/-- Bumping one element of a nodup list by `d` bumps the mapped sum by `d`. -/
theorem map_sum_bump {α : Type} (f g : α → Nat) (d : Nat) :
    ∀ (ts : List α) (sc : α), ts.Nodup → sc ∈ ts → f sc = g sc + d →
    (∀ t ∈ ts, t ≠ sc → f t = g t) →
    (ts.map f).sum = (ts.map g).sum + d := by
  intro ts
  induction ts with
  | nil =>
    intro sc _ hmem _ _
    exact absurd hmem (List.not_mem_nil sc)
  | cons a ts ih =>
    intro sc hnd hmem hbump hoth
    rcases List.mem_cons.1 hmem with rfl | hmem2
    · have hrest : ∀ t ∈ ts, f t = g t := by
        intro t ht
        apply hoth t (List.mem_cons_of_mem _ ht)
        intro heq
        rw [heq] at ht
        exact (List.nodup_cons.1 hnd).1 ht
      rw [List.map_cons, List.map_cons, List.sum_cons, List.sum_cons, hbump,
        List.map_congr_left hrest]
      omega
    · have ha : a ≠ sc := by
        intro heq
        rw [heq] at hnd
        exact (List.nodup_cons.1 hnd).1 hmem2
      rw [List.map_cons, List.map_cons, List.sum_cons, List.sum_cons,
        hoth a (List.mem_cons_self a ts) ha,
        ih sc (List.nodup_cons.1 hnd).2 hmem2 hbump
          (fun t ht hne => hoth t (List.mem_cons_of_mem _ ht) hne)]
      omega

/-- Appending to a main category outside the list leaves the count alone. -/
theorem csCount_other (m : RLog) (M : Str) (sc : Option Str) (R : Bool) (e : Str) (r : Bool) :
    ∀ (cs : List (Str × List Str)), (∀ q ∈ cs, q.1 ≠ M) →
    csCount (catAppend m (some M) sc R e) r cs = csCount m r cs := by
  intro cs
  induction cs with
  | nil => intro _; rfl
  | cons q cs ih =>
    intro hq
    rw [csCount_cons, csCount_cons, ih (fun q' h => hq q' (List.mem_cons_of_mem _ h))]
    have hmap : ((none :: q.2.map some).map
        (fun t => (getBucket (catAppend m (some M) sc R e) (some q.1) t r).length))
        = ((none :: q.2.map some).map (fun t => (getBucket m (some q.1) t r).length)) := by
      apply List.map_congr_left
      intro t _
      rw [getBucket_catAppend, if_neg]
      intro hh
      exact hq q (List.mem_cons_self _ _) (Option.some.inj hh.1)
    rw [hmap]

/-- Appending one entry to an in-scope bucket bumps exactly the matching
side's total count by one. -/
theorem csCount_catAppend (m : RLog) (M : Str) (sc : Option Str) (R : Bool) (e : Str) (r : Bool) :
    ∀ (cs : List (Str × List Str)), (cs.map (·.1)).Nodup →
    (∀ q ∈ cs, q.2.Nodup) →
    ∀ subs, (M, subs) ∈ cs → sc ∈ (none :: subs.map some) →
    csCount (catAppend m (some M) sc R e) r cs
      = csCount m r cs + (if r = R then 1 else 0) := by
  intro cs
  induction cs with
  | nil =>
    intro _ _ subs hmem _
    exact absurd hmem (List.not_mem_nil _)
  | cons q cs ih =>
    intro hnd hsubnd subs hmem hsc
    rcases List.mem_cons.1 hmem with heq | hmem2
    · have heq2 := heq.symm
      subst heq2
      have hMtail : ∀ q' ∈ cs, q'.1 ≠ M := by
        intro q' hq' heq3
        apply (List.nodup_cons.1 hnd).1
        show M ∈ List.map (fun x => x.1) cs
        rw [← heq3]
        exact List.mem_map_of_mem (fun x => x.1) hq'
      rw [csCount_cons, csCount_cons,
        csCount_other m M sc R e r cs hMtail]
      dsimp only []
      have hnd2 : (none :: subs.map some).Nodup := by
        refine List.nodup_cons.2 ⟨by simp, ?_⟩
        exact ((hsubnd (M, subs) (List.mem_cons_self _ _))).map (Option.some_injective _)
      have hbump : (getBucket (catAppend m (some M) sc R e) (some M) sc r).length
          = (getBucket m (some M) sc r).length + (if r = R then 1 else 0) := by
        rw [getBucket_catAppend]
        by_cases hr : r = R
        · rw [if_pos ⟨rfl, rfl, hr⟩, if_pos hr, List.length_append]
          rfl
        · rw [if_neg (fun hh => hr hh.2.2), if_neg hr]
          rfl
      have hoth : ∀ t ∈ (none :: subs.map some), t ≠ sc →
          (getBucket (catAppend m (some M) sc R e) (some M) t r).length
            = (getBucket m (some M) t r).length := by
        intro t ht hne
        rw [getBucket_catAppend, if_neg (fun hh => hne hh.2.1)]
      rw [map_sum_bump _ _ _ (none :: subs.map some) sc hnd2 hsc hbump hoth]
      omega
    · have hqM : q.1 ≠ M := by
        intro heq2
        apply (List.nodup_cons.1 hnd).1
        show q.1 ∈ List.map (fun x => x.1) cs
        rw [heq2]
        exact List.mem_map_of_mem (fun x => x.1) hmem2
      rw [csCount_cons, csCount_cons,
        ih (List.nodup_cons.1 hnd).2 (fun q' hq' => hsubnd q' (List.mem_cons_of_mem _ hq'))
          subs hmem2 hsc]
      have hmap : ((none :: q.2.map some).map
          (fun t => (getBucket (catAppend m (some M) sc R e) (some q.1) t r).length))
          = ((none :: q.2.map some).map (fun t => (getBucket m (some q.1) t r).length)) := by
        apply List.map_congr_left
        intro t _
        rw [getBucket_catAppend, if_neg (fun hh => hqM (Option.some.inj hh.1))]
      rw [hmap]
      omega

/-- Distinct tree entries have distinct main-category names. -/
theorem tree_key_inj : ∀ p ∈ BUGFIX_CATEGORIES, ∀ q ∈ BUGFIX_CATEGORIES,
    p.1 = q.1 → p = q := by decide

/-- The state invariant maintained by the review loop: fresh header,
untouched release-state lists, no uncategorized bucket, well-formed
entries confined to the static tree, and counters equal to the stored
totals. -/
def LoopInv (rev s1 s2 st0 : Str) (rl : List Str) (m : RLog) : Prop :=
  m.header = freshHeader rev s1 s2 (some st0)
  ∧ m.rstates = rstatesInit rl
  ∧ alGet none m.cats = none
  ∧ (∀ p ∈ BUGFIX_CATEGORIES, ∀ k,
      (∀ e ∈ getBucket m (some p.1) k true, EntryOKb e true = true)
      ∧ (∀ e ∈ getBucket m (some p.1) k false, EntryOKb e false = true))
  ∧ (∀ K, (∀ p ∈ BUGFIX_CATEGORIES, K ≠ some p.1) → ∀ s r, getBucket m K s r = [])
  ∧ (∀ p ∈ BUGFIX_CATEGORIES, ∀ s, s ∉ (none :: p.2.map some) →
      ∀ r, getBucket m (some p.1) s r = [])
  ∧ m.count0 = treeCount m true
  ∧ m.count1 = treeCount m false

set_option maxHeartbeats 2000000 in
set_option maxRecDepth 10000 in
/-- The fresh model satisfies the invariant. -/
theorem LoopInv_fresh (rev s1 s2 st0 : Str) (rl : List Str) :
    LoopInv rev s1 s2 st0 rl (release_log_fresh rev s1 s2 (some st0) rl) := by
  refine ⟨rfl, rfl, rfl, ?_, ?_, ?_, rfl, rfl⟩
  · intro p hp k
    constructor
    · intro e he
      have hz : getBucket (release_log_fresh rev s1 s2 (some st0) rl) (some p.1) k true
          = [] := rfl
      rw [hz] at he
      exact absurd he (List.not_mem_nil e)
    · intro e he
      have hz : getBucket (release_log_fresh rev s1 s2 (some st0) rl) (some p.1) k false
          = [] := rfl
      rw [hz] at he
      exact absurd he (List.not_mem_nil e)
  · intro K _ s r
    cases r <;> rfl
  · intro p _ s _ r
    cases r <;> rfl

/-- Core step: appending one well-formed entry to an in-scope bucket and
bumping the matching counter preserves the loop invariant. -/
theorem LoopInv_step (rev s1 s2 st0 : Str) (rl : List Str) (m m2 : RLog)
    (M : Str) (subs : List Str) (subCat : Option Str) (R : Bool) (entry : Str)
    (hmem : (M, subs) ∈ BUGFIX_CATEGORIES)
    (hsubin : subCat ∈ (none :: subs.map some))
    (hEntry : EntryOKb entry R = true)
    (hInv : LoopInv rev s1 s2 st0 rl m)
    (hhdr2 : m2.header = m.header)
    (hrst2 : m2.rstates = m.rstates)
    (hcats2 : m2.cats = (catAppend m (some M) subCat R entry).cats)
    (hcnt0 : m2.count0 = m.count0 + (if R then 1 else 0))
    (hcnt1 : m2.count1 = m.count1 + (if R then 0 else 1)) :
    LoopInv rev s1 s2 st0 rl m2 := by
  unfold LoopInv at hInv ⊢
  obtain ⟨h1, h2, h3, h4, h5, h6, h7, h8⟩ := hInv
  have hgb : ∀ K s r, getBucket m2 K s r
      = getBucket (catAppend m (some M) subCat R entry) K s r := by
    intro K s r
    unfold getBucket catGet
    rw [hcats2]
  have hcc : ∀ r, treeCount m2 r = treeCount (catAppend m (some M) subCat R entry) r := by
    intro r
    unfold treeCount csCount
    apply congrArg List.sum
    apply List.map_congr_left
    intro q _
    apply congrArg List.sum
    apply List.map_congr_left
    intro t _
    rw [hgb]
  refine ⟨hhdr2.trans h1, hrst2.trans h2, ?_, ?_, ?_, ?_, ?_, ?_⟩
  · rw [hcats2]
    show alGet none (catsApp (some M) subCat R entry m.cats) = none
    rw [alGet_catsApp_ne _ _ _ _ none (fun hh => Option.noConfusion hh) m.cats]
    exact h3
  · intro p hp k
    refine ⟨?_, ?_⟩
    · intro e he
      rw [hgb, getBucket_catAppend] at he
      split at he
      · next hc =>
        rcases List.mem_append.1 he with hin | hin
        · exact (h4 p hp k).1 e hin
        · rw [List.mem_singleton] at hin
          rw [hin]
          rw [← hc.2.2] at hEntry
          exact hEntry
      · exact (h4 p hp k).1 e he
    · intro e he
      rw [hgb, getBucket_catAppend] at he
      split at he
      · next hc =>
        rcases List.mem_append.1 he with hin | hin
        · exact (h4 p hp k).2 e hin
        · rw [List.mem_singleton] at hin
          rw [hin]
          rw [← hc.2.2] at hEntry
          exact hEntry
      · exact (h4 p hp k).2 e he
  · intro K hK s r
    rw [hgb, getBucket_catAppend, if_neg (fun hh => hK (M, subs) hmem hh.1)]
    exact h5 K hK s r
  · intro p hp s hs r
    rw [hgb, getBucket_catAppend, if_neg ?hcneg]
    case hcneg =>
      intro hh
      have hpq : p = (M, subs) := tree_key_inj p hp (M, subs) hmem (Option.some.inj hh.1)
      apply hs
      rw [hpq, hh.2.1]
      exact hsubin
    exact h6 p hp s hs r
  · have hb := csCount_catAppend m M subCat R entry true BUGFIX_CATEGORIES
      tree_facts.2.2.2 tree_facts.2.2.1 subs hmem hsubin
    rw [hcnt0, hcc true]
    show m.count0 + (if R then 1 else 0)
      = csCount (catAppend m (some M) subCat R entry) true BUGFIX_CATEGORIES
    rw [hb]
    show m.count0 + (if R then 1 else 0) = treeCount m true + (if true = R then 1 else 0)
    rw [← h7]
    cases R
    · rfl
    · rfl
  · have hb := csCount_catAppend m M subCat R entry false BUGFIX_CATEGORIES
      tree_facts.2.2.2 tree_facts.2.2.1 subs hmem hsubin
    rw [hcnt1, hcc false]
    show m.count1 + (if R then 0 else 1)
      = csCount (catAppend m (some M) subCat R entry) false BUGFIX_CATEGORIES
    rw [hb]
    show m.count1 + (if R then 0 else 1) = treeCount m false + (if false = R then 1 else 0)
    rw [← h8]
    cases R
    · rfl
    · rfl

/-- One successful, well-formed `addEntry` call preserves the loop
invariant.  Success forces an untracked release state, so the
release-state lists never change. -/
theorem addEntry_inv (rev s1 s2 st0 : Str) (rl : List Str) (m : RLog)
    (c : Commit) (cat : Nat × Option Nat) (rst : Option Str) (m' : RLog)
    (hInv : LoopInv rev s1 s2 st0 rl m)
    (hok : CallOKb (c, cat, rst) = true)
    (h : addEntry m c cat rst = .ok m') :
    LoopInv rev s1 s2 st0 rl m' := by
  obtain ⟨i, oj⟩ := cat
  unfold addEntry at h
  split at h
  · exact Except.noConfusion h
  · next M subs hidx =>
    have hmem : (M, subs) ∈ BUGFIX_CATEGORIES := List.get?_mem hidx
    split at h
    · exact Except.noConfusion h
    · next subCat hsub =>
      have hsubin : subCat ∈ (none :: subs.map some) := by
        dsimp only [] at hsub
        cases oj with
        | none =>
          simp only [] at hsub
          injection hsub with hs2
          rw [← hs2]
          exact List.mem_cons_self _ _
        | some j =>
          simp only [] at hsub
          cases hj : subs.get? j with
          | none =>
            rw [hj] at hsub
            exact Except.noConfusion hsub
          | some sc =>
            rw [hj] at hsub
            injection hsub with hs2
            rw [← hs2]
            exact List.mem_cons_of_mem _ (List.mem_map_of_mem some (List.get?_mem hj))
      split at h
      · exact Except.noConfusion h
      · next entry unrep hpret =>
        cases rst with
        | none =>
          rw [gen_commit_pretty_none] at hpret
          exact Except.noConfusion hpret
        | some st =>
          have hE : EntryOKb entry (!unrep) = true := by
            unfold CallOKb at hok
            dsimp only [] at hok
            rw [hpret] at hok
            exact hok
          simp only [] at h
          cases unrep with
          | true =>
            simp only [if_true] at h
            split at h
            · rw [gen_commit_pretty_none] at h
              exact Except.noConfusion h
            · injection h with hm
              rw [← hm]
              exact LoopInv_step rev s1 s2 st0 rl m _ M subs subCat false entry
                hmem hsubin hE hInv rfl rfl rfl rfl rfl
          | false =>
            simp only [Bool.false_eq_true, if_false] at h
            split at h
            · rw [gen_commit_pretty_none] at h
              exact Except.noConfusion h
            · injection h with hm
              rw [← hm]
              exact LoopInv_step rev s1 s2 st0 rl m _ M subs subCat true entry
                hmem hsubin hE hInv rfl rfl rfl rfl rfl

/-- The loop invariant holds after any run of successful, well-formed
`addEntry` calls. -/
theorem addEntries_inv (rev s1 s2 st0 : Str) (rl : List Str) :
    ∀ (calls : List (Commit × (Nat × Option Nat) × Option Str)) (m m' : RLog),
    LoopInv rev s1 s2 st0 rl m →
    (∀ call ∈ calls, CallOKb call = true) →
    addEntries m calls = .ok m' → LoopInv rev s1 s2 st0 rl m' := by
  intro calls
  induction calls with
  | nil =>
    intro m m' hInv _ h
    simp only [addEntries, Except.ok.injEq] at h
    rw [← h]
    exact hInv
  | cons hd tl ih =>
    intro m m' hInv hok h
    obtain ⟨c, cat, rst⟩ := hd
    unfold addEntries at h
    split at h
    · exact Except.noConfusion h
    · next m1 heq =>
      exact ih m1 m'
        (addEntry_inv rev s1 s2 st0 rl m c cat rst m1 hInv
          (hok (c, cat, rst) (List.mem_cons_self _ _)) heq)
        (fun call hc => hok call (List.mem_cons_of_mem _ hc)) h

/-- C1 (amended): for a model built purely through successful `addEntry`
calls whose rendered entry lines are well-formed for their
reported/unreported flag (`CallOKb`), and header arguments free of
newlines and `<`, re-parsing the rendered document reproduces every
`(main, sub, reported?)` bucket and both counters; the header is
regenerated and excluded.  The unrestricted original claim fails:
`C1_counterexample_reparse_flips` builds a model through one `addEntry`
call whose unreported prose contains the literal marker text
`Fix \x7b\x7bBugReport|`, and re-parsing flips its counts from `(0, 1)`
to `(1, 0)`. -/
theorem C1_amended_roundtrip (branch rev s1 s2 st0 : Str) (rl : List Str)
    (calls : List (Commit × (Nat × Option Nat) × Option Str)) (m : RLog)
    (hrun : addEntries (release_log_fresh rev s1 s2 (some st0) rl) calls = .ok m)
    (hcall : ∀ call ∈ calls, CallOKb call = true)
    (hnl1 : '\n' ∉ rev) (hnl2 : '\n' ∉ s1.take 10) (hnl3 : '\n' ∉ s2.take 10)
    (hnl4 : '\n' ∉ st0)
    (hlt1 : '<' ∉ rev) (hlt2 : '<' ∉ s1.take 10) (hlt3 : '<' ∉ s2.take 10)
    (hlt4 : '<' ∉ st0) :
    (∀ K s r, getBucket (release_log_parse branch rev s1 s2 (some st0) rl
        (splitNL (renderText m rl))) K s r = getBucket m K s r)
    ∧ (release_log_parse branch rev s1 s2 (some st0) rl
        (splitNL (renderText m rl))).count0 = m.count0
    ∧ (release_log_parse branch rev s1 s2 (some st0) rl
        (splitNL (renderText m rl))).count1 = m.count1 := by
  have hI := addEntries_inv rev s1 s2 st0 rl calls _ m
    (LoopInv_fresh rev s1 s2 st0 rl) hcall hrun
  unfold LoopInv at hI
  obtain ⟨h1, h2, h3, h4, h5, h6, h7, h8⟩ := hI
  exact parse_roundtrip m branch rev s1 s2 st0 rl h1
    (fun r => by rw [h2]; exact rstatesInit_getD rl r)
    hnl1 hnl2 hnl3 hnl4 hlt1 hlt4 hlt2 hlt3 h3 h4 h5 h6 h7 h8

/-- One accepted commit used by the C1 witness run. -/
def c1wcalls : List (Commit × (Nat × Option Nat) × Option Str) :=
  [(⟨"abcdef12345678".data, "Fix T123: crash".data⟩, (0, none), some "alpha".data)]

/-- The model the C1 witness run produces. -/
def c1wm : RLog :=
  match addEntries (release_log_fresh "2.79".data "1234567890".data "fedcba0987".data
      (some "RC1".data) []) c1wcalls with
  | .ok m => m
  | .error _ => release_log_fresh [] [] [] none []

set_option maxRecDepth 100000 in
/-- Witness for `C1_amended_roundtrip` on a concrete one-commit run. -/
theorem C1_amended_witness :
    addEntries (release_log_fresh "2.79".data "1234567890".data "fedcba0987".data
        (some "RC1".data) []) c1wcalls = .ok c1wm
    ∧ ((∀ K s r, getBucket (release_log_parse "master".data "2.79".data "1234567890".data
          "fedcba0987".data (some "RC1".data) []
          (splitNL (renderText c1wm []))) K s r = getBucket c1wm K s r)
      ∧ (release_log_parse "master".data "2.79".data "1234567890".data "fedcba0987".data
          (some "RC1".data) [] (splitNL (renderText c1wm []))).count0 = c1wm.count0
      ∧ (release_log_parse "master".data "2.79".data "1234567890".data "fedcba0987".data
          (some "RC1".data) [] (splitNL (renderText c1wm []))).count1 = c1wm.count1) :=
  ⟨rfl, C1_amended_roundtrip "master".data "2.79".data "1234567890".data "fedcba0987".data
    "RC1".data [] c1wcalls c1wm rfl (by decide) (by decide) (by decide) (by decide)
    (by decide) (by decide) (by decide) (by decide) (by decide)⟩
